import Mathlib

/-!
# wg-apply: a shallow embedding of the reconciliation core

The Go packages `wgdiff`, `netconf`, `wgconf`, `ini` and `wgconf/wgquick` are embedded as
Lean functions.  Go maps are association lists with pairwise distinct keys; the order in
which a `range` statement visits a map is not fixed by the language, so every `range` over
a map is parameterised by a `RangeOrder`, an arbitrary family of permutations.  Calls into
the kernel are recorded as a trace, and the kernel answers as a function of the calls made
so far.  Functions of libraries outside the repository are parameters (`NetLib`,
`wgquick.Env`).
-/

set_option autoImplicit false

/-! ## Go maps -/

/-- The visiting order of `range` over a map: for the `t`-th range statement and a map with
`n` entries, `pick t n` is a permutation of the entry positions `0 .. n-1`. -/
structure RangeOrder where
  pick : Nat → Nat → List Nat
  perm : ∀ t n, (pick t n).Perm (List.range n)

namespace RangeOrder

/-- The entries of `m` in the order the `t`-th range statement visits them. -/
def order {α : Type} (ρ : RangeOrder) (t : Nat) (m : List α) : List α :=
  (ρ.pick t m.length).filterMap (fun i => m[i]?)

/-- Visit the entries in insertion order. -/
def insertion : RangeOrder where
  pick := fun _ n => List.range n
  perm := fun _ _ => List.Perm.refl _

/-- Visit the entries in reverse insertion order. -/
def reversed : RangeOrder where
  pick := fun _ n => (List.range n).reverse
  perm := fun _ n => List.reverse_perm (List.range n)

end RangeOrder

namespace GoMap

variable {κ α : Type} [DecidableEq κ]

/-- Assignment `m[k] = v`: overwrite the entry of `k` when present, else add one. -/
def set : List (κ × α) → κ → α → List (κ × α)
  | [], k, v => [(k, v)]
  | (k0, v0) :: t, k, v => if k0 = k then (k, v) :: t else (k0, v0) :: set t k v

/-- The builtin `delete(m, k)`. -/
def delete (m : List (κ × α)) (k : κ) : List (κ × α) :=
  m.filter (fun e => decide (e.1 ≠ k))

/-- The lookup `v, ok := m[k]`. -/
def get? : List (κ × α) → κ → Option α
  | [], _ => none
  | (k0, v0) :: t, k => if k0 = k then some v0 else get? t k

/-- The keys of a map. -/
def keys (m : List (κ × α)) : List κ := m.map Prod.fst

end GoMap

/-! ## Errors -/

/-- A Go `error` value.  `ErrProbeParserMismatch` is the package-level sentinel of `wgconf`,
compared by identity; every other error is identified with its message. -/
inductive Error where
  | ErrProbeParserMismatch : Error
  | mk (msg : String) : Error
  deriving DecidableEq, Repr

namespace Error

/-- The method `Error()`. -/
def message : Error → String
  | ErrProbeParserMismatch => "probe parser mismatch"
  | mk msg => msg

end Error

/-! ## Library types (`net`, `wgtypes`) -/

/-- Modelled from the spec: the type `net.IPNet` of the Go standard library, an address and
a mask, both byte strings. -/
structure IPNet where
  IP : List Nat
  Mask : List Nat
  deriving DecidableEq, Repr

/-- Modelled from the spec: the type `wgtypes.Key`, fixed-size key material. -/
structure Key where
  bytes : List Nat
  deriving DecidableEq, Repr

/-- The zero value of `wgtypes.Key`: 32 zero bytes. -/
def Key.zero : Key := ⟨List.replicate 32 0⟩

/-- Modelled from the spec: the type `net.UDPAddr`, a host and a port. -/
structure UDPAddr where
  IP : List Nat
  Port : Int
  Zone : String
  deriving DecidableEq, Repr

/-- Modelled from the spec: the type `wgtypes.Peer`, a peer of a live device with its
handshake time and transfer counters. -/
structure Peer where
  PublicKey : Key
  PresharedKey : Key
  Endpoint : Option UDPAddr
  PersistentKeepaliveInterval : Int
  LastHandshakeTime : Int
  ReceiveBytes : Int
  TransmitBytes : Int
  AllowedIPs : List IPNet
  ProtocolVersion : Int
  deriving DecidableEq, Repr

/-- Modelled from the spec: the type `wgtypes.PeerConfig`, one entry of a device
configuration; the zero value has every field empty or false. -/
structure PeerConfig where
  PublicKey : Key := Key.zero
  Remove : Bool := false
  UpdateOnly : Bool := false
  PresharedKey : Option Key := none
  Endpoint : Option UDPAddr := none
  PersistentKeepaliveInterval : Option Int := none
  ReplaceAllowedIPs : Bool := false
  AllowedIPs : List IPNet := []
  deriving DecidableEq, Repr

/-- Modelled from the spec: the type `wgtypes.Config`, a device configuration. -/
structure WgConfig where
  PrivateKey : Option Key := none
  ListenPort : Option Int := none
  FirewallMark : Option Int := none
  ReplacePeers : Bool := false
  Peers : List PeerConfig := []
  deriving DecidableEq, Repr

/-- Modelled from the spec: the type `wgtypes.Device`, the live state of a device. -/
structure Device where
  Name : String
  PrivateKey : Key
  PublicKey : Key
  ListenPort : Int
  FirewallMark : Int
  Peers : List Peer
  deriving DecidableEq, Repr

/-! ## Package `wgdiff` -/

namespace wgdiff

/-- The map `oldPeers` after the first loop of `CalcDiff`: the current peers indexed by
public key. -/
def indexPeers : List Peer → List (Key × Peer) → List (Key × Peer)
  | [], m => m
  | p :: ps, m => indexPeers ps (GoMap.set m p.PublicKey p)

/-- The second loop of `CalcDiff`: drop every desired public key from `oldPeers`. -/
def dropDesired : List PeerConfig → List (Key × Peer) → List (Key × Peer)
  | [], m => m
  | p :: ps, m => dropDesired ps (GoMap.delete m p.PublicKey)

/-- The function `CalcDiff`; an absent current device is `none`. -/
def CalcDiff (ρ : RangeOrder) (current : Option Device) (desired : WgConfig) :
    WgConfig × Option Error :=
  match current with
  | none => (desired, none)
  | some cur =>
    let oldPeers := dropDesired desired.Peers (indexPeers cur.Peers [])
    let removals : List PeerConfig :=
      (ρ.order 0 oldPeers).map (fun e => { PublicKey := e.2.PublicKey, Remove := true })
    ({ PrivateKey := desired.PrivateKey
       ListenPort := desired.ListenPort
       FirewallMark := desired.FirewallMark
       Peers := desired.Peers ++ removals }, none)

end wgdiff

/-! ## Package `netconf` -/

/-- Modelled from the spec: the functions of the Go standard library `net` that the
reconciler calls: `IP.String`, the first result of `IPMask.Size`, `IPNet.String` and
`CIDRMask`.  They are parameters of the embedding. -/
structure NetLib where
  ipString : List Nat → String
  maskSize : List Nat → Int
  ipNetString : IPNet → String
  cidrMask : Int → Int → List Nat

/-- Modelled from the spec: the type `net.Interface`; `Index` is a Go `int`. -/
structure Interface where
  Index : Int
  Name : String
  deriving DecidableEq, Repr

/-- Modelled from the spec: the type `rtnetlink.RouteAttributes`. -/
structure RouteAttributes where
  Dst : List Nat
  Src : List Nat
  Gateway : List Nat
  OutIface : Nat
  Priority : Nat
  Table : Nat
  deriving DecidableEq, Repr

/-- Modelled from the spec: the type `rtnetlink.RouteMessage`, a route as the kernel
lists it. -/
structure RouteMessage where
  Family : Nat
  DstLength : Nat
  SrcLength : Nat
  Tos : Nat
  Table : Nat
  Protocol : Nat
  Scope : Nat
  RouteType : Nat
  Flags : Nat
  Attributes : RouteAttributes
  deriving DecidableEq, Repr

/-- The constant `unix.RT_TABLE_MAIN`. -/
def RT_TABLE_MAIN : Nat := 254

/-- The constant `unix.RTPROT_BOOT`. -/
def RTPROT_BOOT : Nat := 3

/-- The constant `unix.RTPROT_STATIC`. -/
def RTPROT_STATIC : Nat := 4

/-- The conversion `uint32(x)` of a Go `int`. -/
def uint32 (x : Int) : Nat := (x % 2 ^ 32).toNat

namespace netconf

/-- The type `NetworkConfig`. -/
structure NetworkConfig where
  Device : String := ""
  MTU : Option Nat := none
  Addresses : List IPNet := []
  Routes : List IPNet := []
  Table : Option Nat := none
  deriving DecidableEq, Repr

/-- A mutating netlink call issued by the reconciler. -/
inductive Call where
  | AddrDel (ifce : Interface) (addr : IPNet)
  | AddrAdd (ifce : Interface) (addr : IPNet)
  | RouteDelete (route : RouteMessage)
  | RouteAdd (ifce : Interface) (dst : IPNet) (table : Nat) (outIface : Nat)
  deriving DecidableEq, Repr

/-- The kernel as the reconciler sees it through the netlink connection: what the two
listing calls return, and whether a mutating call fails, given the calls issued before. -/
structure Kernel where
  Addrs : Interface → Except Error (List IPNet)
  RouteList : Except Error (List RouteMessage)
  respond : List Call → Call → Option Error

/-- Fill a map from a slice, `m[key a] = a` for each element in order. -/
def collect {α : Type} (key : α → String) : List α → List (String × α) → List (String × α)
  | [], m => m
  | a :: rest, m => collect key rest (GoMap.set m (key a) a)

/-- The inner loop of the labelled loops: range over the desired map until a key equal to
`oak` is met. -/
def dedupInner {β : Type} (oak : String) : List (String × β) → Option String
  | [] => none
  | (nak, _) :: rest => if oak = nak then some nak else dedupInner oak rest

/-- The labelled loops `addrDedupRouteOuter` and `routeDedupLoopOuter` (the same code for
two value types): `outer` is what is left of the range over the current map, `t` numbers the
next run of the inner range statement. -/
def dedupLoop {α β : Type} (ρ : RangeOrder) :
    Nat → List String → List (String × α) → List (String × β) →
      List (String × α) × List (String × β)
  | _, [], olds, news => (olds, news)
  | t, oak :: outer, olds, news =>
    match dedupInner oak (ρ.order t news) with
    | some nak => dedupLoop ρ (t + 1) outer (GoMap.delete olds oak) (GoMap.delete news nak)
    | none => dedupLoop ρ (t + 1) outer olds news

/-- The two maps once a labelled loop has run: `olds` is the current map, the desired map
is filled from the desired slice, and the common keys are dropped from both.  The first
result holds what to delete, the second what to add. -/
def reconcile {α β : Type} (ρ : RangeOrder) (key : β → String) (olds : List (String × α))
    (desired : List β) : List (String × α) × List (String × β) :=
  dedupLoop ρ 3 (GoMap.keys (ρ.order 0 olds)) olds (collect key desired [])

/-- Issue the calls of one loop in order, stopping at the first that fails; `hist` holds the
calls issued so far, `wrap` builds the error the function returns. -/
def runCalls (k : Kernel) (wrap : Call → Error → Error) :
    List Call → List Call → List Call × Option Error
  | hist, [] => (hist, none)
  | hist, c :: cs =>
    match k.respond hist c with
    | some e => (hist ++ [c], some (wrap c e))
    | none => runCalls k wrap (hist ++ [c]) cs

/-- The closure `addrToString` of `updateAddresses`. -/
def addrToString (lib : NetLib) (n : IPNet) : String :=
  lib.ipString n.IP ++ "/" ++ toString (lib.maskSize n.Mask)

/-- The address a call carries, for the error messages of `updateAddresses`. -/
def callAddr : Call → IPNet
  | Call.AddrDel _ a => a
  | Call.AddrAdd _ a => a
  | Call.RouteDelete _ => ⟨[], []⟩
  | Call.RouteAdd _ d _ _ => d

/-- The method `updateAddresses`: the calls issued, in order, and the error returned. -/
def updateAddresses (lib : NetLib) (ρ : RangeOrder) (k : Kernel) (c : NetworkConfig)
    (ifce : Interface) : List Call × Option Error :=
  match k.Addrs ifce with
  | Except.error e => ([], some (Error.mk ("failed to get old addresses: " ++ e.message)))
  | Except.ok oas =>
    let oldAddrs := collect (addrToString lib) oas []
    let rest := reconcile ρ (addrToString lib) oldAddrs c.Addresses
    let dels := runCalls k
      (fun call e => Error.mk ("failed to delete old address " ++ lib.ipNetString (callAddr call)
        ++ " on interface " ++ c.Device ++ ": " ++ e.message))
      [] ((ρ.order 1 rest.1).map (fun e => Call.AddrDel ifce e.2))
    match dels.2 with
    | some e => (dels.1, some e)
    | none =>
      runCalls k
        (fun call e => Error.mk ("failed to add new address " ++ lib.ipNetString (callAddr call)
          ++ " on interface " ++ c.Device ++ ": " ++ e.message))
        dels.1 ((ρ.order 2 rest.2).map (fun e => Call.AddrAdd ifce e.2))

/-- The closure `toIPNet` of `updateRoutes`. -/
def toIPNet (lib : NetLib) (route : RouteMessage) : IPNet :=
  { IP := route.Attributes.Dst
    Mask := lib.cidrMask route.DstLength (8 * route.Attributes.Dst.length) }

/-- The closure `tableOfRoute` of `updateRoutes`. -/
def tableOfRoute (route : RouteMessage) : Nat :=
  if route.Attributes.Table ≠ 0 then route.Attributes.Table
  else if route.Table ≠ 0 then route.Table
  else RT_TABLE_MAIN

/-- The target table of `updateRoutes`: the table of the model, or main. -/
def targetTable (c : NetworkConfig) : Nat :=
  match c.Table with
  | some t => t
  | none => RT_TABLE_MAIN

/-- The key of a kernel route in the map `oldRoutes`. -/
def routeKey (lib : NetLib) (route : RouteMessage) : String :=
  lib.ipNetString (toIPNet lib route)

/-- The loop of `updateRoutes` that fills `oldRoutes`, the current managed route set. -/
def managedRoutes (lib : NetLib) (table : Nat) (ifce : Interface) :
    List RouteMessage → List (String × RouteMessage) → List (String × RouteMessage)
  | [], m => m
  | oa :: rest, m =>
    if oa.Protocol ≠ RTPROT_BOOT ∧ oa.Protocol ≠ RTPROT_STATIC then
      managedRoutes lib table ifce rest m
    else if tableOfRoute oa = table ∧ oa.Attributes.OutIface = uint32 ifce.Index then
      managedRoutes lib table ifce rest (GoMap.set m (routeKey lib oa) oa)
    else
      managedRoutes lib table ifce rest m

/-- The key a route call is logged under, for the error messages of `updateRoutes`. -/
def callRouteKey (lib : NetLib) : Call → String
  | Call.RouteDelete r => routeKey lib r
  | Call.RouteAdd _ d _ _ => lib.ipNetString d
  | Call.AddrDel _ a => lib.ipNetString a
  | Call.AddrAdd _ a => lib.ipNetString a

/-- The method `updateRoutes`: the calls issued, in order, and the error returned. -/
def updateRoutes (lib : NetLib) (ρ : RangeOrder) (k : Kernel) (c : NetworkConfig)
    (ifce : Interface) : List Call × Option Error :=
  let table := targetTable c
  match k.RouteList with
  | Except.error e => ([], some (Error.mk ("failed to get old routes: " ++ e.message)))
  | Except.ok oas =>
    let oldRoutes := managedRoutes lib table ifce oas []
    let rest := reconcile ρ lib.ipNetString oldRoutes c.Routes
    let dels := runCalls k
      (fun call e => Error.mk ("failed to delete old route " ++ callRouteKey lib call
        ++ " on interface " ++ c.Device ++ ": " ++ e.message))
      [] ((ρ.order 1 rest.1).map (fun e => Call.RouteDelete e.2))
    match dels.2 with
    | some e => (dels.1, some e)
    | none =>
      runCalls k
        (fun call e => Error.mk ("failed to add new route " ++ callRouteKey lib call
          ++ " on interface " ++ c.Device ++ ": " ++ e.message))
        dels.1 ((ρ.order 2 rest.2).map
          (fun e => Call.RouteAdd ifce e.2 table (uint32 ifce.Index)))

end netconf

/-! ## Package `wgconf` -/

namespace wgconf

/-- The type `Config`, the result of an extraction.  `Network` holds the reference the
extractor stored, read when the extractor returns. -/
structure Config where
  Interface : String
  WireGuard : WgConfig
  Network : netconf.NetworkConfig
  deriving DecidableEq, Repr

/-- The type `ParserOptions`. -/
structure ParserOptions where
  ProbeParser : Bool
  Path : String
  Interface : String
  deriving DecidableEq, Repr

/-- The function `ExtractParserOptions`; a context is modelled by the options it carries,
if any. -/
def ExtractParserOptions (ctx : Option ParserOptions) : Option ParserOptions := ctx

/-- The type `Parser`: an extractor returns a configuration reference and an error, either
of which may be nil. -/
abbrev Parser := Option ParserOptions → Option Config × Option Error

/-- The function `RegisterParser`; the panic on a name already bound is `Except.error`. -/
def RegisterParser (parserList : List (String × Parser)) (name : String) (parser : Parser) :
    Except String (List (String × Parser)) :=
  match GoMap.get? parserList name with
  | some _ => Except.error ("parser already registered: " ++ name)
  | none => Except.ok (GoMap.set parserList name parser)

/-- What `Parse` returns, with the names of the extractors it called, in call order. -/
structure ParseResult where
  conf : Option Config
  err : Option Error
  invoked : List String
  deriving DecidableEq, Repr

/-- The probing loop of `Parse` over the registry entries in visiting order; `conf` is the
configuration reference the previous extractor returned. -/
def probe (ctx : Option ParserOptions) :
    List (String × Parser) → Option Config → List String → ParseResult
  | [], conf, tr =>
    ⟨conf, some (Error.mk "cannot detect correct parser, please specify explicitly"), tr⟩
  | (name, parser) :: rest, _, tr =>
    match parser ctx with
    | (conf, some e) =>
      if e = Error.ErrProbeParserMismatch then probe ctx rest conf (tr ++ [name])
      else ⟨conf, some e, tr ++ [name]⟩
    | (conf, none) => ⟨conf, none, tr ++ [name]⟩

/-- The function `Parse` over the registry `parserList`. -/
def Parse (ρ : RangeOrder) (parserList : List (String × Parser))
    (parser ifce path : String) : ParseResult :=
  let opts : ParserOptions :=
    { Interface := ifce, Path := path, ProbeParser := decide (parser = "") }
  if parser ≠ "" then
    match GoMap.get? parserList parser with
    | some p => ⟨(p (some opts)).1, (p (some opts)).2, [parser]⟩
    | none => ⟨none, some (Error.mk ("unknown parser: " ++ parser)), []⟩
  else
    probe (some opts) (ρ.order 0 parserList) none []

end wgconf

/-! ## Go strings -/

namespace strings

/-- The predicate `unicode.IsSpace`. -/
def isSpace (c : Char) : Bool :=
  let n := c.toNat
  (9 ≤ n && n ≤ 13) || n = 32 || n = 0x85 || n = 0xA0 || n = 0x1680 ||
    (0x2000 ≤ n && n ≤ 0x200a) || n = 0x2028 || n = 0x2029 || n = 0x202f ||
    n = 0x205f || n = 0x3000

/-- The function `strings.TrimSpace`, on the characters of a string. -/
def TrimSpace (s : List Char) : List Char :=
  ((s.dropWhile isSpace).reverse.dropWhile isSpace).reverse

/-- The function `strings.HasPrefix` for a one-character second argument. -/
def startsWith (c : Char) : List Char → Bool
  | [] => false
  | d :: _ => decide (d = c)

/-- The function `strings.Index` for a one-character second argument; `none` is `-1`. -/
def Index (c : Char) : List Char → Option Nat
  | [] => none
  | d :: rest => if d = c then some 0 else (Index c rest).map (fun i => i + 1)

/-- The function `strings.Split` for the separator `sep`. -/
def Split (sep : Char) : List Char → List (List Char)
  | [] => [[]]
  | d :: rest =>
    if d = sep then [] :: Split sep rest
    else
      match Split sep rest with
      | [] => [[d]]
      | w :: ws => (d :: w) :: ws

/-- The function `strings.Fields`, with the field being read in `cur`. -/
def fieldsAux : List Char → List Char → List (List Char)
  | [], cur => if cur = [] then [] else [cur]
  | d :: rest, cur =>
    if isSpace d then
      if cur = [] then fieldsAux rest [] else cur :: fieldsAux rest []
    else fieldsAux rest (cur ++ [d])

/-- The function `strings.Fields`. -/
def Fields (s : List Char) : List (List Char) := fieldsAux s []

/-- The function `strings.TrimSuffix`. -/
def TrimSuffix (s suffix : List Char) : List Char :=
  if suffix.isSuffixOf s then s.take (s.length - suffix.length) else s

end strings

/-! ## Package `ini` -/

namespace ini

/-- The type `Pair`. -/
structure Pair where
  Key : String
  Value : String
  deriving DecidableEq, Repr

/-- The type `Section`. -/
structure Section where
  Name : String
  Pairs : List Pair := []
  deriving DecidableEq, Repr

/-- The method `emplaceSection`; the reference it returns is to the last section of the
new file. -/
def emplaceSection (f : List Section) (name : String) : List Section :=
  f ++ [{ Name := name }]

/-- The statement `currentSection.Pairs = append(currentSection.Pairs, p)`, where
`currentSection` refers to the last section of the file. -/
def appendPair : List Section → Pair → List Section
  | [], _ => []
  | [s], p => [{ s with Pairs := s.Pairs ++ [p] }]
  | s :: t :: rest, p => s :: appendPair (t :: rest) p

/-- The closure `tryUnquote` of `ParseINI`; `unquote` is `strconv.Unquote`, and `none`
is the result `ok = false`. -/
def tryUnquote (unquote : String → Except Error String) (value : List Char) :
    Option String :=
  if !strings.startsWith '"' value then none
  else
    match strings.Index '"' (value.drop 1) with
    | none => none
    | some right =>
      let remaining := strings.TrimSpace (value.drop (right + 1))
      if remaining ≠ [] ∧ !strings.startsWith '#' remaining then none
      else
        match unquote (String.mk (value.take (right + 1))) with
        | Except.error _ => none
        | Except.ok unquoted => some unquoted

/-- One turn of the scanning loop of `ParseINI` on the line `text`: the file so far becomes
the new file, or the function returns with an error (and the file so far). -/
def scanLine (unquote : String → Except Error String) (file : List Section) (text : String) :
    Except Error (List Section) :=
  let line := strings.TrimSpace text.data
  if line = [] ∨ strings.startsWith '#' line then Except.ok file
  else if strings.startsWith '[' line then
    match strings.Index ']' line with
    | none => Except.error (Error.mk ("invalid section line: " ++ String.mk line))
    | some close =>
      let remaining := strings.TrimSpace (line.drop (close + 1))
      if remaining ≠ [] ∧ !strings.startsWith '#' remaining then
        Except.error (Error.mk ("invalid section line: " ++ String.mk line))
      else
        let name := strings.TrimSpace ((line.take close).drop 1)
        Except.ok (emplaceSection file (String.mk name))
  else if file = [] then
    Except.error (Error.mk ("out of section key-value: " ++ String.mk line))
  else
    match strings.Index '=' line with
    | none => Except.error (Error.mk ("invalid key-value line: " ++ String.mk line))
    | some eq =>
      let key := strings.TrimSpace (line.take eq)
      let value := strings.TrimSpace (line.drop (eq + 1))
      let value :=
        match tryUnquote unquote value with
        | some unquoted => unquoted.data
        | none =>
          match strings.Index '#' value with
          | some commentLeft => strings.TrimSpace (value.take commentLeft)
          | none => value
      Except.ok (appendPair file { Key := String.mk key, Value := String.mk value })

/-- The scanning loop of `ParseINI` over the lines the scanner yields. -/
def scanLines (unquote : String → Except Error String) :
    List Section → List String → List Section × Option Error
  | file, [] => (file, none)
  | file, text :: rest =>
    match scanLine unquote file text with
    | Except.error e => (file, some e)
    | Except.ok file2 => scanLines unquote file2 rest

/-- The function `ParseINI`, on the lines `bufio.Scanner` yields for the reader. -/
def ParseINI (unquote : String → Except Error String) (lines : List String) :
    List Section × Option Error :=
  scanLines unquote [] lines

end ini

/-! ## Package `wgconf/wgquick` -/

namespace wgquick

/-- Modelled from the spec: what lies outside the repository and the extractor calls: the
file system (`filepath.Abs`, `unix.Access` for reading, `os.Open` followed by the lines the
scanner yields), the path functions `filepath.Dir`, `path.Ext` and `path.Base`, and the
conversions `strconv.Unquote`, `rtnl.ParseAddr`, `strconv.Atoi`, `wgtypes.ParseKey`,
`strconv.ParseUint` with base 0 and 32 bits, `net.ParseCIDR` (its network result) and
`net.ResolveUDPAddr` for udp.  They are parameters of the embedding. -/
structure Env where
  Abs : String → Except Error String
  Dir : String → String
  Ext : String → String
  Base : String → String
  Access : String → Option Error
  Open : String → Except Error (List String)
  Unquote : String → Except Error String
  ParseAddr : String → Except Error IPNet
  Atoi : String → Except Error Int
  ParseKey : String → Except Error Key
  ParseUint32 : String → Except Error Nat
  ParseCIDR : String → Except Error IPNet
  ResolveUDPAddr : String → Except Error UDPAddr

/-- One turn of the scanning loop of `parseIproute2RtTables`. -/
def rtTablesLine (env : Env) (table : List (String × Nat)) (line : String) :
    List (String × Nat) :=
  if strings.startsWith '#' line.data then table
  else
    match strings.Fields line.data with
    | [] => table
    | [_] => table
    | f0 :: f1 :: more =>
      if more ≠ [] ∧ !strings.startsWith '#' (more.headD []) then table
      else
        match env.ParseUint32 (String.mk f0) with
        | Except.error _ => table
        | Except.ok id => GoMap.set table (String.mk f1) (id % 2 ^ 32)

/-- The function `parseIproute2RtTables`. -/
def parseIproute2RtTables (env : Env) : Option (List (String × Nat)) × Option Error :=
  match env.Open "/etc/iproute2/rt_tables" with
  | Except.error e => (none, some e)
  | Except.ok lines => (some (lines.foldl (rtTablesLine env) []), none)

/-- The variables of `parse` while it walks the sections: the configuration under
construction (`networkConf` is its `Network`), the flag `addAllowedIPsAsRoutes` and the
named result `err`. -/
structure State where
  conf : wgconf.Config
  addAllowedIPsAsRoutes : Bool
  err : Option Error
  deriving DecidableEq, Repr

/-- A statement of `parse` either goes on with new variables (`Except.ok`) or makes `parse`
return a configuration reference and an error (`Except.error`). -/
abbrev Step (σ : Type) := Except (Option wgconf.Config × Option Error) σ

/-- The loop over the comma-separated items of an `Address` value. -/
def addAddresses (env : Env) (value : String) : List (List Char) → State → Step State
  | [], st => Except.ok st
  | item :: rest, st =>
    let addrStr := String.mk (strings.TrimSpace item)
    if addrStr = "" then addAddresses env value rest st
    else
      match env.ParseAddr addrStr with
      | Except.error e =>
        Except.error (some st.conf, some (Error.mk ("failed to parse address " ++ addrStr
          ++ " in \"Address = " ++ value ++ "\": " ++ e.message)))
      | Except.ok address =>
        addAddresses env value rest
          { st with
            conf := { st.conf with
              Network := { st.conf.Network with
                Addresses := st.conf.Network.Addresses ++ [address] } }
            err := none }

/-- The body of the loop over the pairs of an `Interface` section. -/
def interfacePair (env : Env) (rtTables : List (String × Nat)) (pair : ini.Pair)
    (st : State) : Step State :=
  if pair.Key = "Address" then
    addAddresses env pair.Value (strings.Split ',' pair.Value.data) st
  else if pair.Key = "MTU" then
    match env.Atoi pair.Value with
    | Except.error e =>
      Except.error (some st.conf,
        some (Error.mk ("failed to parse MTU " ++ pair.Value ++ ": " ++ e.message)))
    | Except.ok mtu =>
      if mtu < 0 ∨ mtu > 65535 then
        Except.error (some st.conf, some (Error.mk ("invalid MTU " ++ toString mtu)))
      else
        Except.ok { st with
          conf := { st.conf with Network := { st.conf.Network with MTU := some (uint32 mtu) } }
          err := none }
  else if pair.Key = "PrivateKey" then
    match env.ParseKey pair.Value with
    | Except.error e =>
      Except.error (some st.conf, some (Error.mk ("failed to parse private key in \"PrivateKey = "
        ++ pair.Value ++ "\": " ++ e.message)))
    | Except.ok privkey =>
      Except.ok { st with
        conf := { st.conf with WireGuard := { st.conf.WireGuard with PrivateKey := some privkey } }
        err := none }
  else if pair.Key = "ListenPort" then
    match env.Atoi pair.Value with
    | Except.error e =>
      Except.error (some st.conf, some (Error.mk ("failed to parse listen port in \"ListenPort = "
        ++ pair.Value ++ "\": " ++ e.message)))
    | Except.ok port =>
      if port < 0 ∨ port > 65535 then
        Except.error (some st.conf, some (Error.mk ("invalid listen port " ++ toString port)))
      else
        Except.ok { st with
          conf := { st.conf with WireGuard := { st.conf.WireGuard with ListenPort := some port } }
          err := none }
  else if pair.Key = "Table" then
    if pair.Value = "off" then Except.ok { st with addAllowedIPsAsRoutes := false }
    else if pair.Value = "auto" then
      Except.ok { st with conf := { st.conf with Network := { st.conf.Network with Table := none } } }
    else
      match env.ParseUint32 pair.Value with
      | Except.ok table =>
        if table > 2 ^ 32 - 1 then
          Except.error (some st.conf, some (Error.mk ("invalid table number " ++ toString table)))
        else
          Except.ok { st with
            conf := { st.conf with
              Network := { st.conf.Network with Table := some (table % 2 ^ 32) } } }
      | Except.error _ =>
        match GoMap.get? rtTables pair.Value with
        | none => Except.error (some st.conf, some (Error.mk ("unknown table " ++ pair.Value)))
        | some table32 =>
          Except.ok { st with
            conf := { st.conf with Network := { st.conf.Network with Table := some table32 } } }
  else if pair.Key = "FwMark" then
    match env.ParseUint32 pair.Value with
    | Except.error e =>
      Except.error (some st.conf, some (Error.mk ("failed to parse fwmark in \"FwMark = "
        ++ pair.Value ++ "\": " ++ e.message)))
    | Except.ok fwmark64 =>
      Except.ok { st with
        conf := { st.conf with
          WireGuard := { st.conf.WireGuard with
            FirewallMark := some ((fwmark64 % 2 ^ 32 : Nat) : Int) } }
        err := none }
  else if pair.Key = "DNS" ∨ pair.Key = "PreUp" ∨ pair.Key = "PostUp" ∨ pair.Key = "PreDown" ∨
      pair.Key = "PostDown" ∨ pair.Key = "SaveConfig" then
    Except.ok st
  else
    Except.error (none, some (Error.mk ("unknown key-value pair in [Interface] section: "
      ++ pair.Key ++ " = " ++ pair.Value)))

/-- The loop over the pairs of an `Interface` section. -/
def interfacePairs (env : Env) (rtTables : List (String × Nat)) :
    List ini.Pair → State → Step State
  | [], st => Except.ok st
  | pair :: rest, st =>
    match interfacePair env rtTables pair st with
    | Except.error r => Except.error r
    | Except.ok st2 => interfacePairs env rtTables rest st2

/-- The loop over the comma-separated items of an `AllowedIPs` value; `peer` is the peer
under construction. -/
def addAllowedIPs (env : Env) (value : String) :
    List (List Char) → PeerConfig × State → Step (PeerConfig × State)
  | [], ps => Except.ok ps
  | item :: rest, (peer, st) =>
    let itemStr := String.mk (strings.TrimSpace item)
    if itemStr = "" then addAllowedIPs env value rest (peer, st)
    else
      match env.ParseCIDR itemStr with
      | Except.error e =>
        Except.error (some st.conf, some (Error.mk ("failed to parse prefix " ++ itemStr
          ++ " in \"AllowedIPs = " ++ value ++ "\": " ++ e.message)))
      | Except.ok net =>
        addAllowedIPs env value rest
          ({ peer with AllowedIPs := peer.AllowedIPs ++ [net] }, { st with err := none })

/-- The body of the loop over the pairs of a `Peer` section. -/
def peerPair (env : Env) (pair : ini.Pair) (ps : PeerConfig × State) :
    Step (PeerConfig × State) :=
  let peer := ps.1
  let st := ps.2
  if pair.Key = "PublicKey" then
    match env.ParseKey pair.Value with
    | Except.error e =>
      Except.error (some st.conf, some (Error.mk ("failed to parse public key in \"PublicKey = "
        ++ pair.Value ++ "\": " ++ e.message)))
    | Except.ok pubkey => Except.ok ({ peer with PublicKey := pubkey }, { st with err := none })
  else if pair.Key = "PresharedKey" then
    match env.ParseKey pair.Value with
    | Except.error e =>
      Except.error (some st.conf, some (Error.mk
        ("failed to parse preshared key in \"PresharedKey = " ++ pair.Value ++ "\": "
          ++ e.message)))
    | Except.ok psk => Except.ok ({ peer with PresharedKey := some psk }, { st with err := none })
  else if pair.Key = "AllowedIPs" then
    addAllowedIPs env pair.Value (strings.Split ',' pair.Value.data) (peer, st)
  else if pair.Key = "Endpoint" then
    match env.ResolveUDPAddr pair.Value with
    | Except.error e =>
      Except.error (some st.conf, some (Error.mk ("failed to parse endpoint in \"Endpoint = "
        ++ pair.Value ++ "\": " ++ e.message)))
    | Except.ok addr => Except.ok ({ peer with Endpoint := some addr }, { st with err := none })
  else if pair.Key = "PersistentKeepalive" then
    match env.Atoi pair.Value with
    | Except.error e =>
      Except.error (some st.conf, some (Error.mk
        ("failed to parse persistent keepalive in \"PersistentKeepalive = " ++ pair.Value
          ++ "\": " ++ e.message)))
    | Except.ok keepalive =>
      if keepalive < 0 ∨ keepalive > 65535 then
        Except.error (some st.conf,
          some (Error.mk ("invalid persistent keepalive " ++ toString keepalive)))
      else
        Except.ok ({ peer with PersistentKeepaliveInterval := some (keepalive * 1000000000) },
          { st with err := none })
  else
    Except.error (none, some (Error.mk ("unknown key-value pair in [Peer] section: "
      ++ pair.Key ++ " = " ++ pair.Value)))

/-- The loop over the pairs of a `Peer` section. -/
def peerPairs (env : Env) : List ini.Pair → PeerConfig × State → Step (PeerConfig × State)
  | [], ps => Except.ok ps
  | pair :: rest, ps =>
    match peerPair env pair ps with
    | Except.error r => Except.error r
    | Except.ok ps2 => peerPairs env rest ps2

/-- The body of the loop over the sections. -/
def walkSection (env : Env) (rtTables : List (String × Nat)) (sec : ini.Section)
    (st : State) : Step State :=
  if sec.Name = "Interface" then interfacePairs env rtTables sec.Pairs st
  else if sec.Name = "Peer" then
    match peerPairs env sec.Pairs ({ ReplaceAllowedIPs := true }, st) with
    | Except.error r => Except.error r
    | Except.ok (peer, st2) =>
      Except.ok { st2 with
        conf := { st2.conf with
          WireGuard := { st2.conf.WireGuard with Peers := st2.conf.WireGuard.Peers ++ [peer] } } }
  else Except.ok st

/-- The loop over the sections. -/
def walkSections (env : Env) (rtTables : List (String × Nat)) :
    List ini.Section → State → Step State
  | [], st => Except.ok st
  | sec :: rest, st =>
    match walkSection env rtTables sec st with
    | Except.error r => Except.error r
    | Except.ok st2 => walkSections env rtTables rest st2

/-- The first part of `parse`: from the options to the interface name and the path of the
document, or the error `parse` returns with. -/
def locate (env : Env) (opts : wgconf.ParserOptions) : Except Error (String × String) :=
  if opts.Interface = "" ∧ opts.Path = "" then
    Except.error (Error.mk "missing interface name or conf file path")
  else if opts.Path ≠ "" then
    let absPath :=
      match env.Abs opts.Path with
      | Except.ok p => p
      | Except.error _ => opts.Path
    if opts.ProbeParser = true ∧ env.Dir absPath ≠ "/etc/wireguard" then
      Except.error Error.ErrProbeParserMismatch
    else if opts.ProbeParser = true ∧ env.Ext absPath ≠ ".conf" then
      Except.error Error.ErrProbeParserMismatch
    else
      let ifceName :=
        if opts.Interface = "" then
          String.mk (strings.TrimSuffix (env.Base opts.Path).data ".conf".data)
        else ""
      Except.ok (ifceName, opts.Path)
  else
    let ifceName := opts.Interface
    let confPath := "/etc/wireguard/" ++ ifceName ++ ".conf"
    match env.Access confPath with
    | some ferr =>
      if opts.ProbeParser then Except.error Error.ErrProbeParserMismatch
      else Except.error (Error.mk ("failed to access conf file " ++ confPath ++ ": "
        ++ ferr.message))
    | none => Except.ok (ifceName, confPath)

/-- The function `parse`, the extractor registered under the name `wg-quick`. -/
def parse (env : Env) (ctx : Option wgconf.ParserOptions) :
    Option wgconf.Config × Option Error :=
  match wgconf.ExtractParserOptions ctx with
  | none => (none, some (Error.mk "missing parser options"))
  | some opts =>
    match locate env opts with
    | Except.error e => (none, some e)
    | Except.ok (ifceName, confPath) =>
      match env.Open confPath with
      | Except.error e =>
        (none, some (Error.mk ("failed to open conf file " ++ confPath ++ ": " ++ e.message)))
      | Except.ok lines =>
        match ini.ParseINI env.Unquote lines with
        | (_, some e) => (none, some (Error.mk ("failed to parse conf file: " ++ e.message)))
        | (iniFile, none) =>
          let conf : wgconf.Config :=
            { Interface := ifceName, WireGuard := {}, Network := { Device := ifceName } }
          let tables := parseIproute2RtTables env
          let rtTables := if tables.2.isSome then [] else tables.1.getD []
          match walkSections env rtTables iniFile ⟨conf, true, tables.2⟩ with
          | Except.error r => r
          | Except.ok st =>
            let routes :=
              if st.addAllowedIPsAsRoutes then
                st.conf.Network.Routes ++ st.conf.WireGuard.Peers.flatMap (fun p => p.AllowedIPs)
              else st.conf.Network.Routes
            (some { st.conf with Network := { st.conf.Network with Routes := routes } }, st.err)

/-- The registry once the package initialisers have run: `wg-quick` alone, registered by
the `init` function of `wgquick`. -/
def registry (env : Env) : List (String × wgconf.Parser) := [("wg-quick", parse env)]

end wgquick

/-! ## Definitions used to state the properties -/

namespace wgdiff

/-- A removal marker: a public key and the remove flag, every other field zero. -/
def removalMarker (k : Key) : PeerConfig :=
  { PublicKey := k
    Remove := true
    UpdateOnly := false
    PresharedKey := none
    Endpoint := none
    PersistentKeepaliveInterval := none
    ReplaceAllowedIPs := false
    AllowedIPs := [] }

end wgdiff

namespace netconf

/-- The addresses the delete calls of a trace carry. -/
def deletedAddrs : List Call → List IPNet
  | [] => []
  | Call.AddrDel _ a :: rest => a :: deletedAddrs rest
  | _ :: rest => deletedAddrs rest

/-- The addresses the add calls of a trace carry. -/
def addedAddrs : List Call → List IPNet
  | [] => []
  | Call.AddrAdd _ a :: rest => a :: addedAddrs rest
  | _ :: rest => addedAddrs rest

/-- The routes the delete calls of a trace carry. -/
def deletedRoutes : List Call → List RouteMessage
  | [] => []
  | Call.RouteDelete r :: rest => r :: deletedRoutes rest
  | _ :: rest => deletedRoutes rest

/-- The destinations the route add calls of a trace carry. -/
def addedRoutes : List Call → List IPNet
  | [] => []
  | Call.RouteAdd _ d _ _ :: rest => d :: addedRoutes rest
  | _ :: rest => addedRoutes rest

/-- A keyed current set once the computed deletes and adds are applied to it: the entry of
every key to delete is dropped, then every entry to add is stored under its key, `install`
being what the kernel holds for an added item. -/
def applyChanges {α β : Type} (install : β → α) (cur : List (String × α))
    (dels : List (String × α)) (adds : List (String × β)) : List (String × α) :=
  adds.foldl (fun m e => GoMap.set m e.1 (install e.2))
    (dels.foldl (fun m e => GoMap.delete m e.1) cur)

/-- An entry of the current managed route set as the filter of `updateRoutes` leaves it: keyed
by its destination, listed by the kernel, of boot or static origin, in the target table and
leaving through the target link. -/
def Managed (lib : NetLib) (c : NetworkConfig) (ifce : Interface) (oas : List RouteMessage)
    (e : String × RouteMessage) : Prop :=
  e.1 = routeKey lib e.2 ∧ e.2 ∈ oas ∧
  (e.2.Protocol = RTPROT_BOOT ∨ e.2.Protocol = RTPROT_STATIC) ∧
  tableOfRoute e.2 = targetTable c ∧ e.2.Attributes.OutIface = uint32 ifce.Index

/-- A kernel on which every mutating call succeeds. -/
def Kernel.obliging (addrs : List IPNet) (routes : List RouteMessage) : Kernel :=
  { Addrs := fun _ => Except.ok addrs
    RouteList := Except.ok routes
    respond := fun _ _ => none }

end netconf

namespace wgquick

/-- The configuration `parse` builds before it walks the sections. -/
def initialConf (ifceName : String) : wgconf.Config :=
  { Interface := ifceName, WireGuard := {}, Network := { Device := ifceName } }

/-- The last statements of `parse`: the allowed IPs of the peers become routes unless the
flag was cleared, and the configuration is returned with the named result `err`. -/
def finish (st : State) : Option wgconf.Config × Option Error :=
  (some { st.conf with
      Network := { st.conf.Network with
        Routes :=
          if st.addAllowedIPsAsRoutes then
            st.conf.Network.Routes ++ st.conf.WireGuard.Peers.flatMap (fun p => p.AllowedIPs)
          else st.conf.Network.Routes } },
    st.err)

/-- The part of `parse` that follows the tokenizer and the reading of the table mapping:
the walk over the sections of the document `doc` and the last statements, for the interface
name `ifceName`, the table mapping `rtTables` and the value `err0` the named result `err`
holds when the walk starts. -/
def extract (env : Env) (rtTables : List (String × Nat)) (err0 : Option Error)
    (ifceName : String) (doc : List ini.Section) : Option wgconf.Config × Option Error :=
  match walkSections env rtTables doc ⟨initialConf ifceName, true, err0⟩ with
  | Except.error r => r
  | Except.ok st => finish st

/-- The table mapping `parse` resolves names with: that of the mapping file, or the empty
mapping when the file cannot be opened. -/
def rtTablesOf (env : Env) : List (String × Nat) :=
  if (parseIproute2RtTables env).2.isSome then [] else (parseIproute2RtTables env).1.getD []

/-- The pair `Table = off`. -/
def isTableOff (p : ini.Pair) : Bool := decide (p.Key = "Table") && decide (p.Value = "off")

/-- Whether an `Interface` section of the document holds the pair `Table = off`. -/
def tableOff (doc : List ini.Section) : Bool :=
  doc.any (fun s => decide (s.Name = "Interface") && s.Pairs.any isTableOff)

/-- The document without the pairs `Table = off` of its `Interface` sections. -/
def dropTableOff (doc : List ini.Section) : List ini.Section :=
  doc.map (fun s =>
    if s.Name = "Interface" then { s with Pairs := s.Pairs.filter (fun p => !isTableOff p) }
    else s)

/-- The variables of `parse` with the flag `addAllowedIPsAsRoutes` set to `b`. -/
def setFlag (b : Bool) (st : State) : State := { st with addAllowedIPsAsRoutes := b }

/-- Whether a pair has the key `Table`. -/
def isTableKey (p : ini.Pair) : Bool := decide (p.Key = "Table")

/-- Whether no `Interface` section of the document holds a `Table` key. -/
def noTableKey (doc : List ini.Section) : Bool :=
  doc.all (fun s => !(decide (s.Name = "Interface")) || s.Pairs.all (fun p => !isTableKey p))

/-- The table ID the specification gives the value `v` of a `Table` key: none for `off` and
for `auto`, the number when `v` is an unsigned 32-bit integer, else the ID the mapping gives
the name `v`. -/
def tableOfValue (env : Env) (rtTables : List (String × Nat)) (v : String) : Option Nat :=
  if v = "off" ∨ v = "auto" then none
  else
    match env.ParseUint32 v with
    | Except.ok n => some n
    | Except.error _ => GoMap.get? rtTables v

/-- The keys `parse` accepts in an `Interface` section. -/
def interfaceKeys : List String :=
  ["Address", "MTU", "PrivateKey", "ListenPort", "Table", "FwMark", "DNS", "PreUp", "PostUp",
    "PreDown", "PostDown", "SaveConfig"]

/-- The keys `parse` accepts in an `Interface` section and ignores. -/
def ignoredKeys : List String := ["DNS", "PreUp", "PostUp", "PreDown", "PostDown", "SaveConfig"]

/-- The document without the pairs of its `Interface` sections that `parse` ignores. -/
def dropIgnored (doc : List ini.Section) : List ini.Section :=
  doc.map (fun s =>
    if s.Name = "Interface" then
      { s with Pairs := s.Pairs.filter (fun p => decide (p.Key ∉ ignoredKeys)) }
    else s)

/-- The keys `parse` accepts in a `Peer` section. -/
def peerKeys : List String :=
  ["PublicKey", "PresharedKey", "AllowedIPs", "Endpoint", "PersistentKeepalive"]

/-- The `Peer` sections of a document, in order. -/
def peerSections (doc : List ini.Section) : List ini.Section :=
  doc.filter (fun s => decide (s.Name = "Peer"))

/-- The public key a `Peer` section gives its peer: the conversion of its last `PublicKey`
value, the zero key when the section has no such pair. -/
def sectionKey (env : Env) (sec : ini.Section) : Key :=
  sec.Pairs.foldl
    (fun k p =>
      if p.Key = "PublicKey" then
        match env.ParseKey p.Value with
        | Except.ok pubkey => pubkey
        | Except.error _ => k
      else k)
    Key.zero

/-- The entry a line of the table mapping file contributes, following the words of the
specification: none when the line starts with `#`, has fewer than two fields, has a third
field that does not start with `#`, or has a first field that is not an unsigned 32-bit
integer; else the second field mapped to the first as a number. -/
def rtEntry (env : Env) (line : String) : Option (String × Nat) :=
  let fields := strings.Fields line.data
  if strings.startsWith '#' line.data then none
  else if fields.length < 2 then none
  else if 2 < fields.length ∧ !strings.startsWith '#' (fields.getD 2 []) then none
  else
    match env.ParseUint32 (String.mk (fields.getD 0 [])) with
    | Except.error _ => none
    | Except.ok id => some (String.mk (fields.getD 1 []), id % 2 ^ 32)

/-- The mapping the specification describes for a list of lines: the entry of the last
contributing line that carries the name. -/
def rtLookup (env : Env) (lines : List String) (name : String) : Option Nat :=
  ((lines.filterMap (rtEntry env)).reverse.find? (fun e => decide (e.1 = name))).map Prod.snd

end wgquick

namespace wgdiff

/-- The public keys of the peers of the current device, none for an absent device. -/
def currentKeys : Option Device → List Key
  | none => []
  | some cur => cur.Peers.map (fun p => p.PublicKey)

/-- The public keys of the entries of a delta that are not removals. -/
def upsertKeys (delta : WgConfig) : List Key :=
  (delta.Peers.filter (fun p => !p.Remove)).map (fun p => p.PublicKey)

/-- The public keys of the removal markers of a delta. -/
def removalKeys (delta : WgConfig) : List Key :=
  (delta.Peers.filter (fun p => p.Remove)).map (fun p => p.PublicKey)

/-- The delta applied to a set of public keys: the key of every entry that is not a removal
is added, the key of every removal marker is dropped. -/
def applyDelta (keys : List Key) (delta : WgConfig) : List Key :=
  (keys ++ upsertKeys delta).filter (fun k => decide (k ∉ removalKeys delta))

end wgdiff

namespace ini

/-- Whether the line `text` is one of the format errors the specification lists, `orphan`
telling that no section header precedes the line: after trimming, the line is neither blank
nor a comment, and it is a header without `]`, a header whose text after the first `]` is
neither blank nor a comment, a key-value line that no header precedes, or a key-value line
without `=`. -/
def formatError (orphan : Bool) (text : String) : Bool :=
  let line := strings.TrimSpace text.data
  let header := strings.startsWith '[' line
  let after :=
    match strings.Index ']' line with
    | some close => strings.TrimSpace (line.drop (close + 1))
    | none => []
  !(decide (line = []) || strings.startsWith '#' line) &&
    ((header && (strings.Index ']' line).isNone) ||
      (header && (strings.Index ']' line).isSome && decide (after ≠ []) &&
        !strings.startsWith '#' after) ||
      (!header && orphan) ||
      (!header && (strings.Index '=' line).isNone))

/-- Whether a line is, after trimming, not a section header. -/
def noHeader (text : String) : Bool := !strings.startsWith '[' (strings.TrimSpace text.data)

end ini

namespace netconf

/-- Whether a route the kernel lists belongs to the current managed route set: it is of boot
or static origin, in the target table, and leaves through the target link. -/
def passesFilter (c : NetworkConfig) (ifce : Interface) (r : RouteMessage) : Bool :=
  (decide (r.Protocol = RTPROT_BOOT) || decide (r.Protocol = RTPROT_STATIC)) &&
    decide (tableOfRoute r = targetTable c) &&
    decide (r.Attributes.OutIface = uint32 ifce.Index)

/-- The prefix string of a route the kernel lists: its destination, with the mask of its
destination length over the bits of the destination. -/
def prefixString (lib : NetLib) (r : RouteMessage) : String :=
  lib.ipNetString
    { IP := r.Attributes.Dst, Mask := lib.cidrMask r.DstLength (8 * r.Attributes.Dst.length) }

/-- The last element of a list that has the key `s`: what a map filled from the list, in
order, holds under `s`. -/
def lastWithKey {α : Type} (key : α → String) (l : List α) (s : String) : Option α :=
  l.reverse.find? (fun a => decide (key a = s))

end netconf

/-! ## Concrete inputs for the examples -/

namespace Example

/-- An instance of the library functions for the examples: dotted decimal addresses, and
masks whose bytes are 255 or 0. -/
def lib : NetLib :=
  { ipString := fun ip => String.intercalate "." (ip.map toString)
    maskSize := fun m => 8 * ((m.filter (fun b => decide (b = 255))).length : Int)
    ipNetString := fun n => String.intercalate "." (n.IP.map toString) ++ "/" ++
      toString (8 * ((n.Mask.filter (fun b => decide (b = 255))).length : Int))
    cidrMask := fun ones bits =>
      List.replicate (ones / 8).toNat 255 ++ List.replicate ((bits - ones) / 8).toNat 0 }

/-- The address `10.0.0.d/24`. -/
def addr (d : Nat) : IPNet := ⟨[10, 0, 0, d], [255, 255, 255, 0]⟩

/-- The link `wg0`, with index 7. -/
def wg0 : Interface := ⟨7, "wg0"⟩

/-- The destination `10.d.0.0/16`. -/
def net16 (d : Nat) : IPNet := ⟨[10, d, 0, 0], [255, 255, 0, 0]⟩

/-- A kernel route to `10.d.0.0/16` with the given protocol, header table and output
interface, and no table attribute. -/
def route (d prot table oif : Nat) : RouteMessage :=
  { Family := 2, DstLength := 16, SrcLength := 0, Tos := 0, Table := table, Protocol := prot
    Scope := 0, RouteType := 1, Flags := 0
    Attributes :=
      { Dst := [10, d, 0, 0], Src := [], Gateway := [], OutIface := oif, Priority := 0
        Table := 0 } }

/-- A configuration that names the interface `name` and nothing else. -/
def conf (name : String) : wgconf.Config :=
  { Interface := name, WireGuard := {}, Network := { Device := name } }

/-- An extractor that reports not-applicable, whatever the input. -/
def notApplicable : wgconf.Parser := fun _ => (none, some Error.ErrProbeParserMismatch)

/-- An extractor that accepts every input and returns `conf name`. -/
def matching (name : String) : wgconf.Parser := fun _ => (some (conf name), none)

/-- Decimal digits to a number, `none` when a character is not a digit. -/
def digits : List Char → Nat → Option Nat
  | [], acc => some acc
  | ch :: rest, acc =>
    if 48 ≤ ch.toNat ∧ ch.toNat ≤ 57 then digits rest (acc * 10 + (ch.toNat - 48)) else none

/-- The function `path.Ext` on the reversed characters of a path, with the characters
already passed in `acc`. -/
def extAux : List Char → List Char → List Char
  | [], _ => []
  | ch :: rest, acc =>
    if ch = '/' then [] else if ch = '.' then '.' :: acc else extAux rest (ch :: acc)

/-- A file system and conversions for the examples: the document
`/etc/wireguard/wg1.conf` sets a listen port, the table mapping names the main table,
paths are absolute, of two elements or more and without a final slash, and numbers are
unsigned decimals. -/
def env : wgquick.Env :=
  { Abs := fun p => Except.ok p
    Dir := fun p => String.mk (((p.data.reverse.dropWhile (fun ch => ch ≠ '/')).drop 1).reverse)
    Ext := fun p => String.mk (extAux p.data.reverse [])
    Base := fun p => String.mk ((p.data.reverse.takeWhile (fun ch => ch ≠ '/')).reverse)
    Access := fun p =>
      if p = "/etc/wireguard/wg1.conf" then none
      else some (Error.mk "no such file or directory")
    Open := fun p =>
      if p = "/etc/wireguard/wg1.conf" then Except.ok ["[Interface]", "ListenPort = 51820"]
      else if p = "/etc/iproute2/rt_tables" then Except.ok ["254 main"]
      else Except.error (Error.mk "no such file or directory")
    Unquote := fun _ => Except.error (Error.mk "invalid syntax")
    ParseAddr := fun _ => Except.error (Error.mk "invalid CIDR address")
    Atoi := fun v =>
      match digits v.data 0 with
      | some n => if v = "" then Except.error (Error.mk "invalid syntax") else Except.ok (n : Int)
      | none => Except.error (Error.mk "invalid syntax")
    ParseKey := fun v => Except.ok ⟨v.data.map Char.toNat⟩
    ParseUint32 := fun v =>
      match digits v.data 0 with
      | some n => if v = "" then Except.error (Error.mk "invalid syntax") else Except.ok n
      | none => Except.error (Error.mk "invalid syntax")
    ParseCIDR := fun _ => Except.error (Error.mk "invalid CIDR address")
    ResolveUDPAddr := fun _ => Except.error (Error.mk "missing port in address") }

/-- The key material of the peer numbered `n`. -/
def key (n : Nat) : Key := ⟨[n]⟩

/-- A live peer with public key `key n` and some traffic. -/
def peer (n : Nat) : Peer :=
  { PublicKey := key n, PresharedKey := ⟨[]⟩, Endpoint := none
    PersistentKeepaliveInterval := 0, LastHandshakeTime := 1700000000, ReceiveBytes := 1024
    TransmitBytes := 2048, AllowedIPs := [net16 n], ProtocolVersion := 1 }

/-- A desired peer with public key `key n`, as the extractor builds it. -/
def wanted (n : Nat) : PeerConfig :=
  { PublicKey := key n, ReplaceAllowedIPs := true, AllowedIPs := [net16 n] }

/-- A live device with the given peers. -/
def device (peers : List Peer) : Device :=
  { Name := "wg0", PrivateKey := ⟨[0]⟩, PublicKey := ⟨[0]⟩, ListenPort := 51820
    FirewallMark := 0, Peers := peers }

/-- Two extractors that both accept every input, registered as `first` then `second`. -/
def twoMatching : List (String × wgconf.Parser) :=
  [("first", matching "a"), ("second", matching "b")]

/-- An extractor that never applies, registered before one that matches. -/
def skipThenMatch : List (String × wgconf.Parser) :=
  [("other", notApplicable), ("wg-quick", matching "wg0")]

/-- What the kernel lists for a route added to `10.d.0.0/16` in the main table through
link 7: a boot route with that destination. -/
def installed (dst : IPNet) : RouteMessage := route (dst.IP.getD 1 0) RTPROT_BOOT 254 7

/-- The conversions of `env` with two destinations and two addresses that parse. -/
def env2 : wgquick.Env :=
  { env with
    ParseCIDR := fun v =>
      if v = "10.5.0.0/16" then Except.ok (net16 5)
      else if v = "10.6.0.0/16" then Except.ok (net16 6)
      else Except.error (Error.mk "invalid CIDR address")
    ParseAddr := fun v =>
      if v = "10.0.0.1/24" then Except.ok (addr 1)
      else Except.error (Error.mk "invalid CIDR address") }

/-- A section with the given name and pairs. -/
def sec (name : String) (pairs : List (String × String)) : ini.Section :=
  { Name := name, Pairs := pairs.map (fun kv => { Key := kv.1, Value := kv.2 }) }

/-- A document with an address, the pair `Table = off` and a peer with two allowed IPs. -/
def docOff : List ini.Section :=
  [sec "Interface" [("Table", "off"), ("Address", "10.0.0.1/24")],
    sec "Peer" [("PublicKey", "k1"), ("AllowedIPs", "10.5.0.0/16, 10.6.0.0/16")]]

/-- The peer of `docOff`. -/
def peerOff : PeerConfig :=
  { PublicKey := ⟨[107, 49]⟩, ReplaceAllowedIPs := true, AllowedIPs := [net16 5, net16 6] }

/-- The configuration extracted from `docOff` for the interface `wg0`: no route. -/
def confOff : wgconf.Config :=
  { Interface := "wg0", WireGuard := { Peers := [peerOff] }
    Network := { Device := "wg0", Addresses := [addr 1], Routes := [] } }

/-- A document with two `Peer` sections that carry the same public key. -/
def docDup : List ini.Section :=
  [sec "Peer" [("PublicKey", "k1"), ("PersistentKeepalive", "25")],
    sec "Peer" [("PublicKey", "k1")]]

/-- The configuration extracted from `docDup` for the interface `wg0`. -/
def confDup : wgconf.Config :=
  { Interface := "wg0"
    WireGuard :=
      { Peers :=
          [{ PublicKey := ⟨[107, 49]⟩, ReplaceAllowedIPs := true
             PersistentKeepaliveInterval := some 25000000000 },
            { PublicKey := ⟨[107, 49]⟩, ReplaceAllowedIPs := true }] }
    Network := { Device := "wg0" } }

/-- A document whose `Peer` section has no `PublicKey` pair. -/
def docNoKey : List ini.Section :=
  [sec "Interface" [("ListenPort", "51820")], sec "Peer" [("PersistentKeepalive", "25")]]

/-- The configuration extracted from `docNoKey` for the interface `wg0`. -/
def confNoKey : wgconf.Config :=
  { Interface := "wg0"
    WireGuard :=
      { ListenPort := some 51820
        Peers :=
          [{ PublicKey := Key.zero, ReplaceAllowedIPs := true
             PersistentKeepaliveInterval := some 25000000000 }] }
    Network := { Device := "wg0" } }

/-- The kernel route `route d prot table oif` with the priority `prio`. -/
def routeWithPriority (d prot table oif prio : Nat) : RouteMessage :=
  { route d prot table oif with
    Attributes := { (route d prot table oif).Attributes with Priority := prio } }

/-- The library functions of `lib`, with the string `net.IPNet.String` gives a network whose
IP has no byte. -/
def goLib : NetLib :=
  { lib with
    ipNetString := fun n => if n.IP = [] then "<nil>" else lib.ipNetString n }

/-- The destination `0.0.0.0/0`, as `net.ParseCIDR` gives it. -/
def defaultNet : IPNet := ⟨[0, 0, 0, 0], [0, 0, 0, 0]⟩

/-- The default route as the kernel lists it once it is added through link 7 in the main
table: of boot origin, with destination length 0 and no destination attribute. -/
def defaultRoute : RouteMessage :=
  { Family := 2, DstLength := 0, SrcLength := 0, Tos := 0, Table := 254
    Protocol := RTPROT_BOOT, Scope := 253, RouteType := 1, Flags := 0
    Attributes :=
      { Dst := [], Src := [], Gateway := [], OutIface := 7, Priority := 0, Table := 254 } }

end Example

/-! ## Facts about Go maps -/

namespace RangeOrder

theorem filterMap_range_get (α : Type) (m : List α) :
    (List.range m.length).filterMap (fun i => m[i]?) = m := by
  induction m with
  | nil => rfl
  | cons a t ih =>
    rw [List.length_cons, List.range_succ_eq_map, List.filterMap_cons]
    simp only [List.getElem?_cons_zero, List.filterMap_map]
    have h : ((fun i => (a :: t)[i]?) ∘ Nat.succ) = (fun i => t[i]?) := by
      funext i
      simp
    rw [h, ih]

theorem order_perm {α : Type} (ρ : RangeOrder) (t : Nat) (m : List α) :
    (ρ.order t m).Perm m := by
  have h := List.Perm.filterMap (fun i => m[i]?) (ρ.perm t m.length)
  rw [filterMap_range_get] at h
  exact h

theorem mem_order {α : Type} (ρ : RangeOrder) (t : Nat) (m : List α) (a : α) :
    a ∈ ρ.order t m ↔ a ∈ m :=
  (order_perm ρ t m).mem_iff

end RangeOrder

namespace GoMap

variable {κ α : Type} [DecidableEq κ]

theorem mem_set (m : List (κ × α)) (k : κ) (v : α) (e : κ × α) (h : e ∈ set m k v) :
    e = (k, v) ∨ e ∈ m := by
  induction m with
  | nil =>
    simp only [set, List.mem_singleton] at h
    exact Or.inl h
  | cons hd t ih =>
    obtain ⟨k0, v0⟩ := hd
    simp only [set] at h
    split at h
    · rcases List.mem_cons.1 h with h1 | h1
      · exact Or.inl h1
      · exact Or.inr (List.mem_cons_of_mem _ h1)
    · rcases List.mem_cons.1 h with h1 | h1
      · exact Or.inr (h1 ▸ List.mem_cons_self _ _)
      · rcases ih h1 with h2 | h2
        · exact Or.inl h2
        · exact Or.inr (List.mem_cons_of_mem _ h2)

theorem mem_keys_set (m : List (κ × α)) (k : κ) (v : α) (x : κ) :
    x ∈ keys (set m k v) ↔ x = k ∨ x ∈ keys m := by
  induction m with
  | nil => simp [set, keys]
  | cons hd t ih =>
    obtain ⟨k0, v0⟩ := hd
    simp only [set]
    split
    · rename_i h
      subst h
      simp [keys]
    · simp only [keys, List.map_cons, List.mem_cons] at ih ⊢
      rw [ih]
      tauto

theorem nodup_keys_set (m : List (κ × α)) (k : κ) (v : α) (h : (keys m).Nodup) :
    (keys (set m k v)).Nodup := by
  induction m with
  | nil => simp [set, keys]
  | cons hd t ih =>
    obtain ⟨k0, v0⟩ := hd
    simp only [set]
    split
    · rename_i hk
      subst hk
      simpa [keys] using h
    · rename_i hk
      simp only [keys, List.map_cons, List.nodup_cons] at h ⊢
      refine ⟨?_, ih h.2⟩
      intro hmem
      rcases (mem_keys_set t k v k0).1 hmem with h1 | h1
      · exact hk h1
      · exact h.1 h1

theorem mem_delete (m : List (κ × α)) (k : κ) (e : κ × α) :
    e ∈ delete m k ↔ e ∈ m ∧ e.1 ≠ k := by
  simp [delete]

theorem mem_keys_delete (m : List (κ × α)) (k x : κ) :
    x ∈ keys (delete m k) ↔ x ∈ keys m ∧ x ≠ k := by
  simp only [keys, List.mem_map]
  constructor
  · rintro ⟨e, he, rfl⟩
    exact ⟨⟨e, ((mem_delete m k e).1 he).1, rfl⟩, ((mem_delete m k e).1 he).2⟩
  · rintro ⟨⟨e, he, rfl⟩, hx⟩
    exact ⟨e, (mem_delete m k e).2 ⟨he, hx⟩, rfl⟩

theorem nodup_keys_delete (m : List (κ × α)) (k : κ) (h : (keys m).Nodup) :
    (keys (delete m k)).Nodup :=
  List.Nodup.sublist (List.Sublist.map _ (List.filter_sublist m)) h

end GoMap

namespace GoMap

variable {κ α : Type}

theorem nodup_keys_order (ρ : RangeOrder) (t : Nat) (m : List (κ × α))
    (h : (keys m).Nodup) : (keys (ρ.order t m)).Nodup :=
  (List.Perm.nodup_iff (List.Perm.map _ (RangeOrder.order_perm ρ t m))).2 h

theorem mem_keys_order (ρ : RangeOrder) (t : Nat) (m : List (κ × α)) (x : κ) :
    x ∈ keys (ρ.order t m) ↔ x ∈ keys m :=
  (List.Perm.map _ (RangeOrder.order_perm ρ t m)).mem_iff

end GoMap

/-! ## The differ -/

namespace wgdiff

theorem indexPeers_inv (ps : List Peer) (m : List (Key × Peer))
    (hn : (GoMap.keys m).Nodup) (hk : ∀ e ∈ m, e.2.PublicKey = e.1) :
    (GoMap.keys (indexPeers ps m)).Nodup ∧
    (∀ e ∈ indexPeers ps m, e.2.PublicKey = e.1) ∧
    (∀ x, x ∈ GoMap.keys (indexPeers ps m) ↔
      x ∈ ps.map (fun p => p.PublicKey) ∨ x ∈ GoMap.keys m) := by
  induction ps generalizing m with
  | nil => exact ⟨hn, hk, fun x => by simp [indexPeers]⟩
  | cons p rest ih =>
    have hk2 : ∀ e ∈ GoMap.set m p.PublicKey p, e.2.PublicKey = e.1 := by
      intro e he
      rcases GoMap.mem_set m p.PublicKey p e he with h | h
      · rw [h]
      · exact hk e h
    obtain ⟨h1, h2, h3⟩ := ih (GoMap.set m p.PublicKey p)
      (GoMap.nodup_keys_set m p.PublicKey p hn) hk2
    refine ⟨h1, h2, fun x => ?_⟩
    simp only [indexPeers]
    rw [h3, GoMap.mem_keys_set]
    simp only [List.map_cons, List.mem_cons]
    tauto

theorem dropDesired_inv (ds : List PeerConfig) (m : List (Key × Peer))
    (hn : (GoMap.keys m).Nodup) (hk : ∀ e ∈ m, e.2.PublicKey = e.1) :
    (GoMap.keys (dropDesired ds m)).Nodup ∧
    (∀ e ∈ dropDesired ds m, e.2.PublicKey = e.1) ∧
    (∀ x, x ∈ GoMap.keys (dropDesired ds m) ↔
      x ∈ GoMap.keys m ∧ x ∉ ds.map (fun p => p.PublicKey)) := by
  induction ds generalizing m with
  | nil => exact ⟨hn, hk, fun x => by simp [dropDesired]⟩
  | cons d rest ih =>
    have hk2 : ∀ e ∈ GoMap.delete m d.PublicKey, e.2.PublicKey = e.1 :=
      fun e he => hk e ((GoMap.mem_delete m d.PublicKey e).1 he).1
    obtain ⟨h1, h2, h3⟩ := ih (GoMap.delete m d.PublicKey)
      (GoMap.nodup_keys_delete m d.PublicKey hn) hk2
    refine ⟨h1, h2, fun x => ?_⟩
    simp only [dropDesired]
    rw [h3, GoMap.mem_keys_delete]
    simp only [List.map_cons, List.mem_cons]
    tauto

/-- C1: for a present current device, the peer list of the delta is the desired peers,
unchanged and in order, followed by one removal marker (public key and Remove = true, every
other field zero) for each distinct public key that occurs among the current peers and not
among the desired peers, whatever the order in which the map of leftover peers is visited. -/
theorem CalcDiff_peers_desired_then_removals (ρ : RangeOrder) (cur : Device)
    (desired : WgConfig) :
    ∃ removed : List Key,
      (CalcDiff ρ (some cur) desired).1.Peers = desired.Peers ++ removed.map removalMarker ∧
      removed.Nodup ∧
      ∀ k, k ∈ removed ↔
        (k ∈ cur.Peers.map (fun p => p.PublicKey) ∧
          k ∉ desired.Peers.map (fun p => p.PublicKey)) := by
  obtain ⟨a1, a2, a3⟩ := indexPeers_inv cur.Peers [] (by simp [GoMap.keys]) (by simp)
  obtain ⟨b1, b2, b3⟩ := dropDesired_inv desired.Peers (indexPeers cur.Peers []) a1 a2
  refine ⟨GoMap.keys (ρ.order 0 (dropDesired desired.Peers (indexPeers cur.Peers []))),
    ?_, GoMap.nodup_keys_order ρ 0 _ b1, fun k => ?_⟩
  · simp only [CalcDiff, GoMap.keys, List.map_map]
    congr 1
    apply List.map_congr_left
    intro e he
    have := b2 e ((RangeOrder.mem_order ρ 0 _ e).1 he)
    simp [removalMarker, this]
  · rw [GoMap.mem_keys_order, b3, a3]
    simp [GoMap.keys]

/-- C2: the delta of a present current device never asks to replace the whole peer set:
its ReplacePeers flag is false, whatever the flag of the desired model is. -/
theorem CalcDiff_never_replaces_peers (ρ : RangeOrder) (cur : Device) (desired : WgConfig) :
    (CalcDiff ρ (some cur) desired).1.ReplacePeers = false := by
  rfl

end wgdiff

/-! ## The network reconciler -/

namespace netconf

theorem collect_inv {α : Type} (key : α → String) (l : List α) (m : List (String × α))
    (hn : (GoMap.keys m).Nodup) (hk : ∀ e ∈ m, e.1 = key e.2) :
    (GoMap.keys (collect key l m)).Nodup ∧
    (∀ e ∈ collect key l m, e.1 = key e.2) ∧
    (∀ e ∈ collect key l m, e.2 ∈ l ∨ e ∈ m) ∧
    (∀ x, x ∈ GoMap.keys (collect key l m) ↔ x ∈ l.map key ∨ x ∈ GoMap.keys m) := by
  induction l generalizing m with
  | nil => exact ⟨hn, hk, fun e he => Or.inr he, fun x => by simp [collect]⟩
  | cons a rest ih =>
    have hk2 : ∀ e ∈ GoMap.set m (key a) a, e.1 = key e.2 := by
      intro e he
      rcases GoMap.mem_set m (key a) a e he with h | h
      · rw [h]
      · exact hk e h
    obtain ⟨h1, h2, h3, h4⟩ := ih (GoMap.set m (key a) a)
      (GoMap.nodup_keys_set m (key a) a hn) hk2
    refine ⟨h1, h2, fun e he => ?_, fun x => ?_⟩
    · rcases h3 e he with h | h
      · exact Or.inl (List.mem_cons_of_mem _ h)
      · rcases GoMap.mem_set m (key a) a e h with h5 | h5
        · exact Or.inl (by rw [h5]; exact List.mem_cons_self _ _)
        · exact Or.inr h5
    · simp only [collect]
      rw [h4, GoMap.mem_keys_set]
      simp only [List.map_cons, List.mem_cons]
      tauto

theorem dedupInner_eq {β : Type} (oak : String) (l : List (String × β)) :
    dedupInner oak l = if oak ∈ GoMap.keys l then some oak else none := by
  induction l with
  | nil => simp [dedupInner, GoMap.keys]
  | cons hd t ih =>
    obtain ⟨nak, v⟩ := hd
    simp only [dedupInner, GoMap.keys, List.map_cons, List.mem_cons]
    by_cases h : oak = nak
    · simp [h]
    · simp only [h, if_false, false_or]
      exact ih

theorem dedupLoop_eq {α β : Type} (ρ : RangeOrder) (t : Nat) (outer : List String)
    (olds : List (String × α)) (news : List (String × β)) :
    dedupLoop ρ t outer olds news =
      (olds.filter (fun e => !(decide (e.1 ∈ outer) && decide (e.1 ∈ GoMap.keys news))),
       news.filter (fun e => !(decide (e.1 ∈ outer)))) := by
  induction outer generalizing t olds news with
  | nil => simp [dedupLoop]
  | cons oak rest ih =>
    simp only [dedupLoop]
    by_cases h : oak ∈ GoMap.keys news
    · have hin : dedupInner oak (ρ.order t news) = some oak := by
        rw [dedupInner_eq]
        exact if_pos ((GoMap.mem_keys_order ρ t news oak).2 h)
      rw [hin]
      simp only []
      rw [ih]
      simp only [GoMap.delete, List.filter_filter]
      refine Prod.ext ?_ ?_
      · apply List.filter_congr
        intro e _
        by_cases he : e.1 = oak
        · simp [he, h]
        · have hk := GoMap.mem_keys_delete news oak e.1
          simp only [GoMap.delete, ne_eq, decide_not] at hk
          simp [he, hk]
      · apply List.filter_congr
        intro e _
        by_cases he : e.1 = oak
        · simp [he]
        · simp [he]
    · have hin : dedupInner oak (ρ.order t news) = none := by
        rw [dedupInner_eq]
        exact if_neg (fun hc => h ((GoMap.mem_keys_order ρ t news oak).1 hc))
      rw [hin]
      simp only []
      rw [ih]
      refine Prod.ext ?_ ?_
      · apply List.filter_congr
        intro e _
        by_cases he : e.1 = oak
        · simp [he, h]
        · simp [he]
      · apply List.filter_congr
        intro e hmem
        have he : e.1 ≠ oak := by
          intro he
          apply h
          rw [← he]
          exact List.mem_map_of_mem Prod.fst hmem
        simp [he]

theorem reconcile_eq {α β : Type} (ρ : RangeOrder) (key : β → String)
    (olds : List (String × α)) (desired : List β) :
    reconcile ρ key olds desired =
      (olds.filter (fun e => !(decide (e.1 ∈ desired.map key))),
       (collect key desired []).filter (fun e => !(decide (e.1 ∈ GoMap.keys olds)))) := by
  obtain ⟨_, _, _, h4⟩ := collect_inv key desired [] (by simp [GoMap.keys]) (by simp)
  simp only [reconcile, dedupLoop_eq]
  refine Prod.ext ?_ ?_
  · apply List.filter_congr
    intro e he
    have h1 : e.1 ∈ GoMap.keys (ρ.order 0 olds) :=
      (GoMap.mem_keys_order ρ 0 olds e.1).2 (List.mem_map_of_mem Prod.fst he)
    have h2 := h4 e.1
    simp only [GoMap.keys, List.map_nil, List.not_mem_nil, or_false] at h2
    simp only [GoMap.keys] at h1 ⊢
    simp [h1, h2]
  · apply List.filter_congr
    intro e _
    have h1 := GoMap.mem_keys_order ρ 0 olds e.1
    simp only [GoMap.keys] at h1 ⊢
    simp [h1]

theorem runCalls_obliging (k : Kernel) (wrap : Call → Error → Error)
    (hok : ∀ h c, k.respond h c = none) (hist cs : List Call) :
    runCalls k wrap hist cs = (hist ++ cs, none) := by
  induction cs generalizing hist with
  | nil => simp [runCalls]
  | cons c rest ih =>
    simp only [runCalls, hok]
    rw [ih]
    simp

theorem runCalls_mem (k : Kernel) (wrap : Call → Error → Error) (hist cs : List Call)
    (c : Call) (h : c ∈ (runCalls k wrap hist cs).1) : c ∈ hist ∨ c ∈ cs := by
  induction cs generalizing hist with
  | nil => exact Or.inl (by simpa [runCalls] using h)
  | cons d rest ih =>
    simp only [runCalls] at h
    split at h
    · simp only [List.mem_append, List.mem_singleton] at h
      rcases h with h | h
      · exact Or.inl h
      · exact Or.inr (h ▸ List.mem_cons_self _ _)
    · rcases ih _ h with h1 | h1
      · simp only [List.mem_append, List.mem_singleton] at h1
        rcases h1 with h1 | h1
        · exact Or.inl h1
        · exact Or.inr (h1 ▸ List.mem_cons_self _ _)
      · exact Or.inr (List.mem_cons_of_mem _ h1)

end netconf

namespace netconf

theorem deletedAddrs_append (l1 l2 : List Call) :
    deletedAddrs (l1 ++ l2) = deletedAddrs l1 ++ deletedAddrs l2 := by
  induction l1 with
  | nil => rfl
  | cons c t ih => cases c <;> simp [deletedAddrs, ih]

theorem addedAddrs_append (l1 l2 : List Call) :
    addedAddrs (l1 ++ l2) = addedAddrs l1 ++ addedAddrs l2 := by
  induction l1 with
  | nil => rfl
  | cons c t ih => cases c <;> simp [addedAddrs, ih]

theorem deletedAddrs_dels {α : Type} (ifce : Interface) (f : α → IPNet) (l : List α) :
    deletedAddrs (l.map (fun e => Call.AddrDel ifce (f e))) = l.map f := by
  induction l with
  | nil => rfl
  | cons c t ih => simp [deletedAddrs, ih]

theorem deletedAddrs_adds {α : Type} (ifce : Interface) (f : α → IPNet) (l : List α) :
    deletedAddrs (l.map (fun e => Call.AddrAdd ifce (f e))) = [] := by
  induction l with
  | nil => rfl
  | cons c t ih => simp [deletedAddrs, ih]

theorem addedAddrs_adds {α : Type} (ifce : Interface) (f : α → IPNet) (l : List α) :
    addedAddrs (l.map (fun e => Call.AddrAdd ifce (f e))) = l.map f := by
  induction l with
  | nil => rfl
  | cons c t ih => simp [addedAddrs, ih]

theorem addedAddrs_dels {α : Type} (ifce : Interface) (f : α → IPNet) (l : List α) :
    addedAddrs (l.map (fun e => Call.AddrDel ifce (f e))) = [] := by
  induction l with
  | nil => rfl
  | cons c t ih => simp [addedAddrs, ih]

theorem updateAddresses_obliging (lib : NetLib) (ρ : RangeOrder) (k : Kernel)
    (c : NetworkConfig) (ifce : Interface) (oas : List IPNet)
    (hread : k.Addrs ifce = Except.ok oas) (hok : ∀ h call, k.respond h call = none) :
    updateAddresses lib ρ k c ifce =
      ((ρ.order 1 (reconcile ρ (addrToString lib) (collect (addrToString lib) oas [])
          c.Addresses).1).map (fun e => Call.AddrDel ifce e.2) ++
        (ρ.order 2 (reconcile ρ (addrToString lib) (collect (addrToString lib) oas [])
          c.Addresses).2).map (fun e => Call.AddrAdd ifce e.2), none) := by
  simp only [updateAddresses, hread, runCalls_obliging k _ hok, List.nil_append]

/-- In a map whose keys are pairwise distinct and computed from the values, mapping the
values of a visiting order to their keys gives the keys of the map up to order. -/
theorem keys_of_values {α : Type} (key : α → String) (ρ : RangeOrder) (t : Nat)
    (m : List (String × α)) (hk : ∀ e ∈ m, e.1 = key e.2) :
    ((ρ.order t m).map (fun e => e.2)).map key = GoMap.keys (ρ.order t m) := by
  simp only [GoMap.keys, List.map_map]
  apply List.map_congr_left
  intro e he
  exact (hk e ((RangeOrder.mem_order ρ t m e).1 he)).symm

end netconf

namespace GoMap

variable {κ α : Type}

theorem mem_keys_filter (m : List (κ × α)) (p : κ → Bool) (x : κ) :
    x ∈ keys (m.filter (fun e => p e.1)) ↔ x ∈ keys m ∧ p x = true := by
  simp only [keys, List.mem_map, List.mem_filter]
  constructor
  · rintro ⟨e, ⟨he, hp⟩, rfl⟩
    exact ⟨⟨e, he, rfl⟩, hp⟩
  · rintro ⟨⟨e, he, rfl⟩, hp⟩
    exact ⟨e, ⟨he, hp⟩, rfl⟩

theorem nodup_keys_filter (m : List (κ × α)) (q : κ × α → Bool) (h : (keys m).Nodup) :
    (keys (m.filter q)).Nodup :=
  List.Nodup.sublist (List.Sublist.map _ (List.filter_sublist m)) h

end GoMap

namespace netconf

/-- C3: when the kernel lists the addresses `oas` and no call fails, `updateAddresses`
issues only address calls on the link; keyed by the string `IP/prefixlen`, it deletes
exactly the keys that are current and not desired, adds exactly the keys that are desired
and not current, each once, and issues nothing for a key present in both; a deleted address
is one the kernel listed and an added address is one of the model. -/
theorem updateAddresses_symmetric_difference (lib : NetLib) (ρ : RangeOrder) (k : Kernel)
    (c : NetworkConfig) (ifce : Interface) (oas : List IPNet)
    (hread : k.Addrs ifce = Except.ok oas) (hok : ∀ h call, k.respond h call = none) :
    (updateAddresses lib ρ k c ifce).2 = none ∧
    (∀ call ∈ (updateAddresses lib ρ k c ifce).1,
      (∃ a, call = Call.AddrDel ifce a) ∨ (∃ a, call = Call.AddrAdd ifce a)) ∧
    (∀ s, s ∈ (deletedAddrs (updateAddresses lib ρ k c ifce).1).map (addrToString lib) ↔
      (s ∈ oas.map (addrToString lib) ∧ s ∉ c.Addresses.map (addrToString lib))) ∧
    (∀ s, s ∈ (addedAddrs (updateAddresses lib ρ k c ifce).1).map (addrToString lib) ↔
      (s ∈ c.Addresses.map (addrToString lib) ∧ s ∉ oas.map (addrToString lib))) ∧
    (∀ s, s ∈ oas.map (addrToString lib) → s ∈ c.Addresses.map (addrToString lib) →
      s ∉ (deletedAddrs (updateAddresses lib ρ k c ifce).1).map (addrToString lib) ∧
      s ∉ (addedAddrs (updateAddresses lib ρ k c ifce).1).map (addrToString lib)) ∧
    ((deletedAddrs (updateAddresses lib ρ k c ifce).1).map (addrToString lib)).Nodup ∧
    ((addedAddrs (updateAddresses lib ρ k c ifce).1).map (addrToString lib)).Nodup ∧
    (∀ a ∈ deletedAddrs (updateAddresses lib ρ k c ifce).1, a ∈ oas) ∧
    (∀ a ∈ addedAddrs (updateAddresses lib ρ k c ifce).1, a ∈ c.Addresses) := by
  obtain ⟨o1, o2, o3, o4⟩ :=
    collect_inv (addrToString lib) oas [] (by simp [GoMap.keys]) (by simp)
  obtain ⟨n1, n2, n3, n4⟩ :=
    collect_inv (addrToString lib) c.Addresses [] (by simp [GoMap.keys]) (by simp)
  simp only [GoMap.keys, List.map_nil, List.not_mem_nil, or_false] at o3 o4 n3 n4
  rw [updateAddresses_obliging lib ρ k c ifce oas hread hok, reconcile_eq]
  simp only [deletedAddrs_append, addedAddrs_append, deletedAddrs_dels, deletedAddrs_adds,
    addedAddrs_adds, addedAddrs_dels, List.append_nil, List.nil_append]
  have hD : ∀ e ∈ (collect (addrToString lib) oas []).filter
      (fun e => !(decide (e.1 ∈ c.Addresses.map (addrToString lib)))),
      e.1 = addrToString lib e.2 := fun e he => o2 e (List.mem_filter.1 he).1
  have hA : ∀ e ∈ (collect (addrToString lib) c.Addresses []).filter
      (fun e => !(decide (e.1 ∈ GoMap.keys (collect (addrToString lib) oas [])))),
      e.1 = addrToString lib e.2 := fun e he => n2 e (List.mem_filter.1 he).1
  rw [keys_of_values (addrToString lib) ρ 1 _ hD, keys_of_values (addrToString lib) ρ 2 _ hA]
  have hdel : ∀ s, s ∈ GoMap.keys (ρ.order 1 ((collect (addrToString lib) oas []).filter
      (fun e => !(decide (e.1 ∈ c.Addresses.map (addrToString lib)))))) ↔
      (s ∈ oas.map (addrToString lib) ∧ s ∉ c.Addresses.map (addrToString lib)) := by
    intro s
    rw [GoMap.mem_keys_order,
      GoMap.mem_keys_filter _ (fun x => !(decide (x ∈ c.Addresses.map (addrToString lib))))]
    simp only [GoMap.keys, o4]
    simp
  have hadd : ∀ s, s ∈ GoMap.keys (ρ.order 2 ((collect (addrToString lib) c.Addresses []).filter
      (fun e => !(decide (e.1 ∈ GoMap.keys (collect (addrToString lib) oas [])))))) ↔
      (s ∈ c.Addresses.map (addrToString lib) ∧ s ∉ oas.map (addrToString lib)) := by
    intro s
    rw [GoMap.mem_keys_order,
      GoMap.mem_keys_filter _
        (fun x => !(decide (x ∈ GoMap.keys (collect (addrToString lib) oas []))))]
    simp only [GoMap.keys, n4, o4]
    simp
  refine ⟨trivial, ?_, hdel, hadd, ?_, ?_, ?_, ?_, ?_⟩
  · intro call hcall
    rcases List.mem_append.1 hcall with h | h
    · obtain ⟨e, _, rfl⟩ := List.mem_map.1 h
      exact Or.inl ⟨e.2, rfl⟩
    · obtain ⟨e, _, rfl⟩ := List.mem_map.1 h
      exact Or.inr ⟨e.2, rfl⟩
  · intro s hs1 hs2
    exact ⟨fun h => ((hdel s).1 h).2 hs2, fun h => ((hadd s).1 h).2 hs1⟩
  · exact GoMap.nodup_keys_order ρ 1 _ (GoMap.nodup_keys_filter _ _ o1)
  · exact GoMap.nodup_keys_order ρ 2 _ (GoMap.nodup_keys_filter _ _ n1)
  · intro a ha
    obtain ⟨e, he, rfl⟩ := List.mem_map.1 ha
    exact o3 e (List.mem_filter.1 ((RangeOrder.mem_order ρ 1 _ e).1 he)).1
  · intro a ha
    obtain ⟨e, he, rfl⟩ := List.mem_map.1 ha
    exact n3 e (List.mem_filter.1 ((RangeOrder.mem_order ρ 2 _ e).1 he)).1

end netconf

namespace netconf

theorem uint32_of_inRange (x : Int) (h0 : 0 ≤ x) (h1 : x < 2 ^ 32) : (uint32 x : Int) = x := by
  unfold uint32
  rw [Int.emod_eq_of_lt h0 h1]
  exact Int.toNat_of_nonneg h0

theorem deletedRoutes_append (l1 l2 : List Call) :
    deletedRoutes (l1 ++ l2) = deletedRoutes l1 ++ deletedRoutes l2 := by
  induction l1 with
  | nil => rfl
  | cons c t ih => cases c <;> simp [deletedRoutes, ih]

theorem addedRoutes_append (l1 l2 : List Call) :
    addedRoutes (l1 ++ l2) = addedRoutes l1 ++ addedRoutes l2 := by
  induction l1 with
  | nil => rfl
  | cons c t ih => cases c <;> simp [addedRoutes, ih]

theorem deletedRoutes_dels {α : Type} (f : α → RouteMessage) (l : List α) :
    deletedRoutes (l.map (fun e => Call.RouteDelete (f e))) = l.map f := by
  induction l with
  | nil => rfl
  | cons c t ih => simp [deletedRoutes, ih]

theorem deletedRoutes_adds {α : Type} (ifce : Interface) (tb oi : Nat) (f : α → IPNet)
    (l : List α) : deletedRoutes (l.map (fun e => Call.RouteAdd ifce (f e) tb oi)) = [] := by
  induction l with
  | nil => rfl
  | cons c t ih => simp [deletedRoutes, ih]

theorem addedRoutes_adds {α : Type} (ifce : Interface) (tb oi : Nat) (f : α → IPNet)
    (l : List α) : addedRoutes (l.map (fun e => Call.RouteAdd ifce (f e) tb oi)) = l.map f := by
  induction l with
  | nil => rfl
  | cons c t ih => simp [addedRoutes, ih]

theorem addedRoutes_dels {α : Type} (f : α → RouteMessage) (l : List α) :
    addedRoutes (l.map (fun e => Call.RouteDelete (f e))) = [] := by
  induction l with
  | nil => rfl
  | cons c t ih => simp [addedRoutes, ih]

/-- What the filter of `updateRoutes` guarantees of an entry of the managed set. -/
theorem managedRoutes_inv (lib : NetLib) (table : Nat) (ifce : Interface)
    (oas : List RouteMessage) (m : List (String × RouteMessage))
    (P : String × RouteMessage → Prop)
    (hn : (GoMap.keys m).Nodup) (hm : ∀ e ∈ m, P e)
    (hP : ∀ r ∈ oas, (r.Protocol = RTPROT_BOOT ∨ r.Protocol = RTPROT_STATIC) →
      tableOfRoute r = table → r.Attributes.OutIface = uint32 ifce.Index →
      P (routeKey lib r, r)) :
    (GoMap.keys (managedRoutes lib table ifce oas m)).Nodup ∧
    (∀ e ∈ managedRoutes lib table ifce oas m, P e) := by
  induction oas generalizing m with
  | nil => exact ⟨hn, hm⟩
  | cons oa rest ih =>
    have hP2 : ∀ r ∈ rest, (r.Protocol = RTPROT_BOOT ∨ r.Protocol = RTPROT_STATIC) →
        tableOfRoute r = table → r.Attributes.OutIface = uint32 ifce.Index →
        P (routeKey lib r, r) := fun r hr => hP r (List.mem_cons_of_mem _ hr)
    simp only [managedRoutes]
    split
    · exact ih m hn hm hP2
    · rename_i hprot
      split
      · rename_i hto
        refine ih _ (GoMap.nodup_keys_set m _ _ hn) ?_ hP2
        intro e he
        rcases GoMap.mem_set m _ _ e he with h | h
        · rw [h]
          refine hP oa (List.mem_cons_self _ _) ?_ hto.1 hto.2
          by_cases hb : oa.Protocol = RTPROT_BOOT
          · exact Or.inl hb
          · by_cases hs : oa.Protocol = RTPROT_STATIC
            · exact Or.inr hs
            · exact absurd ⟨hb, hs⟩ hprot
        · exact hm e h
      · exact ih m hn hm hP2

theorem managedRoutes_managed (lib : NetLib) (c : NetworkConfig) (ifce : Interface)
    (oas : List RouteMessage) :
    (GoMap.keys (managedRoutes lib (targetTable c) ifce oas [])).Nodup ∧
    (∀ e ∈ managedRoutes lib (targetTable c) ifce oas [], Managed lib c ifce oas e) :=
  managedRoutes_inv lib (targetTable c) ifce oas [] (Managed lib c ifce oas)
    (by simp [GoMap.keys]) (by simp)
    (fun r hr h1 h2 h3 => ⟨rfl, hr, h1, h2, h3⟩)

end netconf

namespace netconf

theorem updateRoutes_trace_mem (lib : NetLib) (ρ : RangeOrder) (k : Kernel)
    (c : NetworkConfig) (ifce : Interface) (call : Call)
    (h : call ∈ (updateRoutes lib ρ k c ifce).1) :
    ∃ oas, k.RouteList = Except.ok oas ∧
      ((∃ e ∈ managedRoutes lib (targetTable c) ifce oas [],
          e.1 ∉ c.Routes.map lib.ipNetString ∧ call = Call.RouteDelete e.2) ∨
        (∃ d ∈ c.Routes, call = Call.RouteAdd ifce d (targetTable c) (uint32 ifce.Index))) := by
  unfold updateRoutes at h
  cases hr : k.RouteList with
  | error e =>
    rw [hr] at h
    simp at h
  | ok oas =>
    rw [hr] at h
    simp only [reconcile_eq] at h
    refine ⟨oas, rfl, ?_⟩
    obtain ⟨_, _, n3, _⟩ :=
      collect_inv lib.ipNetString c.Routes [] (by simp [GoMap.keys]) (by simp)
    simp only [List.not_mem_nil, or_false] at n3
    have hdel : ∀ x, x ∈ (ρ.order 1 ((managedRoutes lib (targetTable c) ifce oas []).filter
        (fun e => !(decide (e.1 ∈ c.Routes.map lib.ipNetString))))).map
          (fun e => Call.RouteDelete e.2) →
        ∃ e ∈ managedRoutes lib (targetTable c) ifce oas [],
          e.1 ∉ c.Routes.map lib.ipNetString ∧ x = Call.RouteDelete e.2 := by
      intro x hx
      obtain ⟨e, he, rfl⟩ := List.mem_map.1 hx
      have he2 := List.mem_filter.1 ((RangeOrder.mem_order ρ 1 _ e).1 he)
      exact ⟨e, he2.1, by simpa using he2.2, rfl⟩
    have hadd : ∀ x, x ∈ (ρ.order 2 ((collect lib.ipNetString c.Routes []).filter
        (fun e => !(decide (e.1 ∈ GoMap.keys (managedRoutes lib (targetTable c) ifce oas
          [])))))).map (fun e => Call.RouteAdd ifce e.2 (targetTable c) (uint32 ifce.Index)) →
        ∃ d ∈ c.Routes, x = Call.RouteAdd ifce d (targetTable c) (uint32 ifce.Index) := by
      intro x hx
      obtain ⟨e, he, rfl⟩ := List.mem_map.1 hx
      have he2 := List.mem_filter.1 ((RangeOrder.mem_order ρ 2 _ e).1 he)
      exact ⟨e.2, n3 e he2.1, rfl⟩
    split at h
    · rcases runCalls_mem _ _ _ _ _ h with h1 | h1
      · simp at h1
      · exact Or.inl (hdel call h1)
    · rcases runCalls_mem _ _ _ _ _ h with h1 | h1
      · rcases runCalls_mem _ _ _ _ _ h1 with h2 | h2
        · simp at h2
        · exact Or.inl (hdel call h2)
      · exact Or.inr (hadd call h1)

/-- C4: whatever the kernel lists and however its calls answer, a route that
`updateRoutes` deletes, or that is in the current managed set, has protocol boot or static,
has effective table (table attribute if non-zero, else header table if non-zero, else main)
equal to the target table, and has output interface equal to the target link index (as the
32-bit value the code compares, which is the index itself for every index a link can
have). -/
theorem updateRoutes_deletes_only_managed (lib : NetLib) (ρ : RangeOrder) (k : Kernel)
    (c : NetworkConfig) (ifce : Interface) (r : RouteMessage)
    (h : Call.RouteDelete r ∈ (updateRoutes lib ρ k c ifce).1 ∨
      ∃ oas, k.RouteList = Except.ok oas ∧
        r ∈ (managedRoutes lib (targetTable c) ifce oas []).map Prod.snd) :
    (r.Protocol = RTPROT_BOOT ∨ r.Protocol = RTPROT_STATIC) ∧
    tableOfRoute r = targetTable c ∧
    r.Attributes.OutIface = uint32 ifce.Index ∧
    (0 ≤ ifce.Index → ifce.Index < 2 ^ 32 → (r.Attributes.OutIface : Int) = ifce.Index) := by
  have key : ∃ oas, ∃ e ∈ managedRoutes lib (targetTable c) ifce oas [], r = e.2 := by
    rcases h with h | ⟨oas, _, h⟩
    · obtain ⟨oas, _, h1 | h1⟩ := updateRoutes_trace_mem lib ρ k c ifce _ h
      · obtain ⟨e, he, _, heq⟩ := h1
        exact ⟨oas, e, he, by injection heq⟩
      · obtain ⟨d, _, heq⟩ := h1
        cases heq
    · obtain ⟨e, he, rfl⟩ := List.mem_map.1 h
      exact ⟨oas, e, he, rfl⟩
  obtain ⟨oas, e, he, rfl⟩ := key
  obtain ⟨_, _, h3, h4, h5⟩ := (managedRoutes_managed lib c ifce oas).2 e he
  exact ⟨h3, h4, h5, fun h0 h1 => by rw [h5]; exact uint32_of_inRange _ h0 h1⟩

end netconf

namespace netconf

theorem updateRoutes_obliging (lib : NetLib) (ρ : RangeOrder) (k : Kernel)
    (c : NetworkConfig) (ifce : Interface) (oas : List RouteMessage)
    (hread : k.RouteList = Except.ok oas) (hok : ∀ h call, k.respond h call = none) :
    updateRoutes lib ρ k c ifce =
      ((ρ.order 1 (reconcile ρ lib.ipNetString (managedRoutes lib (targetTable c) ifce oas [])
          c.Routes).1).map (fun e => Call.RouteDelete e.2) ++
        (ρ.order 2 (reconcile ρ lib.ipNetString (managedRoutes lib (targetTable c) ifce oas [])
          c.Routes).2).map
            (fun e => Call.RouteAdd ifce e.2 (targetTable c) (uint32 ifce.Index)), none) := by
  simp only [updateRoutes, hread, runCalls_obliging k _ hok, List.nil_append]

/-- The calls of `updateRoutes` in terms of its map `oldRoutes`: when the kernel lists the
routes `oas` and no call fails, `updateRoutes` deletes
exactly the routes of the current managed set whose key (the destination as a string) is not
a desired key, adds exactly the desired keys that are not managed keys, each once, touches
no key present in both, and every add call carries the target table and, as output
interface, the target link index. -/
theorem updateRoutes_symmetric_difference (lib : NetLib) (ρ : RangeOrder) (k : Kernel)
    (c : NetworkConfig) (ifce : Interface) (oas : List RouteMessage)
    (hread : k.RouteList = Except.ok oas) (hok : ∀ h call, k.respond h call = none) :
    (updateRoutes lib ρ k c ifce).2 = none ∧
    (∀ call ∈ (updateRoutes lib ρ k c ifce).1,
      (∃ r, call = Call.RouteDelete r) ∨
      (∃ d, call = Call.RouteAdd ifce d (targetTable c) (uint32 ifce.Index))) ∧
    (0 ≤ ifce.Index → ifce.Index < 2 ^ 32 → (uint32 ifce.Index : Int) = ifce.Index) ∧
    (∀ r, r ∈ deletedRoutes (updateRoutes lib ρ k c ifce).1 ↔
      ∃ s, (s, r) ∈ managedRoutes lib (targetTable c) ifce oas [] ∧
        s ∉ c.Routes.map lib.ipNetString) ∧
    (∀ s, s ∈ (deletedRoutes (updateRoutes lib ρ k c ifce).1).map (routeKey lib) ↔
      (s ∈ GoMap.keys (managedRoutes lib (targetTable c) ifce oas []) ∧
        s ∉ c.Routes.map lib.ipNetString)) ∧
    (∀ s, s ∈ (addedRoutes (updateRoutes lib ρ k c ifce).1).map lib.ipNetString ↔
      (s ∈ c.Routes.map lib.ipNetString ∧
        s ∉ GoMap.keys (managedRoutes lib (targetTable c) ifce oas []))) ∧
    (∀ s, s ∈ GoMap.keys (managedRoutes lib (targetTable c) ifce oas []) →
      s ∈ c.Routes.map lib.ipNetString →
      s ∉ (deletedRoutes (updateRoutes lib ρ k c ifce).1).map (routeKey lib) ∧
      s ∉ (addedRoutes (updateRoutes lib ρ k c ifce).1).map lib.ipNetString) ∧
    ((deletedRoutes (updateRoutes lib ρ k c ifce).1).map (routeKey lib)).Nodup ∧
    ((addedRoutes (updateRoutes lib ρ k c ifce).1).map lib.ipNetString).Nodup ∧
    (∀ d ∈ addedRoutes (updateRoutes lib ρ k c ifce).1, d ∈ c.Routes) := by
  obtain ⟨o1, o2⟩ := managedRoutes_managed lib c ifce oas
  obtain ⟨n1, n2, n3, n4⟩ :=
    collect_inv lib.ipNetString c.Routes [] (by simp [GoMap.keys]) (by simp)
  simp only [GoMap.keys, List.map_nil, List.not_mem_nil, or_false] at n3 n4
  rw [updateRoutes_obliging lib ρ k c ifce oas hread hok, reconcile_eq]
  simp only [deletedRoutes_append, addedRoutes_append, deletedRoutes_dels, deletedRoutes_adds,
    addedRoutes_adds, addedRoutes_dels, List.append_nil, List.nil_append]
  have hD : ∀ e ∈ (managedRoutes lib (targetTable c) ifce oas []).filter
      (fun e => !(decide (e.1 ∈ c.Routes.map lib.ipNetString))),
      e.1 = routeKey lib e.2 := fun e he => (o2 e (List.mem_filter.1 he).1).1
  have hA : ∀ e ∈ (collect lib.ipNetString c.Routes []).filter
      (fun e => !(decide (e.1 ∈ GoMap.keys (managedRoutes lib (targetTable c) ifce oas [])))),
      e.1 = lib.ipNetString e.2 := fun e he => n2 e (List.mem_filter.1 he).1
  rw [keys_of_values (routeKey lib) ρ 1 _ hD, keys_of_values lib.ipNetString ρ 2 _ hA]
  have hdel : ∀ s, s ∈ GoMap.keys (ρ.order 1 ((managedRoutes lib (targetTable c) ifce oas
      []).filter (fun e => !(decide (e.1 ∈ c.Routes.map lib.ipNetString))))) ↔
      (s ∈ GoMap.keys (managedRoutes lib (targetTable c) ifce oas []) ∧
        s ∉ c.Routes.map lib.ipNetString) := by
    intro s
    rw [GoMap.mem_keys_order,
      GoMap.mem_keys_filter _ (fun x => !(decide (x ∈ c.Routes.map lib.ipNetString)))]
    simp
  have hadd : ∀ s, s ∈ GoMap.keys (ρ.order 2 ((collect lib.ipNetString c.Routes []).filter
      (fun e => !(decide (e.1 ∈ GoMap.keys (managedRoutes lib (targetTable c) ifce oas
        [])))))) ↔
      (s ∈ c.Routes.map lib.ipNetString ∧
        s ∉ GoMap.keys (managedRoutes lib (targetTable c) ifce oas [])) := by
    intro s
    rw [GoMap.mem_keys_order,
      GoMap.mem_keys_filter _
        (fun x => !(decide (x ∈ GoMap.keys (managedRoutes lib (targetTable c) ifce oas []))))]
    simp only [GoMap.keys, n4]
    simp
  refine ⟨trivial, ?_, uint32_of_inRange _, ?_, hdel, hadd, ?_, ?_, ?_, ?_⟩
  · intro call hcall
    rcases List.mem_append.1 hcall with h | h
    · obtain ⟨e, _, rfl⟩ := List.mem_map.1 h
      exact Or.inl ⟨e.2, rfl⟩
    · obtain ⟨e, _, rfl⟩ := List.mem_map.1 h
      exact Or.inr ⟨e.2, rfl⟩
  · intro r
    constructor
    · intro hr
      obtain ⟨e, he, rfl⟩ := List.mem_map.1 hr
      have he2 := List.mem_filter.1 ((RangeOrder.mem_order ρ 1 _ e).1 he)
      exact ⟨e.1, he2.1, by simpa using he2.2⟩
    · rintro ⟨s, hs, hns⟩
      refine List.mem_map.2 ⟨(s, r), (RangeOrder.mem_order ρ 1 _ _).2 ?_, rfl⟩
      exact List.mem_filter.2 ⟨hs, by simpa using hns⟩
  · intro s hs1 hs2
    exact ⟨fun h => ((hdel s).1 h).2 hs2, fun h => ((hadd s).1 h).2 hs1⟩
  · exact GoMap.nodup_keys_order ρ 1 _ (GoMap.nodup_keys_filter _ _ o1)
  · exact GoMap.nodup_keys_order ρ 2 _ (GoMap.nodup_keys_filter _ _ n1)
  · intro a ha
    obtain ⟨e, he, rfl⟩ := List.mem_map.1 ha
    exact n3 e (List.mem_filter.1 ((RangeOrder.mem_order ρ 2 _ e).1 he)).1

end netconf

namespace netconf

theorem mem_keys_foldl_delete {α : Type} (dels cur : List (String × α)) (x : String) :
    x ∈ GoMap.keys (dels.foldl (fun m e => GoMap.delete m e.1) cur) ↔
      x ∈ GoMap.keys cur ∧ x ∉ GoMap.keys dels := by
  induction dels generalizing cur with
  | nil => simp [GoMap.keys]
  | cons d rest ih =>
    rw [List.foldl_cons, ih, GoMap.mem_keys_delete]
    simp only [GoMap.keys, List.map_cons, List.mem_cons, not_or]
    tauto

theorem mem_keys_foldl_set {α β : Type} (install : β → α) (adds : List (String × β))
    (m : List (String × α)) (x : String) :
    x ∈ GoMap.keys (adds.foldl (fun m e => GoMap.set m e.1 (install e.2)) m) ↔
      x ∈ GoMap.keys m ∨ x ∈ GoMap.keys adds := by
  induction adds generalizing m with
  | nil => simp [GoMap.keys]
  | cons d rest ih =>
    rw [List.foldl_cons, ih, GoMap.mem_keys_set]
    simp only [GoMap.keys, List.map_cons, List.mem_cons]
    tauto

theorem mem_keys_applyChanges {α β : Type} (install : β → α) (cur dels : List (String × α))
    (adds : List (String × β)) (x : String) :
    x ∈ GoMap.keys (applyChanges install cur dels adds) ↔
      (x ∈ GoMap.keys cur ∧ x ∉ GoMap.keys dels) ∨ x ∈ GoMap.keys adds := by
  unfold applyChanges
  rw [mem_keys_foldl_set, mem_keys_foldl_delete]

theorem reconcile_applied {α β : Type} (ρ ρ2 : RangeOrder) (key : β → String)
    (install : β → α) (olds : List (String × α)) (desired : List β) :
    reconcile ρ2 key
      (applyChanges install olds (reconcile ρ key olds desired).1
        (reconcile ρ key olds desired).2) desired = ([], []) := by
  obtain ⟨_, _, _, n4⟩ := collect_inv key desired [] (by simp [GoMap.keys]) (by simp)
  simp only [GoMap.keys, List.map_nil, List.not_mem_nil, or_false] at n4
  have hkeys : ∀ x, x ∈ GoMap.keys (applyChanges install olds (reconcile ρ key olds desired).1
      (reconcile ρ key olds desired).2) ↔ x ∈ desired.map key := by
    intro x
    rw [mem_keys_applyChanges, reconcile_eq]
    simp only []
    rw [GoMap.mem_keys_filter olds (fun y => !(decide (y ∈ desired.map key))),
      GoMap.mem_keys_filter (collect key desired [])
        (fun y => !(decide (y ∈ GoMap.keys olds)))]
    simp only [GoMap.keys, n4]
    by_cases h1 : x ∈ List.map Prod.fst olds <;> by_cases h2 : x ∈ desired.map key <;>
      simp [h1, h2]
  rw [reconcile_eq ρ2]
  refine Prod.ext ?_ ?_
  · apply List.filter_eq_nil_iff.2
    intro e he
    have := (hkeys e.1).1 (List.mem_map_of_mem Prod.fst he)
    simp [this]
  · apply List.filter_eq_nil_iff.2
    intro e he
    have h1 : e.1 ∈ desired.map key := (n4 e.1).1 (List.mem_map_of_mem Prod.fst he)
    have := (hkeys e.1).2 h1
    simp [this]

theorem order_nil {α : Type} (ρ : RangeOrder) (t : Nat) : ρ.order t ([] : List α) = [] :=
  List.Perm.eq_nil (RangeOrder.order_perm ρ t [])

theorem reconcile_nil_of_keys {α β : Type} (ρ : RangeOrder) (key : β → String)
    (olds : List (String × α)) (desired : List β)
    (h : ∀ x, x ∈ GoMap.keys olds ↔ x ∈ desired.map key) :
    reconcile ρ key olds desired = ([], []) := by
  obtain ⟨_, _, _, n4⟩ := collect_inv key desired [] (by simp [GoMap.keys]) (by simp)
  simp only [GoMap.keys, List.map_nil, List.not_mem_nil, or_false] at n4
  rw [reconcile_eq]
  refine Prod.ext ?_ ?_
  · apply List.filter_eq_nil_iff.2
    intro e he
    have := (h e.1).1 (List.mem_map_of_mem Prod.fst he)
    simp [this]
  · apply List.filter_eq_nil_iff.2
    intro e he
    have := (h e.1).2 ((n4 e.1).1 (List.mem_map_of_mem Prod.fst he))
    simp [this]

theorem mem_applyChanges {α β : Type} (install : β → α) (cur dels : List (String × α))
    (adds : List (String × β)) (e : String × α) (h : e ∈ applyChanges install cur dels adds) :
    e ∈ cur ∨ ∃ a ∈ adds, e = (a.1, install a.2) := by
  unfold applyChanges at h
  have hdel : ∀ (ds m : List (String × α)) (x : String × α),
      x ∈ ds.foldl (fun m e => GoMap.delete m e.1) m → x ∈ m := by
    intro ds
    induction ds with
    | nil => exact fun m x hx => hx
    | cons d rest ih =>
      intro m x hx
      exact ((GoMap.mem_delete m d.1 x).1 (ih _ x hx)).1
  have hset : ∀ (as : List (String × β)) (m : List (String × α)) (x : String × α),
      x ∈ as.foldl (fun m e => GoMap.set m e.1 (install e.2)) m →
      x ∈ m ∨ ∃ a ∈ as, x = (a.1, install a.2) := by
    intro as
    induction as with
    | nil => exact fun m x hx => Or.inl hx
    | cons a rest ih =>
      intro m x hx
      rcases ih _ x hx with h1 | ⟨b, hb, hxb⟩
      · rcases GoMap.mem_set m a.1 (install a.2) x h1 with h2 | h2
        · exact Or.inr ⟨a, List.mem_cons_self _ _, h2⟩
        · exact Or.inl h2
      · exact Or.inr ⟨b, List.mem_cons_of_mem _ hb, hxb⟩
  rcases hset adds _ e h with h1 | h1
  · exact Or.inl (hdel dels cur e h1)
  · exact Or.inr h1

/-- The keys of the map filled from the values of a map whose keys are computed from the
values are the keys of that map. -/
theorem mem_keys_collect_values {α : Type} (key : α → String) (m : List (String × α))
    (hk : ∀ e ∈ m, e.1 = key e.2) (x : String) :
    x ∈ GoMap.keys (collect key (m.map Prod.snd) []) ↔ x ∈ GoMap.keys m := by
  obtain ⟨_, _, _, n4⟩ := collect_inv key (m.map Prod.snd) [] (by simp [GoMap.keys]) (by simp)
  rw [n4]
  have : (m.map Prod.snd).map key = m.map Prod.fst := by
    rw [List.map_map]
    apply List.map_congr_left
    intro e he
    exact (hk e he).symm
  simp [this, GoMap.keys]

/-- The keys of the managed set of a listing whose routes all pass the filter. -/
theorem mem_keys_managedRoutes (lib : NetLib) (table : Nat) (ifce : Interface)
    (oas : List RouteMessage) (m : List (String × RouteMessage))
    (hall : ∀ r ∈ oas, (r.Protocol = RTPROT_BOOT ∨ r.Protocol = RTPROT_STATIC) ∧
      tableOfRoute r = table ∧ r.Attributes.OutIface = uint32 ifce.Index) (x : String) :
    x ∈ GoMap.keys (managedRoutes lib table ifce oas m) ↔
      x ∈ oas.map (routeKey lib) ∨ x ∈ GoMap.keys m := by
  induction oas generalizing m with
  | nil => simp [managedRoutes]
  | cons oa rest ih =>
    obtain ⟨h1, h2, h3⟩ := hall oa (List.mem_cons_self _ _)
    have hprot : ¬ (oa.Protocol ≠ RTPROT_BOOT ∧ oa.Protocol ≠ RTPROT_STATIC) := by
      rintro ⟨ha, hb⟩
      rcases h1 with h1 | h1
      · exact ha h1
      · exact hb h1
    simp only [managedRoutes, hprot, if_false, h2, h3, and_self, if_true]
    rw [ih _ (fun r hr => hall r (List.mem_cons_of_mem _ hr)), GoMap.mem_keys_set]
    simp only [List.map_cons, List.mem_cons]
    tauto

theorem updateAddresses_nothing (lib : NetLib) (ρ : RangeOrder) (k : Kernel)
    (c : NetworkConfig) (ifce : Interface) (oas : List IPNet)
    (hread : k.Addrs ifce = Except.ok oas)
    (h : reconcile ρ (addrToString lib) (collect (addrToString lib) oas []) c.Addresses =
      ([], [])) :
    updateAddresses lib ρ k c ifce = ([], none) := by
  simp [updateAddresses, hread, h, order_nil, runCalls]

theorem updateRoutes_nothing (lib : NetLib) (ρ : RangeOrder) (k : Kernel)
    (c : NetworkConfig) (ifce : Interface) (oas : List RouteMessage)
    (hread : k.RouteList = Except.ok oas)
    (h : reconcile ρ lib.ipNetString (managedRoutes lib (targetTable c) ifce oas [])
      c.Routes = ([], [])) :
    updateRoutes lib ρ k c ifce = ([], none) := by
  simp [updateRoutes, hread, h, order_nil, runCalls]

/-- On keyed sets reconciliation is idempotent.  For every current address set and every
current managed route set (keyed maps), every desired model and every visiting order: once the
deletes and adds that the labelled loop of `updateAddresses` (of `updateRoutes`) computes
are applied to the current set, a second run on the resulting set with the same desired
model computes an empty delete set and an empty add set.  Hence a second run of
`updateAddresses` on a kernel that lists the resulting addresses issues no call, and so does
a second run of `updateRoutes` on a kernel that lists the resulting routes, provided the
kernel lists an added route as a managed route under the key it was added with. -/
theorem reconcile_second_run_empty (lib : NetLib) (ρ ρ2 : RangeOrder) (c : NetworkConfig)
    (ifce : Interface) :
    (∀ oldAddrs : List (String × IPNet),
      reconcile ρ2 (addrToString lib)
        (applyChanges id oldAddrs (reconcile ρ (addrToString lib) oldAddrs c.Addresses).1
          (reconcile ρ (addrToString lib) oldAddrs c.Addresses).2) c.Addresses = ([], [])) ∧
    (∀ (oldRoutes : List (String × RouteMessage)) (install : IPNet → RouteMessage),
      reconcile ρ2 lib.ipNetString
        (applyChanges install oldRoutes (reconcile ρ lib.ipNetString oldRoutes c.Routes).1
          (reconcile ρ lib.ipNetString oldRoutes c.Routes).2) c.Routes = ([], [])) ∧
    (∀ (oas : List IPNet) (k2 : Kernel),
      k2.Addrs ifce = Except.ok
        ((applyChanges id (collect (addrToString lib) oas [])
          (reconcile ρ (addrToString lib) (collect (addrToString lib) oas []) c.Addresses).1
          (reconcile ρ (addrToString lib) (collect (addrToString lib) oas []) c.Addresses).2).map
            Prod.snd) →
      updateAddresses lib ρ2 k2 c ifce = ([], none)) ∧
    (∀ (oas : List RouteMessage) (install : IPNet → RouteMessage) (k2 : Kernel),
      (∀ d ∈ c.Routes, routeKey lib (install d) = lib.ipNetString d ∧
        ((install d).Protocol = RTPROT_BOOT ∨ (install d).Protocol = RTPROT_STATIC) ∧
        tableOfRoute (install d) = targetTable c ∧
        (install d).Attributes.OutIface = uint32 ifce.Index) →
      k2.RouteList = Except.ok
        ((applyChanges install (managedRoutes lib (targetTable c) ifce oas [])
          (reconcile ρ lib.ipNetString (managedRoutes lib (targetTable c) ifce oas [])
            c.Routes).1
          (reconcile ρ lib.ipNetString (managedRoutes lib (targetTable c) ifce oas [])
            c.Routes).2).map Prod.snd) →
      updateRoutes lib ρ2 k2 c ifce = ([], none)) := by
  refine ⟨fun oldAddrs => reconcile_applied ρ ρ2 (addrToString lib) id oldAddrs c.Addresses,
    fun oldRoutes install => reconcile_applied ρ ρ2 lib.ipNetString install oldRoutes c.Routes,
    ?_, ?_⟩
  · intro oas k2 hread
    obtain ⟨_, o2, _, _⟩ :=
      collect_inv (addrToString lib) oas [] (by simp [GoMap.keys]) (by simp)
    obtain ⟨_, n2, _, _⟩ :=
      collect_inv (addrToString lib) c.Addresses [] (by simp [GoMap.keys]) (by simp)
    have hrun := reconcile_applied ρ ρ2 (addrToString lib) id
      (collect (addrToString lib) oas []) c.Addresses
    have hk : ∀ e ∈ applyChanges id (collect (addrToString lib) oas [])
        (reconcile ρ (addrToString lib) (collect (addrToString lib) oas []) c.Addresses).1
        (reconcile ρ (addrToString lib) (collect (addrToString lib) oas []) c.Addresses).2,
        e.1 = addrToString lib e.2 := by
      intro e he
      rcases mem_applyChanges _ _ _ _ e he with h | ⟨a, ha, rfl⟩
      · exact o2 e h
      · rw [reconcile_eq] at ha
        exact n2 a (List.mem_filter.1 ha).1
    apply updateAddresses_nothing lib ρ2 k2 c ifce _ hread
    apply reconcile_nil_of_keys
    intro x
    rw [mem_keys_collect_values (addrToString lib) _ hk]
    rw [reconcile_eq ρ2] at hrun
    have h1 := List.filter_eq_nil_iff.1 (congrArg Prod.fst hrun)
    have h2 := List.filter_eq_nil_iff.1 (congrArg Prod.snd hrun)
    obtain ⟨_, _, _, n4⟩ :=
      collect_inv (addrToString lib) c.Addresses [] (by simp [GoMap.keys]) (by simp)
    simp only [GoMap.keys, List.map_nil, List.not_mem_nil, or_false] at n4
    constructor
    · intro hx
      obtain ⟨e, he, rfl⟩ := List.mem_map.1 hx
      simpa using h1 e he
    · intro hx
      obtain ⟨e, he, rfl⟩ := List.mem_map.1 ((n4 x).2 hx)
      simpa using h2 e he
  · intro oas install k2 hinst hread
    obtain ⟨_, o2⟩ := managedRoutes_managed lib c ifce oas
    obtain ⟨_, n2, n3, n4⟩ :=
      collect_inv lib.ipNetString c.Routes [] (by simp [GoMap.keys]) (by simp)
    simp only [GoMap.keys, List.map_nil, List.not_mem_nil, or_false] at n3 n4
    have hrun := reconcile_applied ρ ρ2 lib.ipNetString install
      (managedRoutes lib (targetTable c) ifce oas []) c.Routes
    have hk : ∀ e ∈ applyChanges install (managedRoutes lib (targetTable c) ifce oas [])
        (reconcile ρ lib.ipNetString (managedRoutes lib (targetTable c) ifce oas [])
          c.Routes).1
        (reconcile ρ lib.ipNetString (managedRoutes lib (targetTable c) ifce oas [])
          c.Routes).2,
        e.1 = routeKey lib e.2 ∧
        (e.2.Protocol = RTPROT_BOOT ∨ e.2.Protocol = RTPROT_STATIC) ∧
        tableOfRoute e.2 = targetTable c ∧ e.2.Attributes.OutIface = uint32 ifce.Index := by
      intro e he
      rcases mem_applyChanges _ _ _ _ e he with h | ⟨a, ha, rfl⟩
      · obtain ⟨m1, _, m3, m4, m5⟩ := o2 e h
        exact ⟨m1, m3, m4, m5⟩
      · rw [reconcile_eq] at ha
        have ha2 := (List.mem_filter.1 ha).1
        obtain ⟨i1, i2, i3, i4⟩ := hinst a.2 (n3 a ha2)
        exact ⟨by rw [i1]; exact n2 a ha2, i2, i3, i4⟩
    apply updateRoutes_nothing lib ρ2 k2 c ifce _ hread
    apply reconcile_nil_of_keys
    intro x
    rw [mem_keys_managedRoutes lib (targetTable c) ifce _ []
      (fun r hr => by
        obtain ⟨e, he, rfl⟩ := List.mem_map.1 hr
        exact (hk e he).2)]
    rw [reconcile_eq ρ2] at hrun
    have h1 := List.filter_eq_nil_iff.1 (congrArg Prod.fst hrun)
    have h2 := List.filter_eq_nil_iff.1 (congrArg Prod.snd hrun)
    have hmap : ∀ y, y ∈ (List.map Prod.snd (applyChanges install
        (managedRoutes lib (targetTable c) ifce oas [])
        (reconcile ρ lib.ipNetString (managedRoutes lib (targetTable c) ifce oas [])
          c.Routes).1
        (reconcile ρ lib.ipNetString (managedRoutes lib (targetTable c) ifce oas [])
          c.Routes).2)).map (routeKey lib) ↔
        y ∈ GoMap.keys (applyChanges install (managedRoutes lib (targetTable c) ifce oas [])
        (reconcile ρ lib.ipNetString (managedRoutes lib (targetTable c) ifce oas [])
          c.Routes).1
        (reconcile ρ lib.ipNetString (managedRoutes lib (targetTable c) ifce oas [])
          c.Routes).2) := by
      intro y
      have : (List.map Prod.snd (applyChanges install
          (managedRoutes lib (targetTable c) ifce oas [])
          (reconcile ρ lib.ipNetString (managedRoutes lib (targetTable c) ifce oas [])
            c.Routes).1
          (reconcile ρ lib.ipNetString (managedRoutes lib (targetTable c) ifce oas [])
            c.Routes).2)).map (routeKey lib) =
          GoMap.keys (applyChanges install (managedRoutes lib (targetTable c) ifce oas [])
          (reconcile ρ lib.ipNetString (managedRoutes lib (targetTable c) ifce oas [])
            c.Routes).1
          (reconcile ρ lib.ipNetString (managedRoutes lib (targetTable c) ifce oas [])
            c.Routes).2) := by
        rw [List.map_map]
        apply List.map_congr_left
        intro e he
        exact (hk e he).1.symm
      rw [this]
    simp only [GoMap.keys, List.map_nil, List.not_mem_nil, or_false]
    rw [hmap]
    constructor
    · intro hx
      obtain ⟨e, he, rfl⟩ := List.mem_map.1 hx
      simpa using h1 e he
    · intro hx
      obtain ⟨e, he, rfl⟩ := List.mem_map.1 ((n4 x).2 hx)
      simpa using h2 e he

end netconf

/-! ## The parser registry -/

namespace wgconf

theorem probe_found (ctx : Option ParserOptions) (pre : List (String × Parser))
    (name : String) (p : Parser) (post : List (String × Parser)) (conf : Option Config)
    (tr : List String)
    (hpre : ∀ q ∈ pre, (q.2 ctx).2 = some Error.ErrProbeParserMismatch)
    (hp : (p ctx).2 ≠ some Error.ErrProbeParserMismatch) :
    probe ctx (pre ++ (name, p) :: post) conf tr =
      ⟨(p ctx).1, (p ctx).2, tr ++ pre.map Prod.fst ++ [name]⟩ := by
  induction pre generalizing conf tr with
  | nil =>
    simp only [List.nil_append, probe, List.map_nil, List.append_nil]
    rcases hpc : p ctx with ⟨c, e⟩
    rw [hpc] at hp
    cases e with
    | none => rfl
    | some e =>
      have hne : e ≠ Error.ErrProbeParserMismatch := fun h => hp (by rw [h])
      simp [hne]
  | cons q rest ih =>
    obtain ⟨qn, qp⟩ := q
    have hq : (qp ctx).2 = some Error.ErrProbeParserMismatch :=
      hpre (qn, qp) (List.mem_cons_self _ _)
    simp only [List.cons_append, probe]
    rcases hqc : qp ctx with ⟨c, e⟩
    rw [hqc] at hq
    simp only at hq
    subst hq
    simp only [if_true]
    have hih := ih c (tr ++ [qn]) (fun x hx => hpre x (List.mem_cons_of_mem _ hx))
    simp only [List.append_eq] at hih ⊢
    rw [hih]
    simp

theorem probe_exhausted (ctx : Option ParserOptions) (l : List (String × Parser))
    (conf : Option Config) (tr : List String)
    (h : ∀ q ∈ l, (q.2 ctx).2 = some Error.ErrProbeParserMismatch) :
    (probe ctx l conf tr).err =
        some (Error.mk "cannot detect correct parser, please specify explicitly") ∧
      (probe ctx l conf tr).invoked = tr ++ l.map Prod.fst := by
  induction l generalizing conf tr with
  | nil => simp [probe]
  | cons q rest ih =>
    obtain ⟨qn, qp⟩ := q
    have hq : (qp ctx).2 = some Error.ErrProbeParserMismatch :=
      h (qn, qp) (List.mem_cons_self _ _)
    simp only [probe]
    rcases hqc : qp ctx with ⟨c, e⟩
    rw [hqc] at hq
    simp only at hq
    subst hq
    simp only [if_true]
    obtain ⟨h1, h2⟩ := ih c (tr ++ [qn]) (fun x hx => h x (List.mem_cons_of_mem _ hx))
    exact ⟨h1, by rw [h2]; simp⟩

theorem probe_err_ne_sentinel (ctx : Option ParserOptions) (l : List (String × Parser))
    (conf : Option Config) (tr : List String) :
    (probe ctx l conf tr).err ≠ some Error.ErrProbeParserMismatch := by
  induction l generalizing conf tr with
  | nil => simp [probe]
  | cons q rest ih =>
    obtain ⟨qn, qp⟩ := q
    simp only [probe]
    rcases hqc : qp ctx with ⟨c, e⟩
    cases e with
    | none => simp
    | some e =>
      by_cases he : e = Error.ErrProbeParserMismatch
      · simp only [he, if_true]
        exact ih c (tr ++ [qn])
      · simp only [he, if_false]
        intro hc
        exact he (Option.some.inj hc)

theorem Parse_probing_eq (ρ : RangeOrder) (reg : List (String × Parser)) (ifce path : String) :
    Parse ρ reg "" ifce path =
      probe (some { Interface := ifce, Path := path, ProbeParser := true })
        (ρ.order 0 reg) none [] := by
  simp [Parse]

end wgconf

namespace wgconf

theorem probe_unique (ctx : Option ParserOptions) (name : String) (p : Parser)
    (hp : (p ctx).2 ≠ some Error.ErrProbeParserMismatch) (l : List (String × Parser))
    (conf : Option Config) (tr : List String) (hmem : (name, p) ∈ l)
    (hothers : ∀ q ∈ l, q ≠ (name, p) → (q.2 ctx).2 = some Error.ErrProbeParserMismatch) :
    (probe ctx l conf tr).conf = (p ctx).1 ∧ (probe ctx l conf tr).err = (p ctx).2 := by
  induction l generalizing conf tr with
  | nil => simp at hmem
  | cons q rest ih =>
    by_cases hq : q = (name, p)
    · subst hq
      have := probe_found ctx [] name p rest conf tr (by simp) hp
      simp only [List.nil_append] at this
      rw [this]
      exact ⟨rfl, rfl⟩
    · obtain ⟨qn, qp⟩ := q
      have hq2 : (qp ctx).2 = some Error.ErrProbeParserMismatch :=
        hothers (qn, qp) (List.mem_cons_self _ _) hq
      simp only [probe]
      rcases hqc : qp ctx with ⟨c, e⟩
      rw [hqc] at hq2
      simp only at hq2
      subst hq2
      simp only [if_true]
      refine ih c (tr ++ [qn]) ?_ (fun x hx => hothers x (List.mem_cons_of_mem _ hx))
      rcases List.mem_cons.1 hmem with h | h
      · exact absurd h.symm hq
      · exact h

/-- C7: probing (empty format name) over the registry in the order `ρ` visits it.  The
sentinel is never returned to the caller; if the entries visited before `(name, p)` all
return the sentinel and `p` does not, then those are skipped and Parse returns exactly what
`p` returns, its configuration and its error (none when it matched, the real error
otherwise), having called nothing after `p`; and if every registered extractor returns the
sentinel (or none is registered), Parse returns the ambiguous-format error. -/
theorem Parse_probing_outcomes (ρ : RangeOrder) (reg : List (String × Parser))
    (ifce path : String) :
    (Parse ρ reg "" ifce path).err ≠ some Error.ErrProbeParserMismatch ∧
    (∀ pre name p post, ρ.order 0 reg = pre ++ (name, p) :: post →
      (∀ q ∈ pre, (q.2 (some { Interface := ifce, Path := path, ProbeParser := true })).2 =
        some Error.ErrProbeParserMismatch) →
      (p (some { Interface := ifce, Path := path, ProbeParser := true })).2 ≠
        some Error.ErrProbeParserMismatch →
      (Parse ρ reg "" ifce path).conf =
          (p (some { Interface := ifce, Path := path, ProbeParser := true })).1 ∧
        (Parse ρ reg "" ifce path).err =
          (p (some { Interface := ifce, Path := path, ProbeParser := true })).2 ∧
        (Parse ρ reg "" ifce path).invoked = pre.map Prod.fst ++ [name]) ∧
    ((∀ q ∈ reg, (q.2 (some { Interface := ifce, Path := path, ProbeParser := true })).2 =
        some Error.ErrProbeParserMismatch) →
      (Parse ρ reg "" ifce path).err =
          some (Error.mk "cannot detect correct parser, please specify explicitly") ∧
        (Parse ρ reg "" ifce path).invoked = (ρ.order 0 reg).map Prod.fst) := by
  rw [Parse_probing_eq]
  refine ⟨probe_err_ne_sentinel _ _ _ _, ?_, ?_⟩
  · intro pre name p post hsplit hpre hp
    rw [hsplit, probe_found _ pre name p post none [] hpre hp]
    simp
  · intro hall
    have := probe_exhausted (some { Interface := ifce, Path := path, ProbeParser := true })
      (ρ.order 0 reg) none [] (fun q hq => hall q ((RangeOrder.mem_order ρ 0 reg q).1 hq))
    simpa using this

/-- Witness of C7: two formats, the first not applicable and the second matching, give the
result of the second, and no error. -/
theorem Parse_probing_outcomes_witness :
    (Parse RangeOrder.insertion Example.skipThenMatch "" "" "/etc/wireguard/wg0.conf").conf =
        some (Example.conf "wg0") ∧
      (Parse RangeOrder.insertion Example.skipThenMatch "" "" "/etc/wireguard/wg0.conf").err =
        none ∧
      (Parse RangeOrder.insertion Example.skipThenMatch "" "" "/etc/wireguard/wg0.conf").invoked
        = ["other", "wg-quick"] :=
  (Parse_probing_outcomes RangeOrder.insertion Example.skipThenMatch ""
    "/etc/wireguard/wg0.conf").2.1 [("other", Example.notApplicable)] "wg-quick"
    (Example.matching "wg0") [] rfl (by simp [Example.notApplicable])
    (by simp [Example.matching])

/-- Counterexample to C8: with two registered extractors that both accept the input, a run
that visits the registry map in reverse insertion order returns the outcome of the one
registered last, and two runs that visit it in different orders return different results. -/
theorem Parse_not_in_registration_order :
    ((RegisterParser [] "first" (Example.matching "a")).bind
        (fun r => RegisterParser r "second" (Example.matching "b"))) =
      Except.ok Example.twoMatching ∧
    (Parse RangeOrder.reversed Example.twoMatching "" "wg0" "").conf = some (Example.conf "b") ∧
    (Parse RangeOrder.insertion Example.twoMatching "" "wg0" "").conf =
      some (Example.conf "a") ∧
    (Parse RangeOrder.reversed Example.twoMatching "" "wg0" "").conf ≠
      (Parse RangeOrder.insertion Example.twoMatching "" "wg0" "").conf := by
  refine ⟨rfl, by decide, by decide, by decide⟩

/-- C8 as amended: probing visits the registry map in an order that is a permutation of the
registered extractors; Parse returns the outcome of the first extractor in that order that
does not return the sentinel; and when exactly one registered extractor does not return the
sentinel, Parse returns its outcome for every visiting order. -/
theorem Parse_outcome_by_visiting_order (ρ ρ2 : RangeOrder) (reg : List (String × Parser))
    (ifce path : String) :
    (ρ.order 0 reg).Perm reg ∧
    (∀ pre name p post, ρ.order 0 reg = pre ++ (name, p) :: post →
      (∀ q ∈ pre, (q.2 (some { Interface := ifce, Path := path, ProbeParser := true })).2 =
        some Error.ErrProbeParserMismatch) →
      (p (some { Interface := ifce, Path := path, ProbeParser := true })).2 ≠
        some Error.ErrProbeParserMismatch →
      (Parse ρ reg "" ifce path).conf =
          (p (some { Interface := ifce, Path := path, ProbeParser := true })).1 ∧
        (Parse ρ reg "" ifce path).err =
          (p (some { Interface := ifce, Path := path, ProbeParser := true })).2) ∧
    (∀ name p, (name, p) ∈ reg →
      (p (some { Interface := ifce, Path := path, ProbeParser := true })).2 ≠
        some Error.ErrProbeParserMismatch →
      (∀ q ∈ reg, q ≠ (name, p) →
        (q.2 (some { Interface := ifce, Path := path, ProbeParser := true })).2 =
          some Error.ErrProbeParserMismatch) →
      (Parse ρ reg "" ifce path).conf = (Parse ρ2 reg "" ifce path).conf ∧
        (Parse ρ reg "" ifce path).err = (Parse ρ2 reg "" ifce path).err) := by
  refine ⟨RangeOrder.order_perm ρ 0 reg, ?_, ?_⟩
  · intro pre name p post hsplit hpre hp
    rw [Parse_probing_eq, hsplit, probe_found _ pre name p post none [] hpre hp]
    exact ⟨rfl, rfl⟩
  · intro name p hmem hp hothers
    rw [Parse_probing_eq, Parse_probing_eq]
    have h1 := probe_unique _ name p hp (ρ.order 0 reg) none []
      ((RangeOrder.mem_order ρ 0 reg _).2 hmem)
      (fun q hq => hothers q ((RangeOrder.mem_order ρ 0 reg q).1 hq))
    have h2 := probe_unique _ name p hp (ρ2.order 0 reg) none []
      ((RangeOrder.mem_order ρ2 0 reg _).2 hmem)
      (fun q hq => hothers q ((RangeOrder.mem_order ρ2 0 reg q).1 hq))
    exact ⟨h1.1.trans h2.1.symm, h1.2.trans h2.2.symm⟩

/-- Witness of C8 as amended: with an extractor that never applies registered next to one
that matches, both visiting orders give the same configuration and the same error. -/
theorem Parse_outcome_by_visiting_order_witness :
    (Parse RangeOrder.reversed Example.skipThenMatch "" "wg0" "").conf =
        (Parse RangeOrder.insertion Example.skipThenMatch "" "wg0" "").conf ∧
      (Parse RangeOrder.reversed Example.skipThenMatch "" "wg0" "").err =
        (Parse RangeOrder.insertion Example.skipThenMatch "" "wg0" "").err :=
  (Parse_outcome_by_visiting_order RangeOrder.reversed RangeOrder.insertion
    Example.skipThenMatch "wg0" "").2.2 "wg-quick" (Example.matching "wg0")
    (by simp [Example.skipThenMatch]) (by simp [Example.matching])
    (by
      intro q hq hne
      simp only [Example.skipThenMatch, List.mem_cons, List.mem_singleton,
        List.not_mem_nil, or_false] at hq
      rcases hq with h | h
      · rw [h]
        rfl
      · exact absurd h hne)

end wgconf

/-! ## The wg-quick extractor and the hints -/

namespace wgquick

theorem order_singleton {α : Type} (ρ : RangeOrder) (t : Nat) (a : α) :
    ρ.order t [a] = [a] :=
  List.perm_singleton.1 (RangeOrder.order_perm ρ t [a])

theorem parse_empty_hints (env : Env) (probing : Bool) :
    parse env (some { Interface := "", Path := "", ProbeParser := probing }) =
      (none, some (Error.mk "missing interface name or conf file path")) := by
  simp [parse, wgconf.ExtractParserOptions, locate]

/-- Counterexample to C9: with both hints empty, Parse does call the registered extractor
(here wg-quick, named explicitly), and with an extractor that accepts every input it
returns a configuration and no error. -/
theorem Parse_empty_hints_reaches_extractor :
    (wgconf.Parse RangeOrder.insertion (registry Example.env) "wg-quick" "" "").invoked =
      ["wg-quick"] ∧
    wgconf.Parse RangeOrder.insertion [("any", Example.matching "wg0")] "" "" "" =
      ⟨some (Example.conf "wg0"), none, ["any"]⟩ := by
  refine ⟨by decide, by decide⟩

/-- C9 as amended: Parse does not check the hints, the wg-quick extractor does, first
thing.  With wg-quick the only registered extractor and both hints empty, for every format
name, every file system and every visiting order Parse returns no configuration and an
error: the extractor is called once and answers `missing interface name or conf file path`
when the format name is empty or `wg-quick`, and for any other name Parse reports an unknown
parser without calling an extractor. -/
theorem Parse_empty_hints_wgquick (env : Env) (ρ : RangeOrder) (parser : String) :
    wgconf.Parse ρ (registry env) parser "" "" =
      if parser = "" ∨ parser = "wg-quick" then
        ⟨none, some (Error.mk "missing interface name or conf file path"), ["wg-quick"]⟩
      else ⟨none, some (Error.mk ("unknown parser: " ++ parser)), []⟩ := by
  by_cases h0 : parser = ""
  · subst h0
    rw [wgconf.Parse_probing_eq]
    simp only [registry, order_singleton, wgconf.probe, parse_empty_hints]
    simp
  · by_cases h1 : parser = "wg-quick"
    · subst h1
      simp [wgconf.Parse, registry, GoMap.get?, parse_empty_hints]
    · have h2 : ¬ ("wg-quick" = parser) := fun h => h1 h.symm
      simp [wgconf.Parse, registry, GoMap.get?, h0, h1, h2]

/-- Counterexample to C10: the interface hint `wg0` and the path hint
`/etc/wireguard/wg1.conf` disagree, yet the extractor returns a configuration and no
error, called directly or through probing. -/
theorem parse_accepts_disagreeing_hints :
    String.mk (strings.TrimSuffix (Example.env.Base "/etc/wireguard/wg1.conf").data
      ".conf".data) ≠ "wg0" ∧
    parse Example.env
        (some { Interface := "wg0", Path := "/etc/wireguard/wg1.conf", ProbeParser := false }) =
      (some { Interface := "", WireGuard := { ListenPort := some 51820 }
              Network := { Device := "" } }, none) ∧
    (wgconf.Parse RangeOrder.insertion (registry Example.env) "" "wg0"
        "/etc/wireguard/wg1.conf").err = none ∧
    (wgconf.Parse RangeOrder.insertion (registry Example.env) "" "wg0"
        "/etc/wireguard/wg1.conf").conf.isSome = true := by
  refine ⟨by decide, by decide, by decide, by decide⟩

end wgquick

/-! ## The properties at concrete inputs -/

namespace wgdiff

/-- The example of the peer diff: current peers 1, 2, 3 and desired peers 2, 3, 4 give the
three desired peers followed by the removal of peer 1, for both visiting orders. -/
theorem CalcDiff_example :
    (CalcDiff RangeOrder.insertion
        (some (Example.device [Example.peer 1, Example.peer 2, Example.peer 3]))
        { Peers := [Example.wanted 2, Example.wanted 3, Example.wanted 4] }).1.Peers =
      [Example.wanted 2, Example.wanted 3, Example.wanted 4, removalMarker (Example.key 1)] ∧
    (CalcDiff RangeOrder.reversed
        (some (Example.device [Example.peer 1, Example.peer 2, Example.peer 3]))
        { Peers := [Example.wanted 2, Example.wanted 3, Example.wanted 4] }).1.Peers =
      [Example.wanted 2, Example.wanted 3, Example.wanted 4, removalMarker (Example.key 1)] := by
  refine ⟨by decide, by decide⟩

end wgdiff

namespace netconf

/-- Witness of C3: current `10.0.0.1/24`, `10.0.0.2/24` and desired `10.0.0.2/24`,
`10.0.0.3/24`: the calls are the deletion of `10.0.0.1/24` and the addition of
`10.0.0.3/24`, and the deleted keys are the current keys that are not desired. -/
theorem updateAddresses_symmetric_difference_witness :
    ((Kernel.obliging [Example.addr 1, Example.addr 2] []).Addrs Example.wg0 =
        Except.ok [Example.addr 1, Example.addr 2] ∧
      ∀ h call, (Kernel.obliging [Example.addr 1, Example.addr 2] []).respond h call = none) ∧
    updateAddresses Example.lib RangeOrder.reversed
        (Kernel.obliging [Example.addr 1, Example.addr 2] [])
        { Addresses := [Example.addr 2, Example.addr 3] } Example.wg0 =
      ([Call.AddrDel Example.wg0 (Example.addr 1), Call.AddrAdd Example.wg0 (Example.addr 3)],
        none) ∧
    (∀ s, s ∈ (deletedAddrs (updateAddresses Example.lib RangeOrder.reversed
          (Kernel.obliging [Example.addr 1, Example.addr 2] [])
          { Addresses := [Example.addr 2, Example.addr 3] } Example.wg0).1).map
            (addrToString Example.lib) ↔
      (s ∈ [Example.addr 1, Example.addr 2].map (addrToString Example.lib) ∧
        s ∉ [Example.addr 2, Example.addr 3].map (addrToString Example.lib))) :=
  ⟨⟨rfl, fun _ _ => rfl⟩, by decide,
    (updateAddresses_symmetric_difference Example.lib RangeOrder.reversed
      (Kernel.obliging [Example.addr 1, Example.addr 2] [])
      { Addresses := [Example.addr 2, Example.addr 3] } Example.wg0
      [Example.addr 1, Example.addr 2] rfl (fun _ _ => rfl)).2.2.1⟩

/-- Witness of C4: a boot route of the main table through link 7 is deleted when the model
wants no route; it has the protocol, the table and the output interface C4 states. -/
theorem updateRoutes_deletes_only_managed_witness :
    Call.RouteDelete (Example.route 1 RTPROT_BOOT 254 7) ∈
      (updateRoutes Example.lib RangeOrder.insertion
        (Kernel.obliging [] [Example.route 1 RTPROT_BOOT 254 7, Example.route 2 2 254 7,
          Example.route 3 RTPROT_STATIC 100 7, Example.route 4 RTPROT_BOOT 254 8])
        {} Example.wg0).1 ∧
    ((Example.route 1 RTPROT_BOOT 254 7).Protocol = RTPROT_BOOT ∨
        (Example.route 1 RTPROT_BOOT 254 7).Protocol = RTPROT_STATIC) ∧
    tableOfRoute (Example.route 1 RTPROT_BOOT 254 7) = targetTable {} ∧
    (Example.route 1 RTPROT_BOOT 254 7).Attributes.OutIface = uint32 Example.wg0.Index ∧
    (0 ≤ Example.wg0.Index → Example.wg0.Index < 2 ^ 32 →
      ((Example.route 1 RTPROT_BOOT 254 7).Attributes.OutIface : Int) = Example.wg0.Index) :=
  ⟨by decide,
    updateRoutes_deletes_only_managed Example.lib RangeOrder.insertion
      (Kernel.obliging [] [Example.route 1 RTPROT_BOOT 254 7, Example.route 2 2 254 7,
        Example.route 3 RTPROT_STATIC 100 7, Example.route 4 RTPROT_BOOT 254 8])
      {} Example.wg0 (Example.route 1 RTPROT_BOOT 254 7) (Or.inl (by decide))⟩

/-- An evaluation of `updateRoutes`: the kernel lists two managed routes, a route of another
origin, one of another table and one through another link. -/
theorem updateRoutes_example :
    updateRoutes Example.lib RangeOrder.insertion
        (Kernel.obliging [] [Example.route 1 RTPROT_BOOT 254 7, Example.route 2 2 254 7,
          Example.route 3 RTPROT_STATIC 100 7, Example.route 4 RTPROT_BOOT 254 8,
          Example.route 5 RTPROT_STATIC 254 7])
        { Routes := [Example.net16 5, Example.net16 6] } Example.wg0 =
      ([Call.RouteDelete (Example.route 1 RTPROT_BOOT 254 7),
        Call.RouteAdd Example.wg0 (Example.net16 6) 254 7], none) := by
  decide

/-- The calls at a concrete input: with the managed routes `10.1.0.0/16` and `10.5.0.0/16`
and the desired routes `10.5.0.0/16` and `10.6.0.0/16`, every call is a route deletion or the addition of a
route in table 254 through link 7. -/
theorem updateRoutes_symmetric_difference_witness :
    ((Kernel.obliging [] [Example.route 1 RTPROT_BOOT 254 7,
          Example.route 5 RTPROT_STATIC 254 7]).RouteList =
        Except.ok [Example.route 1 RTPROT_BOOT 254 7, Example.route 5 RTPROT_STATIC 254 7] ∧
      ∀ h call, (Kernel.obliging [] [Example.route 1 RTPROT_BOOT 254 7,
          Example.route 5 RTPROT_STATIC 254 7]).respond h call = none) ∧
    (updateRoutes Example.lib RangeOrder.reversed
        (Kernel.obliging [] [Example.route 1 RTPROT_BOOT 254 7,
          Example.route 5 RTPROT_STATIC 254 7])
        { Routes := [Example.net16 5, Example.net16 6] } Example.wg0).2 = none ∧
    (∀ call ∈ (updateRoutes Example.lib RangeOrder.reversed
        (Kernel.obliging [] [Example.route 1 RTPROT_BOOT 254 7,
          Example.route 5 RTPROT_STATIC 254 7])
        { Routes := [Example.net16 5, Example.net16 6] } Example.wg0).1,
      (∃ r, call = Call.RouteDelete r) ∨
      (∃ d, call = Call.RouteAdd Example.wg0 d
        (targetTable { Routes := [Example.net16 5, Example.net16 6] })
        (uint32 Example.wg0.Index))) :=
  ⟨⟨rfl, fun _ _ => rfl⟩,
    (updateRoutes_symmetric_difference Example.lib RangeOrder.reversed
      (Kernel.obliging [] [Example.route 1 RTPROT_BOOT 254 7,
        Example.route 5 RTPROT_STATIC 254 7])
      { Routes := [Example.net16 5, Example.net16 6] } Example.wg0
      [Example.route 1 RTPROT_BOOT 254 7, Example.route 5 RTPROT_STATIC 254 7]
      rfl (fun _ _ => rfl)).1,
    (updateRoutes_symmetric_difference Example.lib RangeOrder.reversed
      (Kernel.obliging [] [Example.route 1 RTPROT_BOOT 254 7,
        Example.route 5 RTPROT_STATIC 254 7])
      { Routes := [Example.net16 5, Example.net16 6] } Example.wg0
      [Example.route 1 RTPROT_BOOT 254 7, Example.route 5 RTPROT_STATIC 254 7]
      rfl (fun _ _ => rfl)).2.1⟩

/-- The second run at a concrete input: after `10.0.0.1/24` is deleted and `10.0.0.3/24`
added, a second run on the addresses `10.0.0.2/24`, `10.0.0.3/24` issues no call; after the route to
`10.1.0.0/16` is deleted and the route to `10.6.0.0/16` added, a second run on the routes to
`10.5.0.0/16` and `10.6.0.0/16` issues no call. -/
theorem reconcile_second_run_empty_witness :
    updateAddresses Example.lib RangeOrder.reversed
        (Kernel.obliging [Example.addr 2, Example.addr 3] [])
        { Addresses := [Example.addr 2, Example.addr 3]
          Routes := [Example.net16 5, Example.net16 6] } Example.wg0 = ([], none) ∧
    updateRoutes Example.lib RangeOrder.reversed
        (Kernel.obliging [] [Example.route 5 RTPROT_STATIC 254 7,
          Example.route 6 RTPROT_BOOT 254 7])
        { Addresses := [Example.addr 2, Example.addr 3]
          Routes := [Example.net16 5, Example.net16 6] } Example.wg0 = ([], none) :=
  ⟨(reconcile_second_run_empty Example.lib RangeOrder.insertion RangeOrder.reversed
      { Addresses := [Example.addr 2, Example.addr 3]
        Routes := [Example.net16 5, Example.net16 6] } Example.wg0).2.2.1
      [Example.addr 1, Example.addr 2]
      (Kernel.obliging [Example.addr 2, Example.addr 3] [])
      (congrArg Except.ok (by decide)),
    (reconcile_second_run_empty Example.lib RangeOrder.insertion RangeOrder.reversed
      { Addresses := [Example.addr 2, Example.addr 3]
        Routes := [Example.net16 5, Example.net16 6] } Example.wg0).2.2.2
      [Example.route 1 RTPROT_BOOT 254 7, Example.route 5 RTPROT_STATIC 254 7]
      Example.installed
      (Kernel.obliging [] [Example.route 5 RTPROT_STATIC 254 7,
        Example.route 6 RTPROT_BOOT 254 7])
      (by decide) (congrArg Except.ok (by decide))⟩

end netconf

/-! ## The walk of the extractor over the sections -/

namespace wgquick

theorem setFlag_self (st : State) : setFlag st.addAllowedIPsAsRoutes st = st := rfl

theorem addAddresses_setFlag (env : Env) (value : String) (b : Bool) (items : List (List Char))
    (st : State) :
    addAddresses env value items (setFlag b st) =
      Except.map (setFlag b) (addAddresses env value items st) := by
  induction items generalizing st with
  | nil => rfl
  | cons item rest ih =>
    simp only [addAddresses]
    split
    · exact ih st
    · cases env.ParseAddr (String.mk (strings.TrimSpace item)) with
      | error e => rfl
      | ok a => exact ih ⟨_, _, _⟩

theorem interfacePair_setFlag (env : Env) (rt : List (String × Nat)) (pair : ini.Pair)
    (b : Bool) (st : State) (hoff : isTableOff pair = false) :
    interfacePair env rt pair (setFlag b st) =
      Except.map (setFlag b) (interfacePair env rt pair st) := by
  delta interfacePair
  by_cases h1 : pair.Key = "Address"
  · simp only [h1, if_true]
    exact addAddresses_setFlag env _ b _ st
  simp only [h1, if_false]
  by_cases h2 : pair.Key = "MTU"
  · simp only [h2, if_true]
    cases env.Atoi pair.Value with
    | error e => rfl
    | ok n =>
      by_cases hn : n < 0 ∨ n > 65535
      · simp only [hn, if_true]
        rfl
      · simp only [hn, if_false]
        rfl
  simp only [h2, if_false]
  by_cases h3 : pair.Key = "PrivateKey"
  · simp only [h3, if_true]
    cases env.ParseKey pair.Value <;> rfl
  simp only [h3, if_false]
  by_cases h4 : pair.Key = "ListenPort"
  · simp only [h4, if_true]
    cases env.Atoi pair.Value with
    | error e => rfl
    | ok n =>
      by_cases hn : n < 0 ∨ n > 65535
      · simp only [hn, if_true]
        rfl
      · simp only [hn, if_false]
        rfl
  simp only [h4, if_false]
  by_cases h5 : pair.Key = "Table"
  · simp only [h5, if_true]
    by_cases hv : pair.Value = "off"
    · simp [isTableOff, h5, hv] at hoff
    simp only [hv, if_false]
    by_cases hv2 : pair.Value = "auto"
    · simp only [hv2, if_true]
      rfl
    simp only [hv2, if_false]
    cases env.ParseUint32 pair.Value with
    | ok n =>
      by_cases hn : n > 2 ^ 32 - 1
      · simp only [hn, if_true]
        rfl
      · simp only [hn, if_false]
        rfl
    | error e =>
      cases GoMap.get? rt pair.Value <;> rfl
  simp only [h5, if_false]
  by_cases h6 : pair.Key = "FwMark"
  · simp only [h6, if_true]
    cases env.ParseUint32 pair.Value <;> rfl
  simp only [h6, if_false]
  by_cases h7 : pair.Key = "DNS" ∨ pair.Key = "PreUp" ∨ pair.Key = "PostUp" ∨
      pair.Key = "PreDown" ∨ pair.Key = "PostDown" ∨ pair.Key = "SaveConfig"
  · simp only [h7, if_true]
    rfl
  · simp only [h7, if_false]
    rfl

theorem interfacePair_tableOff (env : Env) (rt : List (String × Nat)) (pair : ini.Pair)
    (st : State) (hoff : isTableOff pair = true) :
    interfacePair env rt pair st = Except.ok (setFlag false st) := by
  simp only [isTableOff, Bool.and_eq_true, decide_eq_true_eq] at hoff
  delta interfacePair
  simp [hoff.1, hoff.2, setFlag]

theorem interfacePairs_setFlag (env : Env) (rt : List (String × Nat)) (pairs : List ini.Pair)
    (b : Bool) (st : State) :
    interfacePairs env rt pairs (setFlag b st) =
      Except.map (setFlag (b && !pairs.any isTableOff))
        (interfacePairs env rt (pairs.filter (fun p => !isTableOff p)) st) := by
  induction pairs generalizing b st with
  | nil =>
    simp only [interfacePairs, List.filter_nil, List.any_nil, Bool.not_false, Bool.and_true]
    rfl
  | cons p rest ih =>
    cases hoff : isTableOff p with
    | true =>
      simp only [interfacePairs, interfacePair_tableOff env rt p _ hoff, List.filter_cons, hoff,
        Bool.not_true, List.any_cons, Bool.true_or, Bool.and_false]
      exact ih false st
    | false =>
      simp only [interfacePairs, List.filter_cons, hoff, Bool.not_false, List.any_cons,
        Bool.false_or, if_true]
      rw [interfacePair_setFlag env rt p b st hoff]
      cases interfacePair env rt p st with
      | error r => rfl
      | ok st2 => exact ih b st2

theorem addAllowedIPs_setFlag (env : Env) (value : String) (b : Bool)
    (items : List (List Char)) (peer : PeerConfig) (st : State) :
    addAllowedIPs env value items (peer, setFlag b st) =
      Except.map (fun ps => (ps.1, setFlag b ps.2))
        (addAllowedIPs env value items (peer, st)) := by
  induction items generalizing peer st with
  | nil => rfl
  | cons item rest ih =>
    simp only [addAllowedIPs]
    split
    · exact ih peer st
    · cases env.ParseCIDR (String.mk (strings.TrimSpace item)) with
      | error e => rfl
      | ok a =>
        exact ih { peer with AllowedIPs := peer.AllowedIPs ++ [a] }
          ⟨st.conf, st.addAllowedIPsAsRoutes, none⟩

theorem peerPair_setFlag (env : Env) (pair : ini.Pair) (b : Bool) (peer : PeerConfig)
    (st : State) :
    peerPair env pair (peer, setFlag b st) =
      Except.map (fun ps => (ps.1, setFlag b ps.2)) (peerPair env pair (peer, st)) := by
  delta peerPair
  by_cases h1 : pair.Key = "PublicKey"
  · simp only [h1, if_true]
    cases env.ParseKey pair.Value <;> rfl
  simp only [h1, if_false]
  by_cases h2 : pair.Key = "PresharedKey"
  · simp only [h2, if_true]
    cases env.ParseKey pair.Value <;> rfl
  simp only [h2, if_false]
  by_cases h3 : pair.Key = "AllowedIPs"
  · simp only [h3, if_true]
    exact addAllowedIPs_setFlag env _ b _ peer st
  simp only [h3, if_false]
  by_cases h4 : pair.Key = "Endpoint"
  · simp only [h4, if_true]
    cases env.ResolveUDPAddr pair.Value <;> rfl
  simp only [h4, if_false]
  by_cases h5 : pair.Key = "PersistentKeepalive"
  · simp only [h5, if_true]
    cases env.Atoi pair.Value with
    | error e => rfl
    | ok n =>
      by_cases hn : n < 0 ∨ n > 65535
      · simp only [hn, if_true]
        rfl
      · simp only [hn, if_false]
        rfl
  · simp only [h5, if_false]
    rfl

theorem peerPairs_setFlag (env : Env) (pairs : List ini.Pair) (b : Bool) (peer : PeerConfig)
    (st : State) :
    peerPairs env pairs (peer, setFlag b st) =
      Except.map (fun ps => (ps.1, setFlag b ps.2)) (peerPairs env pairs (peer, st)) := by
  induction pairs generalizing peer st with
  | nil => rfl
  | cons p rest ih =>
    simp only [peerPairs]
    rw [peerPair_setFlag]
    cases peerPair env p (peer, st) with
    | error r => rfl
    | ok ps =>
      obtain ⟨peer2, st2⟩ := ps
      exact ih peer2 st2

theorem walkSection_setFlag (env : Env) (rt : List (String × Nat)) (sec : ini.Section)
    (b : Bool) (st : State) :
    walkSection env rt sec (setFlag b st) =
      Except.map
        (setFlag (b && !(decide (sec.Name = "Interface") && sec.Pairs.any isTableOff)))
        (walkSection env rt
          (if sec.Name = "Interface" then
            { sec with Pairs := sec.Pairs.filter (fun p => !isTableOff p) }
          else sec) st) := by
  by_cases h1 : sec.Name = "Interface"
  · simp only [walkSection, h1, if_true, decide_True, Bool.true_and]
    exact interfacePairs_setFlag env rt sec.Pairs b st
  · simp only [h1, if_false, decide_False, Bool.false_and, Bool.not_false, Bool.and_true]
    simp only [walkSection, h1, if_false]
    by_cases h2 : sec.Name = "Peer"
    · simp only [h2, if_true]
      rw [peerPairs_setFlag]
      cases peerPairs env sec.Pairs ({ ReplaceAllowedIPs := true }, st) with
      | error r => rfl
      | ok ps => rfl
    · simp only [h2, if_false]
      rfl

theorem walkSections_setFlag (env : Env) (rt : List (String × Nat)) (doc : List ini.Section)
    (b : Bool) (st : State) :
    walkSections env rt doc (setFlag b st) =
      Except.map (setFlag (b && !tableOff doc))
        (walkSections env rt (dropTableOff doc) st) := by
  induction doc generalizing b st with
  | nil =>
    simp only [walkSections, dropTableOff, tableOff, List.map_nil, List.any_nil, Bool.not_false,
      Bool.and_true]
    rfl
  | cons sec rest ih =>
    simp only [walkSections, dropTableOff, List.map_cons, tableOff, List.any_cons]
    rw [walkSection_setFlag env rt sec b st]
    cases walkSection env rt
        (if sec.Name = "Interface" then
          { sec with Pairs := sec.Pairs.filter (fun p => !isTableOff p) }
        else sec) st with
    | error r => rfl
    | ok st2 =>
      have := ih (b && !(decide (sec.Name = "Interface") && sec.Pairs.any isTableOff)) st2
      simp only [dropTableOff, tableOff] at this
      simp only [Except.map]
      rw [this]
      simp only [Bool.not_or, Bool.and_assoc]
      rfl

end wgquick

namespace wgquick

theorem addAddresses_frame (env : Env) (value : String) (items : List (List Char))
    (st st2 : State) (h : addAddresses env value items st = Except.ok st2) :
    st2.conf.Interface = st.conf.Interface ∧
    st2.conf.Network.Device = st.conf.Network.Device ∧
    st2.conf.Network.Routes = st.conf.Network.Routes ∧
    st2.conf.WireGuard = st.conf.WireGuard ∧
    st2.conf.Network.Table = st.conf.Network.Table ∧
    st2.conf.Network.MTU = st.conf.Network.MTU := by
  induction items generalizing st with
  | nil =>
    cases h
    exact ⟨rfl, rfl, rfl, rfl, rfl, rfl⟩
  | cons item rest ih =>
    simp only [addAddresses] at h
    split at h
    · exact ih st h
    · cases hA : env.ParseAddr (String.mk (strings.TrimSpace item)) with
      | error e =>
        rw [hA] at h
        cases h
      | ok a =>
        rw [hA] at h
        have h2 := ih _ h
        exact h2

theorem interfacePair_frame (env : Env) (rt : List (String × Nat)) (pair : ini.Pair)
    (st st2 : State) (h : interfacePair env rt pair st = Except.ok st2) :
    st2.conf.Interface = st.conf.Interface ∧
    st2.conf.Network.Device = st.conf.Network.Device ∧
    st2.conf.Network.Routes = st.conf.Network.Routes ∧
    st2.conf.WireGuard.Peers = st.conf.WireGuard.Peers ∧
    (pair.Key ≠ "Table" → st2.conf.Network.Table = st.conf.Network.Table) := by
  delta interfacePair at h
  by_cases h1 : pair.Key = "Address"
  · simp only [h1, if_true] at h
    obtain ⟨a1, a2, a3, a4, a5, _⟩ := addAddresses_frame env _ _ st st2 h
    exact ⟨a1, a2, a3, by rw [a4], fun _ => a5⟩
  simp only [h1, if_false] at h
  by_cases h2 : pair.Key = "MTU"
  · simp only [h2, if_true] at h
    cases hA : env.Atoi pair.Value with
    | error e => rw [hA] at h; cases h
    | ok n =>
      rw [hA] at h
      simp only [] at h
      split at h
      · cases h
      · cases h
        exact ⟨rfl, rfl, rfl, rfl, fun _ => rfl⟩
  simp only [h2, if_false] at h
  by_cases h3 : pair.Key = "PrivateKey"
  · simp only [h3, if_true] at h
    cases hA : env.ParseKey pair.Value with
    | error e => rw [hA] at h; cases h
    | ok n =>
      rw [hA] at h
      cases h
      exact ⟨rfl, rfl, rfl, rfl, fun _ => rfl⟩
  simp only [h3, if_false] at h
  by_cases h4 : pair.Key = "ListenPort"
  · simp only [h4, if_true] at h
    cases hA : env.Atoi pair.Value with
    | error e => rw [hA] at h; cases h
    | ok n =>
      rw [hA] at h
      simp only [] at h
      split at h
      · cases h
      · cases h
        exact ⟨rfl, rfl, rfl, rfl, fun _ => rfl⟩
  simp only [h4, if_false] at h
  by_cases h5 : pair.Key = "Table"
  · simp only [h5, if_true] at h
    refine ⟨?_, ?_, ?_, ?_, fun hk => absurd h5 hk⟩
    all_goals
      split at h
      · cases h; rfl
      · split at h
        · cases h; rfl
        · cases hA : env.ParseUint32 pair.Value with
          | ok n =>
            rw [hA] at h
            simp only [] at h
            split at h
            · cases h
            · cases h; rfl
          | error e =>
            rw [hA] at h
            simp only [] at h
            cases hG : GoMap.get? rt pair.Value with
            | none => rw [hG] at h; cases h
            | some t => rw [hG] at h; cases h; rfl
  simp only [h5, if_false] at h
  by_cases h6 : pair.Key = "FwMark"
  · simp only [h6, if_true] at h
    cases hA : env.ParseUint32 pair.Value with
    | error e => rw [hA] at h; cases h
    | ok n =>
      rw [hA] at h
      cases h
      exact ⟨rfl, rfl, rfl, rfl, fun _ => rfl⟩
  simp only [h6, if_false] at h
  split at h
  · cases h
    exact ⟨rfl, rfl, rfl, rfl, fun _ => rfl⟩
  · cases h

theorem addAllowedIPs_frame (env : Env) (value : String) (items : List (List Char))
    (peer peer2 : PeerConfig) (st st2 : State)
    (h : addAllowedIPs env value items (peer, st) = Except.ok (peer2, st2)) :
    st2.conf = st.conf ∧ peer2.ReplaceAllowedIPs = peer.ReplaceAllowedIPs ∧
    peer2.Remove = peer.Remove ∧ peer2.PublicKey = peer.PublicKey := by
  induction items generalizing peer st with
  | nil =>
    cases h
    exact ⟨rfl, rfl, rfl, rfl⟩
  | cons item rest ih =>
    simp only [addAllowedIPs] at h
    split at h
    · exact ih peer st h
    · cases hA : env.ParseCIDR (String.mk (strings.TrimSpace item)) with
      | error e =>
        rw [hA] at h
        cases h
      | ok a =>
        rw [hA] at h
        have h2 := ih _ _ h
        exact h2

theorem peerPair_frame (env : Env) (pair : ini.Pair) (peer peer2 : PeerConfig)
    (st st2 : State) (h : peerPair env pair (peer, st) = Except.ok (peer2, st2)) :
    st2.conf = st.conf ∧ peer2.ReplaceAllowedIPs = peer.ReplaceAllowedIPs ∧
    peer2.Remove = peer.Remove ∧
    peer2.PublicKey =
      (if pair.Key = "PublicKey" then
        match env.ParseKey pair.Value with
        | Except.ok pubkey => pubkey
        | Except.error _ => peer.PublicKey
      else peer.PublicKey) := by
  delta peerPair at h
  by_cases h1 : pair.Key = "PublicKey"
  · simp only [h1, if_true] at h ⊢
    cases hA : env.ParseKey pair.Value with
    | error e => rw [hA] at h; cases h
    | ok n =>
      rw [hA] at h
      cases h
      exact ⟨rfl, rfl, rfl, rfl⟩
  simp only [h1, if_false] at h ⊢
  by_cases h2 : pair.Key = "PresharedKey"
  · simp only [h2, if_true] at h
    cases hA : env.ParseKey pair.Value with
    | error e => rw [hA] at h; cases h
    | ok n =>
      rw [hA] at h
      cases h
      exact ⟨rfl, rfl, rfl, rfl⟩
  simp only [h2, if_false] at h
  by_cases h3 : pair.Key = "AllowedIPs"
  · simp only [h3, if_true] at h
    exact addAllowedIPs_frame env _ _ peer peer2 st st2 h
  simp only [h3, if_false] at h
  by_cases h4 : pair.Key = "Endpoint"
  · simp only [h4, if_true] at h
    cases hA : env.ResolveUDPAddr pair.Value with
    | error e => rw [hA] at h; cases h
    | ok n =>
      rw [hA] at h
      cases h
      exact ⟨rfl, rfl, rfl, rfl⟩
  simp only [h4, if_false] at h
  by_cases h5 : pair.Key = "PersistentKeepalive"
  · simp only [h5, if_true] at h
    cases hA : env.Atoi pair.Value with
    | error e => rw [hA] at h; cases h
    | ok n =>
      rw [hA] at h
      simp only [] at h
      split at h
      · cases h
      · cases h
        exact ⟨rfl, rfl, rfl, rfl⟩
  · simp only [h5, if_false] at h
    cases h

theorem peerPairs_frame (env : Env) (pairs : List ini.Pair) (peer peer2 : PeerConfig)
    (st st2 : State) (h : peerPairs env pairs (peer, st) = Except.ok (peer2, st2)) :
    st2.conf = st.conf ∧ peer2.ReplaceAllowedIPs = peer.ReplaceAllowedIPs ∧
    peer2.Remove = peer.Remove ∧
    peer2.PublicKey =
      pairs.foldl
        (fun k p =>
          if p.Key = "PublicKey" then
            match env.ParseKey p.Value with
            | Except.ok pubkey => pubkey
            | Except.error _ => k
          else k)
        peer.PublicKey := by
  induction pairs generalizing peer st with
  | nil =>
    cases h
    exact ⟨rfl, rfl, rfl, rfl⟩
  | cons p rest ih =>
    simp only [peerPairs] at h
    cases hp : peerPair env p (peer, st) with
    | error r => rw [hp] at h; cases h
    | ok ps =>
      obtain ⟨peer1, st1⟩ := ps
      rw [hp] at h
      obtain ⟨a1, a2, a3, a4⟩ := peerPair_frame env p peer peer1 st st1 hp
      obtain ⟨b1, b2, b3, b4⟩ := ih peer1 st1 h
      refine ⟨b1.trans a1, b2.trans a2, b3.trans a3, ?_⟩
      rw [b4, a4, List.foldl_cons]

theorem interfacePairs_frame (env : Env) (rt : List (String × Nat)) (pairs : List ini.Pair)
    (st st2 : State) (h : interfacePairs env rt pairs st = Except.ok st2) :
    st2.conf.Interface = st.conf.Interface ∧
    st2.conf.Network.Device = st.conf.Network.Device ∧
    st2.conf.Network.Routes = st.conf.Network.Routes ∧
    st2.conf.WireGuard.Peers = st.conf.WireGuard.Peers ∧
    (pairs.all (fun p => !isTableKey p) = true →
      st2.conf.Network.Table = st.conf.Network.Table) := by
  induction pairs generalizing st with
  | nil =>
    cases h
    exact ⟨rfl, rfl, rfl, rfl, fun _ => rfl⟩
  | cons p rest ih =>
    simp only [interfacePairs] at h
    cases hp : interfacePair env rt p st with
    | error r => rw [hp] at h; cases h
    | ok st1 =>
      rw [hp] at h
      obtain ⟨a1, a2, a3, a4, a5⟩ := interfacePair_frame env rt p st st1 hp
      obtain ⟨b1, b2, b3, b4, b5⟩ := ih st1 h
      refine ⟨b1.trans a1, b2.trans a2, b3.trans a3, b4.trans a4, fun hall => ?_⟩
      simp only [List.all_cons, Bool.and_eq_true, isTableKey, Bool.not_eq_true',
        decide_eq_false_iff_not] at hall
      exact (b5 (by simpa [isTableKey] using hall.2)).trans (a5 hall.1)

/-- What the walk over one section leaves unchanged, and the peer it adds. -/
theorem walkSection_frame (env : Env) (rt : List (String × Nat)) (sec : ini.Section)
    (st st2 : State) (h : walkSection env rt sec st = Except.ok st2) :
    st2.conf.Interface = st.conf.Interface ∧
    st2.conf.Network.Device = st.conf.Network.Device ∧
    st2.conf.Network.Routes = st.conf.Network.Routes ∧
    ((!(decide (sec.Name = "Interface")) || sec.Pairs.all (fun p => !isTableKey p)) = true →
      st2.conf.Network.Table = st.conf.Network.Table) ∧
    (if sec.Name = "Peer" then
      ∃ peer : PeerConfig, st2.conf.WireGuard.Peers = st.conf.WireGuard.Peers ++ [peer] ∧
        peer.ReplaceAllowedIPs = true ∧ peer.Remove = false ∧
        peer.PublicKey = sectionKey env sec
    else st2.conf.WireGuard.Peers = st.conf.WireGuard.Peers) := by
  by_cases h1 : sec.Name = "Interface"
  · have hne : ¬ sec.Name = "Peer" := by rw [h1]; decide
    simp only [walkSection, h1, if_true] at h
    obtain ⟨a1, a2, a3, a4, a5⟩ := interfacePairs_frame env rt sec.Pairs st st2 h
    refine ⟨a1, a2, a3, ?_, ?_⟩
    · intro hall
      simp only [h1, decide_True, Bool.not_true, Bool.false_or] at hall
      exact a5 hall
    · simp only [hne, if_false]
      exact a4
  · simp only [walkSection, h1, if_false] at h
    by_cases h2 : sec.Name = "Peer"
    · simp only [h2, if_true] at h ⊢
      cases hp : peerPairs env sec.Pairs ({ ReplaceAllowedIPs := true }, st) with
      | error r => rw [hp] at h; cases h
      | ok ps =>
        obtain ⟨peer, st1⟩ := ps
        rw [hp] at h
        obtain ⟨b1, b2, b3, b4⟩ := peerPairs_frame env sec.Pairs _ peer st st1 hp
        cases h
        simp only [b1]
        exact ⟨trivial, trivial, trivial, fun _ => trivial, peer, rfl, b2, b3, b4⟩
    · simp only [h2, if_false] at h ⊢
      cases h
      exact ⟨rfl, rfl, rfl, fun _ => rfl, rfl⟩

end wgquick

namespace wgquick

theorem addAddresses_error (env : Env) (value : String) (items : List (List Char))
    (st : State) (r : Option wgconf.Config × Option Error)
    (h : addAddresses env value items st = Except.error r) :
    r.1.isSome = true ∧ r.2.isSome = true := by
  induction items generalizing st with
  | nil => cases h
  | cons item rest ih =>
    simp only [addAddresses] at h
    split at h
    · exact ih st h
    · cases hA : env.ParseAddr (String.mk (strings.TrimSpace item)) with
      | error e =>
        rw [hA] at h
        cases h
        exact ⟨rfl, rfl⟩
      | ok a =>
        rw [hA] at h
        exact ih _ h

/-- A pair of an `Interface` section that makes `parse` return has an unknown key, and then
no configuration is returned and the message names the key, the value and the section, or
has a known key with a rejected value, and then the configuration under construction is
returned with an error. -/
theorem interfacePair_error (env : Env) (rt : List (String × Nat)) (pair : ini.Pair)
    (st : State) (r : Option wgconf.Config × Option Error)
    (h : interfacePair env rt pair st = Except.error r) :
    (pair.Key ∉ interfaceKeys ∧
      r = (none, some (Error.mk ("unknown key-value pair in [Interface] section: "
        ++ pair.Key ++ " = " ++ pair.Value)))) ∨
    (pair.Key ∈ interfaceKeys ∧ r.1.isSome = true ∧ r.2.isSome = true) := by
  delta interfacePair at h
  by_cases h1 : pair.Key = "Address"
  · simp only [h1, if_true] at h
    exact Or.inr ⟨by simp [interfaceKeys, h1], addAddresses_error env _ _ st r h⟩
  simp only [h1, if_false] at h
  by_cases h2 : pair.Key = "MTU"
  · simp only [h2, if_true] at h
    refine Or.inr ⟨by simp [interfaceKeys, h2], ?_⟩
    cases hA : env.Atoi pair.Value with
    | error e => rw [hA] at h; cases h; exact ⟨rfl, rfl⟩
    | ok n =>
      rw [hA] at h
      simp only [] at h
      split at h
      · cases h; exact ⟨rfl, rfl⟩
      · cases h
  simp only [h2, if_false] at h
  by_cases h3 : pair.Key = "PrivateKey"
  · simp only [h3, if_true] at h
    refine Or.inr ⟨by simp [interfaceKeys, h3], ?_⟩
    cases hA : env.ParseKey pair.Value with
    | error e => rw [hA] at h; cases h; exact ⟨rfl, rfl⟩
    | ok n => rw [hA] at h; cases h
  simp only [h3, if_false] at h
  by_cases h4 : pair.Key = "ListenPort"
  · simp only [h4, if_true] at h
    refine Or.inr ⟨by simp [interfaceKeys, h4], ?_⟩
    cases hA : env.Atoi pair.Value with
    | error e => rw [hA] at h; cases h; exact ⟨rfl, rfl⟩
    | ok n =>
      rw [hA] at h
      simp only [] at h
      split at h
      · cases h; exact ⟨rfl, rfl⟩
      · cases h
  simp only [h4, if_false] at h
  by_cases h5 : pair.Key = "Table"
  · simp only [h5, if_true] at h
    refine Or.inr ⟨by simp [interfaceKeys, h5], ?_⟩
    split at h
    · cases h
    · split at h
      · cases h
      · cases hA : env.ParseUint32 pair.Value with
        | ok n =>
          rw [hA] at h
          simp only [] at h
          split at h
          · cases h; exact ⟨rfl, rfl⟩
          · cases h
        | error e =>
          rw [hA] at h
          simp only [] at h
          cases hG : GoMap.get? rt pair.Value with
          | none => rw [hG] at h; cases h; exact ⟨rfl, rfl⟩
          | some t => rw [hG] at h; cases h
  simp only [h5, if_false] at h
  by_cases h6 : pair.Key = "FwMark"
  · simp only [h6, if_true] at h
    refine Or.inr ⟨by simp [interfaceKeys, h6], ?_⟩
    cases hA : env.ParseUint32 pair.Value with
    | error e => rw [hA] at h; cases h; exact ⟨rfl, rfl⟩
    | ok n => rw [hA] at h; cases h
  simp only [h6, if_false] at h
  split at h
  · cases h
  · rename_i h7
    cases h
    refine Or.inl ⟨?_, rfl⟩
    simp only [interfaceKeys, List.mem_cons, List.mem_singleton, List.not_mem_nil, or_false]
    tauto

/-- A pair of an `Interface` section that `parse` accepts has a known key. -/
theorem interfacePair_ok_key (env : Env) (rt : List (String × Nat)) (pair : ini.Pair)
    (st st2 : State) (h : interfacePair env rt pair st = Except.ok st2) :
    pair.Key ∈ interfaceKeys := by
  delta interfacePair at h
  simp only [interfaceKeys, List.mem_cons, List.mem_singleton, List.not_mem_nil, or_false]
  by_cases h1 : pair.Key = "Address"
  · exact Or.inl h1
  by_cases h2 : pair.Key = "MTU"
  · exact Or.inr (Or.inl h2)
  by_cases h3 : pair.Key = "PrivateKey"
  · exact Or.inr (Or.inr (Or.inl h3))
  by_cases h4 : pair.Key = "ListenPort"
  · exact Or.inr (Or.inr (Or.inr (Or.inl h4)))
  by_cases h5 : pair.Key = "Table"
  · exact Or.inr (Or.inr (Or.inr (Or.inr (Or.inl h5))))
  by_cases h6 : pair.Key = "FwMark"
  · exact Or.inr (Or.inr (Or.inr (Or.inr (Or.inr (Or.inl h6)))))
  simp only [h1, h2, h3, h4, h5, h6, if_false] at h
  split at h
  · rename_i h7
    tauto
  · cases h

end wgquick

namespace wgquick

theorem addAllowedIPs_error (env : Env) (value : String) (items : List (List Char))
    (ps : PeerConfig × State) (r : Option wgconf.Config × Option Error)
    (h : addAllowedIPs env value items ps = Except.error r) :
    r.1.isSome = true ∧ r.2.isSome = true := by
  obtain ⟨peer, st⟩ := ps
  induction items generalizing peer st with
  | nil => cases h
  | cons item rest ih =>
    simp only [addAllowedIPs] at h
    split at h
    · exact ih peer st h
    · cases hA : env.ParseCIDR (String.mk (strings.TrimSpace item)) with
      | error e =>
        rw [hA] at h
        cases h
        exact ⟨rfl, rfl⟩
      | ok a =>
        rw [hA] at h
        exact ih _ _ h

/-- A pair of a `Peer` section that makes `parse` return has an unknown key, and then no
configuration is returned and the message names the key, the value and the section, or has
a known key with a rejected value, and then the configuration under construction is
returned with an error. -/
theorem peerPair_error (env : Env) (pair : ini.Pair) (ps : PeerConfig × State)
    (r : Option wgconf.Config × Option Error)
    (h : peerPair env pair ps = Except.error r) :
    (pair.Key ∉ peerKeys ∧
      r = (none, some (Error.mk ("unknown key-value pair in [Peer] section: "
        ++ pair.Key ++ " = " ++ pair.Value)))) ∨
    (pair.Key ∈ peerKeys ∧ r.1.isSome = true ∧ r.2.isSome = true) := by
  delta peerPair at h
  by_cases h1 : pair.Key = "PublicKey"
  · simp only [h1, if_true] at h
    refine Or.inr ⟨by simp [peerKeys, h1], ?_⟩
    cases hA : env.ParseKey pair.Value with
    | error e => rw [hA] at h; cases h; exact ⟨rfl, rfl⟩
    | ok n => rw [hA] at h; cases h
  simp only [h1, if_false] at h
  by_cases h2 : pair.Key = "PresharedKey"
  · simp only [h2, if_true] at h
    refine Or.inr ⟨by simp [peerKeys, h2], ?_⟩
    cases hA : env.ParseKey pair.Value with
    | error e => rw [hA] at h; cases h; exact ⟨rfl, rfl⟩
    | ok n => rw [hA] at h; cases h
  simp only [h2, if_false] at h
  by_cases h3 : pair.Key = "AllowedIPs"
  · simp only [h3, if_true] at h
    exact Or.inr ⟨by simp [peerKeys, h3], addAllowedIPs_error env _ _ _ r h⟩
  simp only [h3, if_false] at h
  by_cases h4 : pair.Key = "Endpoint"
  · simp only [h4, if_true] at h
    refine Or.inr ⟨by simp [peerKeys, h4], ?_⟩
    cases hA : env.ResolveUDPAddr pair.Value with
    | error e => rw [hA] at h; cases h; exact ⟨rfl, rfl⟩
    | ok n => rw [hA] at h; cases h
  simp only [h4, if_false] at h
  by_cases h5 : pair.Key = "PersistentKeepalive"
  · simp only [h5, if_true] at h
    refine Or.inr ⟨by simp [peerKeys, h5], ?_⟩
    cases hA : env.Atoi pair.Value with
    | error e => rw [hA] at h; cases h; exact ⟨rfl, rfl⟩
    | ok n =>
      rw [hA] at h
      simp only [] at h
      split at h
      · cases h; exact ⟨rfl, rfl⟩
      · cases h
  · simp only [h5, if_false] at h
    cases h
    refine Or.inl ⟨?_, rfl⟩
    simp only [peerKeys, List.mem_cons, List.mem_singleton, List.not_mem_nil, or_false]
    tauto

/-- A pair of a `Peer` section that `parse` accepts has a known key. -/
theorem peerPair_ok_key (env : Env) (pair : ini.Pair) (ps ps2 : PeerConfig × State)
    (h : peerPair env pair ps = Except.ok ps2) : pair.Key ∈ peerKeys := by
  delta peerPair at h
  simp only [peerKeys, List.mem_cons, List.mem_singleton, List.not_mem_nil, or_false]
  by_cases h1 : pair.Key = "PublicKey"
  · exact Or.inl h1
  by_cases h2 : pair.Key = "PresharedKey"
  · exact Or.inr (Or.inl h2)
  by_cases h3 : pair.Key = "AllowedIPs"
  · exact Or.inr (Or.inr (Or.inl h3))
  by_cases h4 : pair.Key = "Endpoint"
  · exact Or.inr (Or.inr (Or.inr (Or.inl h4)))
  by_cases h5 : pair.Key = "PersistentKeepalive"
  · exact Or.inr (Or.inr (Or.inr (Or.inr h5)))
  simp only [h1, h2, h3, h4, h5, if_false] at h
  cases h

theorem interfacePairs_error (env : Env) (rt : List (String × Nat)) (pairs : List ini.Pair)
    (st : State) (r : Option wgconf.Config × Option Error)
    (h : interfacePairs env rt pairs st = Except.error r) : r.2.isSome = true := by
  induction pairs generalizing st with
  | nil => cases h
  | cons p rest ih =>
    simp only [interfacePairs] at h
    cases hp : interfacePair env rt p st with
    | error r2 =>
      rw [hp] at h
      cases h
      rcases interfacePair_error env rt p st r hp with ⟨_, h2⟩ | ⟨_, _, h2⟩
      · rw [h2]
        rfl
      · exact h2
    | ok st1 =>
      rw [hp] at h
      exact ih st1 h

theorem peerPairs_error (env : Env) (pairs : List ini.Pair) (ps : PeerConfig × State)
    (r : Option wgconf.Config × Option Error)
    (h : peerPairs env pairs ps = Except.error r) : r.2.isSome = true := by
  induction pairs generalizing ps with
  | nil => cases h
  | cons p rest ih =>
    simp only [peerPairs] at h
    cases hp : peerPair env p ps with
    | error r2 =>
      rw [hp] at h
      cases h
      rcases peerPair_error env p ps r hp with ⟨_, h2⟩ | ⟨_, _, h2⟩
      · rw [h2]
        rfl
      · exact h2
    | ok ps1 =>
      rw [hp] at h
      exact ih ps1 h

theorem walkSection_error (env : Env) (rt : List (String × Nat)) (sec : ini.Section)
    (st : State) (r : Option wgconf.Config × Option Error)
    (h : walkSection env rt sec st = Except.error r) : r.2.isSome = true := by
  simp only [walkSection] at h
  split at h
  · exact interfacePairs_error env rt _ st r h
  · split at h
    · cases hp : peerPairs env sec.Pairs ({ ReplaceAllowedIPs := true }, st) with
      | error r2 =>
        rw [hp] at h
        cases h
        exact peerPairs_error env _ _ r hp
      | ok ps =>
        rw [hp] at h
        cases h
    · cases h

/-- When the walk over the sections makes `parse` return, an error is returned. -/
theorem walkSections_error (env : Env) (rt : List (String × Nat)) (doc : List ini.Section)
    (st : State) (r : Option wgconf.Config × Option Error)
    (h : walkSections env rt doc st = Except.error r) : r.2.isSome = true := by
  induction doc generalizing st with
  | nil => cases h
  | cons sec rest ih =>
    simp only [walkSections] at h
    cases hp : walkSection env rt sec st with
    | error r2 =>
      rw [hp] at h
      cases h
      exact walkSection_error env rt sec st r hp
    | ok st1 =>
      rw [hp] at h
      exact ih st1 h

/-- The walk over the sections of a document, section by section. -/
theorem walkSections_frame (env : Env) (rt : List (String × Nat)) (doc : List ini.Section)
    (st st2 : State) (h : walkSections env rt doc st = Except.ok st2) :
    st2.conf.Interface = st.conf.Interface ∧
    st2.conf.Network.Device = st.conf.Network.Device ∧
    st2.conf.Network.Routes = st.conf.Network.Routes ∧
    (noTableKey doc = true → st2.conf.Network.Table = st.conf.Network.Table) ∧
    ∃ added : List PeerConfig,
      st2.conf.WireGuard.Peers = st.conf.WireGuard.Peers ++ added ∧
      (∀ p ∈ added, p.ReplaceAllowedIPs = true ∧ p.Remove = false) ∧
      added.map (fun p => p.PublicKey) = (peerSections doc).map (sectionKey env) := by
  induction doc generalizing st with
  | nil =>
    cases h
    exact ⟨rfl, rfl, rfl, fun _ => rfl, [], by simp, by simp, by simp [peerSections]⟩
  | cons sec rest ih =>
    simp only [walkSections] at h
    cases hp : walkSection env rt sec st with
    | error r2 => rw [hp] at h; cases h
    | ok st1 =>
      rw [hp] at h
      obtain ⟨a1, a2, a3, a4, a5⟩ := walkSection_frame env rt sec st st1 hp
      obtain ⟨b1, b2, b3, b4, added, b5, b6, b7⟩ := ih st1 h
      refine ⟨b1.trans a1, b2.trans a2, b3.trans a3, ?_, ?_⟩
      · intro hno
        simp only [noTableKey, List.all_cons, Bool.and_eq_true] at hno
        exact (b4 (by simpa [noTableKey] using hno.2)).trans (a4 hno.1)
      · by_cases hpeer : sec.Name = "Peer"
        · simp only [hpeer, if_true] at a5
          obtain ⟨peer, c1, c2, c3, c4⟩ := a5
          refine ⟨peer :: added, ?_, ?_, ?_⟩
          · rw [b5, c1]
            simp
          · intro p hpm
            rcases List.mem_cons.1 hpm with hpm | hpm
            · rw [hpm]
              exact ⟨c2, c3⟩
            · exact b6 p hpm
          · simp [peerSections, List.filter_cons, hpeer, c4, b7]
        · simp only [hpeer, if_false] at a5
          refine ⟨added, ?_, b6, ?_⟩
          · rw [b5, a5]
          · simp [peerSections, List.filter_cons, hpeer, b7]

end wgquick

/-! ## The extractor: interface name, routes and table -/

namespace wgquick

theorem parse_eq_extract (env : Env) (opts : wgconf.ParserOptions) (ifceName confPath : String)
    (lines : List String) (doc : List ini.Section)
    (hloc : locate env opts = Except.ok (ifceName, confPath))
    (hopen : env.Open confPath = Except.ok lines)
    (hini : ini.ParseINI env.Unquote lines = (doc, none)) :
    parse env (some opts) =
      extract env (rtTablesOf env) (parseIproute2RtTables env).2 ifceName doc := by
  simp only [parse, wgconf.ExtractParserOptions, hloc, hopen, hini, extract, rtTablesOf,
    initialConf]
  cases walkSections env
    (if (parseIproute2RtTables env).2.isSome = true then []
      else (parseIproute2RtTables env).1.getD [])
    doc ⟨{ Interface := ifceName, WireGuard := {}, Network := { Device := ifceName } }, true,
      (parseIproute2RtTables env).2⟩ with
  | error r => rfl
  | ok st => rfl

/-- A document is accepted when the walk over its sections ends and leaves no error. -/
theorem extract_accepted (env : Env) (rt : List (String × Nat)) (err0 : Option Error)
    (name : String) (doc : List ini.Section) (conf : wgconf.Config)
    (h : extract env rt err0 name doc = (some conf, none)) :
    ∃ st, walkSections env rt doc ⟨initialConf name, true, err0⟩ = Except.ok st ∧
      st.err = none ∧ (finish st).1 = some conf := by
  unfold extract at h
  cases hw : walkSections env rt doc ⟨initialConf name, true, err0⟩ with
  | error r =>
    rw [hw] at h
    have := walkSections_error env rt doc _ r hw
    simp only at h
    rw [h] at this
    cases this
  | ok st =>
    rw [hw] at h
    simp only at h
    refine ⟨st, rfl, ?_, ?_⟩
    · exact congrArg Prod.snd h
    · exact congrArg Prod.fst h

/-- The interface name of an accepted document is the name `parse` resolved from the
hints, and so is the device name of the network model. -/
theorem extract_interface (env : Env) (rt : List (String × Nat)) (err0 : Option Error)
    (name : String) (doc : List ini.Section) (conf : wgconf.Config)
    (h : extract env rt err0 name doc = (some conf, none)) :
    conf.Interface = name ∧ conf.Network.Device = name := by
  obtain ⟨st, hw, _, hf⟩ := extract_accepted env rt err0 name doc conf h
  obtain ⟨a1, a2, _⟩ := walkSections_frame env rt doc _ st hw
  simp only [finish, Option.some.injEq] at hf
  rw [← hf]
  exact ⟨a1, a2⟩

/-- With a non-empty path hint and a non-empty interface hint, the name `parse` resolves is
the empty string. -/
theorem locate_both_hints (env : Env) (opts : wgconf.ParserOptions) (name path : String)
    (hi : opts.Interface ≠ "") (hp : opts.Path ≠ "")
    (h : locate env opts = Except.ok (name, path)) : name = "" ∧ path = opts.Path := by
  simp only [locate, hi, hp, false_and, if_false, ne_eq, not_false_eq_true, if_true] at h
  split at h
  · cases h
  · split at h
    · cases h
    · cases h
      exact ⟨rfl, rfl⟩

/-- C11 at the failing input: with the interface hint `wg1` and the path hint
`/etc/wireguard/wg1.conf`, which agree, on a readable and well-formed document `parse`
returns no error and a configuration whose interface name and device name are the empty
string, called directly or through probing. -/
theorem parse_both_hints_empty_interface :
    parse Example.env
        (some { Interface := "wg1", Path := "/etc/wireguard/wg1.conf", ProbeParser := false }) =
      (some { Interface := "", WireGuard := { ListenPort := some 51820 }
              Network := { Device := "" } }, none) ∧
    wgconf.Parse RangeOrder.insertion (registry Example.env) "" "wg1"
        "/etc/wireguard/wg1.conf" =
      ⟨some { Interface := "", WireGuard := { ListenPort := some 51820 }
              Network := { Device := "" } }, none, ["wg-quick"]⟩ ∧
    parse Example.env
        (some { Interface := "", Path := "/etc/wireguard/wg1.conf", ProbeParser := false }) =
      (some { Interface := "wg1", WireGuard := { ListenPort := some 51820 }
              Network := { Device := "wg1" } }, none) := by
  refine ⟨by decide, by decide, by decide⟩

end wgquick

namespace wgquick

theorem tableOff_dropTableOff (doc : List ini.Section) : tableOff (dropTableOff doc) = false := by
  induction doc with
  | nil => rfl
  | cons sec rest ih =>
    simp only [tableOff, dropTableOff, List.map_cons, List.any_cons, Bool.or_eq_false_iff] at ih ⊢
    refine ⟨?_, ih⟩
    by_cases h1 : sec.Name = "Interface"
    · simp only [h1, if_true, decide_True, Bool.true_and]
      rw [List.any_eq_false]
      intro p hp
      have := (List.mem_filter.1 hp).2
      simpa using this
    · simp [h1]

/-- The variables of `parse` once the walk over an accepted document ends: those of the
walk over the document without its `Table = off` pairs, with the flag cleared when the
document holds such a pair. -/
theorem walkSections_tableOff (env : Env) (rt : List (String × Nat)) (doc : List ini.Section)
    (st0 st : State) (h0 : st0.addAllowedIPsAsRoutes = true)
    (h : walkSections env rt doc st0 = Except.ok st) :
    ∃ st2, walkSections env rt (dropTableOff doc) st0 = Except.ok st2 ∧
      st2.addAllowedIPsAsRoutes = true ∧ st = setFlag (!tableOff doc) st2 := by
  have e0 : st0 = setFlag true st0 := by
    rw [← h0]
    rfl
  have h1 := walkSections_setFlag env rt doc true st0
  rw [← e0, h] at h1
  cases hw : walkSections env rt (dropTableOff doc) st0 with
  | error r =>
    rw [hw] at h1
    cases h1
  | ok st2 =>
    rw [hw] at h1
    have h2 := walkSections_setFlag env rt (dropTableOff doc) true st0
    rw [← e0, hw, tableOff_dropTableOff] at h2
    cases hw2 : walkSections env rt (dropTableOff (dropTableOff doc)) st0 with
    | error r =>
      rw [hw2] at h2
      cases h2
    | ok st3 =>
      rw [hw2] at h2
      refine ⟨st2, rfl, ?_, ?_⟩
      · have : st2 = setFlag true st3 := Except.ok.inj h2
        rw [this]
        rfl
      · have : st = setFlag (true && !tableOff doc) st2 := Except.ok.inj h1
        simpa using this

/-- C12: for every document the extractor accepts, the routes of the network model are
the allowed IPs of the peers of the extracted model, peer after peer and in the order of
each peer, when no `Interface` section holds the pair `Table = off`, and there is none
when one does; and the same document without its `Table = off` pairs is accepted too and
gives the same configuration, the addresses included, but for the routes, which are then
the allowed IPs of the peers. -/
theorem extract_routes_and_table_off (env : Env) (rt : List (String × Nat))
    (err0 : Option Error) (name : String) (doc : List ini.Section) (conf : wgconf.Config)
    (h : extract env rt err0 name doc = (some conf, none)) :
    conf.Network.Routes =
      (if tableOff doc = true then []
        else conf.WireGuard.Peers.flatMap (fun p => p.AllowedIPs)) ∧
    ∃ conf2, extract env rt err0 name (dropTableOff doc) = (some conf2, none) ∧
      conf2.Network.Addresses = conf.Network.Addresses ∧
      conf2.Network.Routes = conf.WireGuard.Peers.flatMap (fun p => p.AllowedIPs) ∧
      conf2.Network.MTU = conf.Network.MTU ∧ conf2.Network.Table = conf.Network.Table ∧
      conf2.Network.Device = conf.Network.Device ∧ conf2.Interface = conf.Interface ∧
      conf2.WireGuard = conf.WireGuard := by
  obtain ⟨st, hw, herr, hf⟩ := extract_accepted env rt err0 name doc conf h
  obtain ⟨st2, hw2, hflag, hst⟩ := walkSections_tableOff env rt doc _ st rfl hw
  obtain ⟨_, _, hroutes, _⟩ := walkSections_frame env rt (dropTableOff doc) _ st2 hw2
  have hr0 : st2.conf.Network.Routes = [] := hroutes
  simp only [finish, Option.some.injEq] at hf
  subst hst
  subst hf
  have herr2 : st2.err = none := herr
  refine ⟨?_, ?_⟩
  · cases htab : tableOff doc <;> simp [setFlag, htab, hr0]
  · refine ⟨(finish st2).1.getD (initialConf name), ?_, ?_⟩
    · simp only [extract, hw2, finish, herr2, Option.getD_some]
    · simp [finish, setFlag, hflag, hr0]

end wgquick

namespace wgquick

theorem interfacePairs_append (env : Env) (rt : List (String × Nat)) (p1 p2 : List ini.Pair)
    (st : State) :
    interfacePairs env rt (p1 ++ p2) st =
      match interfacePairs env rt p1 st with
      | Except.error r => Except.error r
      | Except.ok st1 => interfacePairs env rt p2 st1 := by
  induction p1 generalizing st with
  | nil => rfl
  | cons p rest ih =>
    simp only [List.cons_append, interfacePairs]
    cases interfacePair env rt p st with
    | error r => rfl
    | ok st1 => exact ih st1

theorem peerPairs_append (env : Env) (p1 p2 : List ini.Pair) (ps : PeerConfig × State) :
    peerPairs env (p1 ++ p2) ps =
      match peerPairs env p1 ps with
      | Except.error r => Except.error r
      | Except.ok ps1 => peerPairs env p2 ps1 := by
  induction p1 generalizing ps with
  | nil => rfl
  | cons p rest ih =>
    simp only [List.cons_append, peerPairs]
    cases peerPair env p ps with
    | error r => rfl
    | ok ps1 => exact ih ps1

theorem walkSections_append (env : Env) (rt : List (String × Nat)) (d1 d2 : List ini.Section)
    (st : State) :
    walkSections env rt (d1 ++ d2) st =
      match walkSections env rt d1 st with
      | Except.error r => Except.error r
      | Except.ok st1 => walkSections env rt d2 st1 := by
  induction d1 generalizing st with
  | nil => rfl
  | cons s rest ih =>
    simp only [List.cons_append, walkSections]
    cases walkSection env rt s st with
    | error r => rfl
    | ok st1 => exact ih st1

/-- The walk over a document up to a pair of one of its `Interface` sections: when the
sections before and the pairs before are accepted, the walk goes on from that pair. -/
theorem walkSections_at_interfacePair (env : Env) (rt : List (String × Nat))
    (pre post : List ini.Section) (p1 p2 : List ini.Pair) (pair : ini.Pair)
    (st0 st1 st2 : State)
    (hpre : walkSections env rt pre st0 = Except.ok st1)
    (hp1 : interfacePairs env rt p1 st1 = Except.ok st2) :
    walkSections env rt (pre ++ { Name := "Interface", Pairs := p1 ++ pair :: p2 } :: post) st0 =
      match interfacePair env rt pair st2 with
      | Except.error r => Except.error r
      | Except.ok st3 =>
        match interfacePairs env rt p2 st3 with
        | Except.error r => Except.error r
        | Except.ok st4 => walkSections env rt post st4 := by
  rw [walkSections_append, hpre]
  simp only [walkSections, walkSection, if_true]
  rw [interfacePairs_append, hp1]
  simp only [interfacePairs]
  cases interfacePair env rt pair st2 with
  | error r => rfl
  | ok st3 => rfl

/-- What the pair `Table = v` does. -/
theorem interfacePair_table (env : Env) (rt : List (String × Nat)) (v : String) (st : State) :
    interfacePair env rt { Key := "Table", Value := v } st =
      if v = "off" then Except.ok (setFlag false st)
      else if v = "auto" then
        Except.ok { st with conf := { st.conf with Network := { st.conf.Network with Table := none } } }
      else
        match env.ParseUint32 v with
        | Except.ok n =>
          if n > 2 ^ 32 - 1 then
            Except.error (some st.conf, some (Error.mk ("invalid table number " ++ toString n)))
          else
            Except.ok { st with
              conf := { st.conf with
                Network := { st.conf.Network with Table := some (n % 2 ^ 32) } } }
        | Except.error _ =>
          match GoMap.get? rt v with
          | none => Except.error (some st.conf, some (Error.mk ("unknown table " ++ v)))
          | some id =>
            Except.ok { st with
              conf := { st.conf with Network := { st.conf.Network with Table := some id } } } := by
  delta interfacePair
  have h1 : ¬ ("Table" = "Address") := by decide
  have h2 : ¬ ("Table" = "MTU") := by decide
  have h3 : ¬ ("Table" = "PrivateKey") := by decide
  have h4 : ¬ ("Table" = "ListenPort") := by decide
  simp only [h1, h2, h3, h4, if_false, if_true]
  rfl

end wgquick

namespace wgquick

/-- When the walk over a document ends, it went through every pair of every `Interface`
section. -/
theorem walkSections_through_interfacePair (env : Env) (rt : List (String × Nat))
    (pre post : List ini.Section) (p1 p2 : List ini.Pair) (pair : ini.Pair) (st0 st : State)
    (h : walkSections env rt
      (pre ++ { Name := "Interface", Pairs := p1 ++ pair :: p2 } :: post) st0 = Except.ok st) :
    ∃ st1 st2 st3 st4, walkSections env rt pre st0 = Except.ok st1 ∧
      interfacePairs env rt p1 st1 = Except.ok st2 ∧
      interfacePair env rt pair st2 = Except.ok st3 ∧
      interfacePairs env rt p2 st3 = Except.ok st4 ∧
      walkSections env rt post st4 = Except.ok st := by
  rw [walkSections_append] at h
  cases h1 : walkSections env rt pre st0 with
  | error r => rw [h1] at h; cases h
  | ok st1 =>
    rw [h1] at h
    simp only [walkSections, walkSection, if_true] at h
    rw [interfacePairs_append] at h
    cases h2 : interfacePairs env rt p1 st1 with
    | error r => rw [h2] at h; cases h
    | ok st2 =>
      rw [h2] at h
      simp only [interfacePairs] at h
      cases h3 : interfacePair env rt pair st2 with
      | error r => rw [h3] at h; cases h
      | ok st3 =>
        rw [h3] at h
        simp only at h
        cases h4 : interfacePairs env rt p2 st3 with
        | error r => rw [h4] at h; cases h
        | ok st4 =>
          rw [h4] at h
          exact ⟨st1, st2, st3, st4, rfl, h2, h3, h4, h⟩

end wgquick

namespace wgquick

/-- Counterexample to C13: the only `Table` key has the value `custom`, which is neither
`off` nor `auto` nor a number nor a name of the (empty) mapping, yet extraction does not
fail with an unknown-table error: the pair `MTU = abc` before it is rejected first. -/
theorem extract_table_error_preempted :
    ("custom" ≠ "off" ∧ "custom" ≠ "auto" ∧
      Example.env.ParseUint32 "custom" = Except.error (Error.mk "invalid syntax") ∧
      GoMap.get? ([] : List (String × Nat)) "custom" = none) ∧
    extract Example.env [] none "wg0"
        [Example.sec "Interface" [("MTU", "abc"), ("Table", "custom")]] =
      (some (initialConf "wg0"), some (Error.mk "failed to parse MTU abc: invalid syntax")) ∧
    Error.mk "failed to parse MTU abc: invalid syntax" ≠ Error.mk "unknown table custom" := by
  refine ⟨⟨by decide, by decide, rfl, rfl⟩, by decide, by decide⟩

/-- C13 as amended: for every table mapping and every document whose `Interface` sections
hold exactly one `Table` key, with value `v`.  When the document is accepted, the table ID
of the network model is absent if `v` is `off` or `auto`, is `n` if `v` is the unsigned
32-bit integer `n`, whatever the mapping holds, and else is the ID the mapping gives the
name `v`.  When `v` is none of these, extraction fails, and the error is the unknown-table
error when the sections and the pairs before the `Table` key are accepted. -/
theorem extract_table_key (env : Env) (rt : List (String × Nat)) (err0 : Option Error)
    (name : String) (pre post : List ini.Section) (p1 p2 : List ini.Pair) (v : String)
    (hpre : noTableKey pre = true) (hp1 : p1.all (fun p => !isTableKey p) = true)
    (hp2 : p2.all (fun p => !isTableKey p) = true) (hpost : noTableKey post = true) :
    (∀ conf, extract env rt err0 name
        (pre ++ { Name := "Interface", Pairs := p1 ++ { Key := "Table", Value := v } :: p2 }
          :: post) = (some conf, none) →
      conf.Network.Table = tableOfValue env rt v) ∧
    (v ≠ "off" → v ≠ "auto" → (∃ e, env.ParseUint32 v = Except.error e) →
      GoMap.get? rt v = none →
      (extract env rt err0 name
        (pre ++ { Name := "Interface", Pairs := p1 ++ { Key := "Table", Value := v } :: p2 }
          :: post)).2.isSome = true ∧
      ∀ st1 st2, walkSections env rt pre ⟨initialConf name, true, err0⟩ = Except.ok st1 →
        interfacePairs env rt p1 st1 = Except.ok st2 →
        extract env rt err0 name
          (pre ++ { Name := "Interface", Pairs := p1 ++ { Key := "Table", Value := v } :: p2 }
            :: post) = (some st2.conf, some (Error.mk ("unknown table " ++ v)))) := by
  constructor
  · intro conf h
    obtain ⟨st, hw, _, hf⟩ := extract_accepted env rt err0 name _ conf h
    obtain ⟨st1, st2, st3, st4, w1, w2, w3, w4, w5⟩ :=
      walkSections_through_interfacePair env rt pre post p1 p2 _ _ st hw
    obtain ⟨_, _, _, f1, _⟩ := walkSections_frame env rt pre _ st1 w1
    obtain ⟨_, _, _, _, f2⟩ := interfacePairs_frame env rt p1 st1 st2 w2
    obtain ⟨_, _, _, _, f4⟩ := interfacePairs_frame env rt p2 st3 st4 w4
    obtain ⟨_, _, _, f5, _⟩ := walkSections_frame env rt post st4 st w5
    have t2 : st2.conf.Network.Table = none := (f2 hp1).trans (f1 hpre)
    have t : conf.Network.Table = st3.conf.Network.Table := by
      simp only [finish, Option.some.injEq] at hf
      rw [← hf]
      exact (f5 hpost).trans (f4 hp2)
    rw [t]
    rw [interfacePair_table] at w3
    unfold tableOfValue
    by_cases hv1 : v = "off"
    · simp only [hv1, if_true] at w3
      cases w3
      simp [setFlag, t2, hv1]
    simp only [hv1, if_false] at w3
    by_cases hv2 : v = "auto"
    · simp only [hv2, if_true] at w3
      cases w3
      simp [hv2]
    simp only [hv2, if_false] at w3
    simp only [hv1, hv2, or_self, if_false]
    cases hu : env.ParseUint32 v with
    | ok n =>
      rw [hu] at w3
      simp only at w3
      split at w3
      · cases w3
      · rename_i hn
        cases w3
        have hlt : n < 2 ^ 32 := by omega
        show some (n % 2 ^ 32) = some n
        rw [Nat.mod_eq_of_lt hlt]
    | error e =>
      rw [hu] at w3
      simp only at w3
      cases hg : GoMap.get? rt v with
      | none => rw [hg] at w3; cases w3
      | some id => rw [hg] at w3; cases w3; rfl
  · intro hv1 hv2 hu hg
    obtain ⟨e, hu⟩ := hu
    have hpair : ∀ st : State, interfacePair env rt { Key := "Table", Value := v } st =
        Except.error (some st.conf, some (Error.mk ("unknown table " ++ v))) := by
      intro st
      rw [interfacePair_table]
      simp only [hv1, hv2, if_false, hu, hg]
    constructor
    · unfold extract
      cases hw : walkSections env rt
          (pre ++ { Name := "Interface", Pairs := p1 ++ { Key := "Table", Value := v } :: p2 }
            :: post) ⟨initialConf name, true, err0⟩ with
      | error r => exact walkSections_error env rt _ _ r hw
      | ok st =>
        obtain ⟨st1, st2, st3, st4, _, _, w3, _, _⟩ :=
          walkSections_through_interfacePair env rt pre post p1 p2 _ _ st hw
        rw [hpair] at w3
        cases w3
    · intro st1 st2 w1 w2
      unfold extract
      rw [walkSections_at_interfacePair env rt pre post p1 p2 _ _ st1 st2 w1 w2, hpair]

end wgquick

namespace wgquick

/-- Witness of C12: the document `docOff` holds `Table = off`, is accepted, and gets no
route although its peer has two allowed IPs. -/
theorem extract_routes_and_table_off_witness :
    extract Example.env2 [] none "wg0" Example.docOff = (some Example.confOff, none) ∧
    Example.confOff.Network.Routes =
      (if tableOff Example.docOff = true then []
        else Example.confOff.WireGuard.Peers.flatMap (fun p => p.AllowedIPs)) :=
  ⟨by decide,
    (extract_routes_and_table_off Example.env2 [] none "wg0" Example.docOff Example.confOff
      (by decide)).1⟩

/-- Witness of C13 as amended: `Table = 51820` selects table 51820, and `Table = custom`
with no entry `custom` in the mapping is the unknown-table error. -/
theorem extract_table_key_witness :
    (noTableKey [] = true ∧ ([] : List ini.Pair).all (fun p => !isTableKey p) = true) ∧
    (initialConf "wg0").Network.Table = none ∧
    ({ initialConf "wg0" with Network := { Device := "wg0", Table := some 51820 } } :
      wgconf.Config).Network.Table = tableOfValue Example.env [] "51820" ∧
    extract Example.env [] none "wg0"
        ([] ++ { Name := "Interface", Pairs := [] ++ { Key := "Table", Value := "custom" } :: [] }
          :: []) =
      (some (initialConf "wg0"), some (Error.mk "unknown table custom")) :=
  ⟨⟨rfl, rfl⟩, rfl,
    (extract_table_key Example.env [] none "wg0" [] [] [] [] "51820" rfl rfl rfl rfl).1
      { initialConf "wg0" with Network := { Device := "wg0", Table := some 51820 } }
      (by decide),
    ((extract_table_key Example.env [] none "wg0" [] [] [] [] "custom" rfl rfl rfl rfl).2
      (by decide) (by decide) ⟨_, rfl⟩ rfl).2 _ _ rfl rfl⟩

end wgquick

/-! ## The extractor: numeric values -/

namespace wgquick

theorem interfacePair_mtu (env : Env) (rt : List (String × Nat)) (v : String) (st : State) :
    interfacePair env rt { Key := "MTU", Value := v } st =
      match env.Atoi v with
      | Except.error e =>
        Except.error (some st.conf,
          some (Error.mk ("failed to parse MTU " ++ v ++ ": " ++ e.message)))
      | Except.ok mtu =>
        if mtu < 0 ∨ mtu > 65535 then
          Except.error (some st.conf, some (Error.mk ("invalid MTU " ++ toString mtu)))
        else
          Except.ok { st with
            conf := { st.conf with Network := { st.conf.Network with MTU := some (uint32 mtu) } }
            err := none } := by
  delta interfacePair
  have h1 : ¬ ("MTU" = "Address") := by decide
  simp only [h1, if_false, if_true]

theorem interfacePair_listenPort (env : Env) (rt : List (String × Nat)) (v : String)
    (st : State) :
    interfacePair env rt { Key := "ListenPort", Value := v } st =
      match env.Atoi v with
      | Except.error e =>
        Except.error (some st.conf, some (Error.mk
          ("failed to parse listen port in \"ListenPort = " ++ v ++ "\": " ++ e.message)))
      | Except.ok port =>
        if port < 0 ∨ port > 65535 then
          Except.error (some st.conf, some (Error.mk ("invalid listen port " ++ toString port)))
        else
          Except.ok { st with
            conf := { st.conf with
              WireGuard := { st.conf.WireGuard with ListenPort := some port } }
            err := none } := by
  delta interfacePair
  have h1 : ¬ ("ListenPort" = "Address") := by decide
  have h2 : ¬ ("ListenPort" = "MTU") := by decide
  have h3 : ¬ ("ListenPort" = "PrivateKey") := by decide
  simp only [h1, h2, h3, if_false, if_true]

theorem peerPair_keepalive (env : Env) (v : String) (peer : PeerConfig) (st : State) :
    peerPair env { Key := "PersistentKeepalive", Value := v } (peer, st) =
      match env.Atoi v with
      | Except.error e =>
        Except.error (some st.conf, some (Error.mk
          ("failed to parse persistent keepalive in \"PersistentKeepalive = " ++ v
            ++ "\": " ++ e.message)))
      | Except.ok keepalive =>
        if keepalive < 0 ∨ keepalive > 65535 then
          Except.error (some st.conf,
            some (Error.mk ("invalid persistent keepalive " ++ toString keepalive)))
        else
          Except.ok ({ peer with PersistentKeepaliveInterval := some (keepalive * 1000000000) },
            { st with err := none }) := by
  delta peerPair
  have h1 : ¬ ("PersistentKeepalive" = "PublicKey") := by decide
  have h2 : ¬ ("PersistentKeepalive" = "PresharedKey") := by decide
  have h3 : ¬ ("PersistentKeepalive" = "AllowedIPs") := by decide
  have h4 : ¬ ("PersistentKeepalive" = "Endpoint") := by decide
  simp only [h1, h2, h3, h4, if_false, if_true]

theorem uint32_toNat (n : Int) (h0 : 0 ≤ n) (h1 : n ≤ 65535) : uint32 n = n.toNat := by
  unfold uint32
  rw [Int.emod_eq_of_lt h0 (by omega)]

/-- When the walk over a document ends, it went through every pair of every `Peer`
section. -/
theorem walkSections_through_peerPair (env : Env) (rt : List (String × Nat))
    (pre post : List ini.Section) (secName : String) (p1 p2 : List ini.Pair) (pair : ini.Pair)
    (st0 st : State) (hn2 : secName = "Peer")
    (h : walkSections env rt
      (pre ++ { Name := secName, Pairs := p1 ++ pair :: p2 } :: post) st0 = Except.ok st) :
    ∃ st1 ps2 ps3, walkSections env rt pre st0 = Except.ok st1 ∧
      peerPairs env p1 ({ ReplaceAllowedIPs := true }, st1) = Except.ok ps2 ∧
      peerPair env pair ps2 = Except.ok ps3 := by
  rw [walkSections_append] at h
  cases h1 : walkSections env rt pre st0 with
  | error r => rw [h1] at h; cases h
  | ok st1 =>
    rw [h1] at h
    subst hn2
    have hn1 : ¬ ("Peer" = "Interface") := by decide
    simp only [walkSections, walkSection, hn1, if_false, if_true] at h
    rw [peerPairs_append] at h
    cases h2 : peerPairs env p1 ({ ReplaceAllowedIPs := true }, st1) with
    | error r => rw [h2] at h; cases h
    | ok ps2 =>
      rw [h2] at h
      simp only [peerPairs] at h
      cases h3 : peerPair env pair ps2 with
      | error r => rw [h3] at h; cases h
      | ok ps3 => exact ⟨st1, ps2, ps3, rfl, h2, h3⟩

theorem walkSections_ok_interfacePair (env : Env) (rt : List (String × Nat))
    (doc : List ini.Section) (st0 st : State) (sec : ini.Section) (pair : ini.Pair)
    (h : walkSections env rt doc st0 = Except.ok st) (hsec : sec ∈ doc)
    (hname : sec.Name = "Interface") (hp : pair ∈ sec.Pairs) :
    ∃ s s2, interfacePair env rt pair s = Except.ok s2 := by
  obtain ⟨pre, post, rfl⟩ := List.append_of_mem hsec
  obtain ⟨p1, p2, hp12⟩ := List.append_of_mem hp
  have hs : sec = { Name := "Interface", Pairs := p1 ++ pair :: p2 } := by
    cases sec
    simp only at hname hp12
    rw [hname, hp12]
  rw [hs] at h
  obtain ⟨_, st2, st3, _, _, _, w3, _, _⟩ :=
    walkSections_through_interfacePair env rt pre post p1 p2 pair st0 st h
  exact ⟨st2, st3, w3⟩

theorem walkSections_ok_peerPair (env : Env) (rt : List (String × Nat))
    (doc : List ini.Section) (st0 st : State) (sec : ini.Section) (pair : ini.Pair)
    (h : walkSections env rt doc st0 = Except.ok st) (hsec : sec ∈ doc)
    (hname : sec.Name = "Peer") (hp : pair ∈ sec.Pairs) :
    ∃ ps ps2, peerPair env pair ps = Except.ok ps2 := by
  obtain ⟨pre, post, rfl⟩ := List.append_of_mem hsec
  obtain ⟨p1, p2, hp12⟩ := List.append_of_mem hp
  have hs : sec = { Name := "Peer", Pairs := p1 ++ pair :: p2 } := by
    cases sec
    simp only at hname hp12
    rw [hname, hp12]
  rw [hs] at h
  obtain ⟨_, ps2, ps3, _, _, w3⟩ :=
    walkSections_through_peerPair env rt pre post "Peer" p1 p2 pair st0 st rfl h
  exact ⟨ps2, ps3, w3⟩

/-- A document in which the walk cannot end makes extraction fail. -/
theorem extract_fails_of_walk (env : Env) (rt : List (String × Nat)) (err0 : Option Error)
    (name : String) (doc : List ini.Section)
    (h : ∀ st, walkSections env rt doc ⟨initialConf name, true, err0⟩ ≠ Except.ok st) :
    (extract env rt err0 name doc).2.isSome = true := by
  unfold extract
  cases hw : walkSections env rt doc ⟨initialConf name, true, err0⟩ with
  | error r => exact walkSections_error env rt doc _ r hw
  | ok st => exact absurd hw (h st)

/-- C14: the values of the keys `MTU`, `ListenPort` and `PersistentKeepalive`.  The pair
is accepted if and only if the value is an integer `n` (for the conversion `strconv.Atoi`)
with `0 ≤ n ≤ 65535`; the MTU stored is then `n`, the listen port `n` and the keepalive `n`
seconds (a duration in nanoseconds), and nothing else changes but the named result `err`,
which is cleared.  A document that holds a rejected value under one of these keys, in an
`Interface` section for the first two and in a `Peer` section for the third, makes
extraction fail. -/
theorem numeric_keys_accepted (env : Env) (rt : List (String × Nat)) (v : String)
    (st : State) (peer : PeerConfig) :
    ((∃ st2, interfacePair env rt { Key := "MTU", Value := v } st = Except.ok st2) ↔
      ∃ n : Int, env.Atoi v = Except.ok n ∧ 0 ≤ n ∧ n ≤ 65535) ∧
    (∀ n : Int, env.Atoi v = Except.ok n → 0 ≤ n → n ≤ 65535 →
      interfacePair env rt { Key := "MTU", Value := v } st =
        Except.ok { st with
          conf := { st.conf with Network := { st.conf.Network with MTU := some n.toNat } }
          err := none }) ∧
    ((∃ st2, interfacePair env rt { Key := "ListenPort", Value := v } st = Except.ok st2) ↔
      ∃ n : Int, env.Atoi v = Except.ok n ∧ 0 ≤ n ∧ n ≤ 65535) ∧
    (∀ n : Int, env.Atoi v = Except.ok n → 0 ≤ n → n ≤ 65535 →
      interfacePair env rt { Key := "ListenPort", Value := v } st =
        Except.ok { st with
          conf := { st.conf with WireGuard := { st.conf.WireGuard with ListenPort := some n } }
          err := none }) ∧
    ((∃ ps2, peerPair env { Key := "PersistentKeepalive", Value := v } (peer, st) =
        Except.ok ps2) ↔
      ∃ n : Int, env.Atoi v = Except.ok n ∧ 0 ≤ n ∧ n ≤ 65535) ∧
    (∀ n : Int, env.Atoi v = Except.ok n → 0 ≤ n → n ≤ 65535 →
      peerPair env { Key := "PersistentKeepalive", Value := v } (peer, st) =
        Except.ok ({ peer with PersistentKeepaliveInterval := some (n * 1000000000) },
          { st with err := none })) ∧
    (∀ (err0 : Option Error) (name : String) (doc : List ini.Section) (sec : ini.Section),
      (¬ ∃ n : Int, env.Atoi v = Except.ok n ∧ 0 ≤ n ∧ n ≤ 65535) → sec ∈ doc →
      ((sec.Name = "Interface" ∧
          ({ Key := "MTU", Value := v } ∈ sec.Pairs ∨
            { Key := "ListenPort", Value := v } ∈ sec.Pairs)) ∨
        (sec.Name = "Peer" ∧ { Key := "PersistentKeepalive", Value := v } ∈ sec.Pairs)) →
      (extract env rt err0 name doc).2.isSome = true) := by
  have hmtu : ∀ s : State,
      (∃ st2, interfacePair env rt { Key := "MTU", Value := v } s = Except.ok st2) ↔
      ∃ n : Int, env.Atoi v = Except.ok n ∧ 0 ≤ n ∧ n ≤ 65535 := by
    intro s
    rw [interfacePair_mtu]
    cases hA : env.Atoi v with
    | error e => simp
    | ok n =>
      by_cases hn : n < 0 ∨ n > 65535
      · simp only [hn, if_true]
        constructor
        · rintro ⟨_, h⟩
          cases h
        · rintro ⟨m, hm, h0, h1⟩
          cases hm
          omega
      · simp only [hn, if_false]
        exact ⟨fun _ => ⟨n, rfl, by omega, by omega⟩, fun _ => ⟨_, rfl⟩⟩
  have hport : ∀ s : State,
      (∃ st2, interfacePair env rt { Key := "ListenPort", Value := v } s = Except.ok st2) ↔
      ∃ n : Int, env.Atoi v = Except.ok n ∧ 0 ≤ n ∧ n ≤ 65535 := by
    intro s
    rw [interfacePair_listenPort]
    cases hA : env.Atoi v with
    | error e => simp
    | ok n =>
      by_cases hn : n < 0 ∨ n > 65535
      · simp only [hn, if_true]
        constructor
        · rintro ⟨_, h⟩
          cases h
        · rintro ⟨m, hm, h0, h1⟩
          cases hm
          omega
      · simp only [hn, if_false]
        exact ⟨fun _ => ⟨n, rfl, by omega, by omega⟩, fun _ => ⟨_, rfl⟩⟩
  have hkeep : ∀ ps : PeerConfig × State,
      (∃ ps2, peerPair env { Key := "PersistentKeepalive", Value := v } ps = Except.ok ps2) ↔
      ∃ n : Int, env.Atoi v = Except.ok n ∧ 0 ≤ n ∧ n ≤ 65535 := by
    rintro ⟨pr, s⟩
    rw [peerPair_keepalive]
    cases hA : env.Atoi v with
    | error e => simp
    | ok n =>
      by_cases hn : n < 0 ∨ n > 65535
      · simp only [hn, if_true]
        constructor
        · rintro ⟨_, h⟩
          cases h
        · rintro ⟨m, hm, h0, h1⟩
          cases hm
          omega
      · simp only [hn, if_false]
        exact ⟨fun _ => ⟨n, rfl, by omega, by omega⟩, fun _ => ⟨_, rfl⟩⟩
  refine ⟨hmtu st, ?_, hport st, ?_, hkeep (peer, st), ?_, ?_⟩
  · intro n hA h0 h1
    have hn : ¬ (n < 0 ∨ n > 65535) := by omega
    rw [interfacePair_mtu, hA]
    simp only [hn, if_false, uint32_toNat n h0 h1]
  · intro n hA h0 h1
    have hn : ¬ (n < 0 ∨ n > 65535) := by omega
    rw [interfacePair_listenPort, hA]
    simp only [hn, if_false]
  · intro n hA h0 h1
    have hn : ¬ (n < 0 ∨ n > 65535) := by omega
    rw [peerPair_keepalive, hA]
    simp only [hn, if_false]
  · intro err0 name doc sec hbad hsec hcase
    apply extract_fails_of_walk
    intro stf hw
    rcases hcase with ⟨hname, hp | hp⟩ | ⟨hname, hp⟩
    · obtain ⟨s, s2, hs⟩ := walkSections_ok_interfacePair env rt doc _ stf sec _ hw hsec hname hp
      exact hbad ((hmtu s).1 ⟨s2, hs⟩)
    · obtain ⟨s, s2, hs⟩ := walkSections_ok_interfacePair env rt doc _ stf sec _ hw hsec hname hp
      exact hbad ((hport s).1 ⟨s2, hs⟩)
    · obtain ⟨ps, ps2, hs⟩ := walkSections_ok_peerPair env rt doc _ stf sec _ hw hsec hname hp
      exact hbad ((hkeep ps).1 ⟨ps2, hs⟩)

/-- Witness of C14: `MTU = 1420` stores the MTU 1420, `PersistentKeepalive = 25` stores 25
seconds, and a document with `ListenPort = 70000` makes extraction fail. -/
theorem numeric_keys_accepted_witness :
    interfacePair Example.env [] { Key := "MTU", Value := "1420" }
        ⟨initialConf "wg0", true, none⟩ =
      Except.ok ⟨{ initialConf "wg0" with
        Network := { (initialConf "wg0").Network with MTU := some 1420 } }, true, none⟩ ∧
    peerPair Example.env { Key := "PersistentKeepalive", Value := "25" }
        ({ ReplaceAllowedIPs := true }, ⟨initialConf "wg0", true, none⟩) =
      Except.ok ({ ReplaceAllowedIPs := true, PersistentKeepaliveInterval := some 25000000000 },
        ⟨initialConf "wg0", true, none⟩) ∧
    (extract Example.env [] none "wg0"
      [Example.sec "Interface" [("ListenPort", "70000")]]).2.isSome = true :=
  ⟨(numeric_keys_accepted Example.env [] "1420" ⟨initialConf "wg0", true, none⟩
      { ReplaceAllowedIPs := true }).2.1 1420 rfl (by decide) (by decide),
    (numeric_keys_accepted Example.env [] "25" ⟨initialConf "wg0", true, none⟩
      { ReplaceAllowedIPs := true }).2.2.2.2.2.1 25 rfl (by decide) (by decide),
    (numeric_keys_accepted Example.env [] "70000" ⟨initialConf "wg0", true, none⟩
      { ReplaceAllowedIPs := true }).2.2.2.2.2.2 none "wg0"
      [Example.sec "Interface" [("ListenPort", "70000")]]
      (Example.sec "Interface" [("ListenPort", "70000")])
      (by
        rintro ⟨n, h, _, h1⟩
        have h2 : Example.env.Atoi "70000" = Except.ok 70000 := rfl
        rw [h2] at h
        cases h
        exact absurd h1 (by decide))
      (List.mem_singleton.2 rfl)
      (Or.inl ⟨rfl, Or.inr (List.mem_singleton.2 rfl)⟩)⟩

end wgquick

/-! ## The extractor: unknown and ignored keys -/

namespace wgquick

theorem interfacePair_unknown (env : Env) (rt : List (String × Nat)) (pair : ini.Pair)
    (st : State) (hk : pair.Key ∉ interfaceKeys) :
    interfacePair env rt pair st =
      Except.error (none, some (Error.mk ("unknown key-value pair in [Interface] section: "
        ++ pair.Key ++ " = " ++ pair.Value))) := by
  cases h : interfacePair env rt pair st with
  | ok st2 => exact absurd (interfacePair_ok_key env rt pair st st2 h) hk
  | error r =>
    rcases interfacePair_error env rt pair st r h with ⟨_, h2⟩ | ⟨h2, _⟩
    · rw [h2]
    · exact absurd h2 hk

theorem peerPair_unknown (env : Env) (pair : ini.Pair) (ps : PeerConfig × State)
    (hk : pair.Key ∉ peerKeys) :
    peerPair env pair ps =
      Except.error (none, some (Error.mk ("unknown key-value pair in [Peer] section: "
        ++ pair.Key ++ " = " ++ pair.Value))) := by
  cases h : peerPair env pair ps with
  | ok ps2 => exact absurd (peerPair_ok_key env pair ps ps2 h) hk
  | error r =>
    rcases peerPair_error env pair ps r h with ⟨_, h2⟩ | ⟨h2, _⟩
    · rw [h2]
    · exact absurd h2 hk

/-- The walk over a document up to a pair of one of its `Peer` sections: when the sections
before and the pairs before are accepted, a pair that is rejected makes `parse` return. -/
theorem walkSections_at_peerPair (env : Env) (rt : List (String × Nat))
    (pre post : List ini.Section) (p1 p2 : List ini.Pair) (pair : ini.Pair)
    (st0 st1 : State) (ps2 : PeerConfig × State) (r : Option wgconf.Config × Option Error)
    (hpre : walkSections env rt pre st0 = Except.ok st1)
    (hp1 : peerPairs env p1 ({ ReplaceAllowedIPs := true }, st1) = Except.ok ps2)
    (hpair : peerPair env pair ps2 = Except.error r) :
    walkSections env rt (pre ++ { Name := "Peer", Pairs := p1 ++ pair :: p2 } :: post) st0 =
      Except.error r := by
  have hn1 : ¬ ("Peer" = "Interface") := by decide
  rw [walkSections_append, hpre]
  simp only [walkSections, walkSection, hn1, if_false, if_true]
  rw [peerPairs_append, hp1]
  simp only [peerPairs, hpair]

theorem interfacePair_ignored (env : Env) (rt : List (String × Nat)) (pair : ini.Pair)
    (st : State) (hk : pair.Key ∈ ignoredKeys) : interfacePair env rt pair st = Except.ok st := by
  simp only [ignoredKeys, List.mem_cons, List.mem_singleton, List.not_mem_nil, or_false] at hk
  delta interfacePair
  rcases hk with h | h | h | h | h | h <;> simp [h]

theorem interfacePairs_dropIgnored (env : Env) (rt : List (String × Nat))
    (pairs : List ini.Pair) (st : State) :
    interfacePairs env rt (pairs.filter (fun p => decide (p.Key ∉ ignoredKeys))) st =
      interfacePairs env rt pairs st := by
  induction pairs generalizing st with
  | nil => rfl
  | cons p rest ih =>
    by_cases hk : p.Key ∈ ignoredKeys
    · simp only [List.filter_cons, hk, not_true_eq_false, decide_False, interfacePairs,
        interfacePair_ignored env rt p st hk]
      exact ih st
    · simp only [List.filter_cons, hk, not_false_eq_true, decide_True, if_true, interfacePairs]
      cases interfacePair env rt p st with
      | error r => rfl
      | ok st1 => exact ih st1

theorem walkSections_dropIgnored (env : Env) (rt : List (String × Nat))
    (doc : List ini.Section) (st : State) :
    walkSections env rt (dropIgnored doc) st = walkSections env rt doc st := by
  induction doc generalizing st with
  | nil => rfl
  | cons sec rest ih =>
    simp only [dropIgnored, List.map_cons, walkSections] at ih ⊢
    have hsec : walkSection env rt
        (if sec.Name = "Interface" then
          { sec with Pairs := sec.Pairs.filter (fun p => decide (p.Key ∉ ignoredKeys)) }
        else sec) st = walkSection env rt sec st := by
      by_cases h1 : sec.Name = "Interface"
      · simp only [h1, if_true, walkSection]
        exact interfacePairs_dropIgnored env rt sec.Pairs st
      · simp only [h1, if_false]
    rw [hsec]
    cases walkSection env rt sec st with
    | error r => rfl
    | ok st1 => exact ih st1

/-- Counterexample to C15: the `Interface` section holds the unknown key `Bogus`, yet
extraction returns a configuration (the one under construction) and an error that names
neither the key nor the section, because the pair `MTU = abc` before it is rejected
first. -/
theorem extract_unknown_key_preempted :
    "Bogus" ∉ interfaceKeys ∧
    extract Example.env [] none "wg0"
        [Example.sec "Interface" [("MTU", "abc"), ("Bogus", "1")]] =
      (some (initialConf "wg0"), some (Error.mk "failed to parse MTU abc: invalid syntax")) := by
  refine ⟨by decide, by decide⟩

/-- C15 as amended: a document in which an `Interface` section holds a key outside the
accepted ones, or a `Peer` section a key outside the accepted ones, makes extraction fail;
when the sections and the pairs before that pair are accepted, extraction returns no
configuration and the error `unknown key-value pair in [Interface] section: key = value`
(`[Peer]` for a `Peer` section); and the keys `parse` ignores leave the outcome of
extraction unchanged, whatever their values. -/
theorem extract_unknown_key (env : Env) (rt : List (String × Nat)) (err0 : Option Error)
    (name : String) (doc : List ini.Section) :
    (∀ sec pair, sec ∈ doc → pair ∈ sec.Pairs →
      ((sec.Name = "Interface" ∧ pair.Key ∉ interfaceKeys) ∨
        (sec.Name = "Peer" ∧ pair.Key ∉ peerKeys)) →
      (extract env rt err0 name doc).2.isSome = true) ∧
    (∀ pre post p1 p2 pair st1 st2,
      doc = pre ++ { Name := "Interface", Pairs := p1 ++ pair :: p2 } :: post →
      pair.Key ∉ interfaceKeys →
      walkSections env rt pre ⟨initialConf name, true, err0⟩ = Except.ok st1 →
      interfacePairs env rt p1 st1 = Except.ok st2 →
      extract env rt err0 name doc =
        (none, some (Error.mk ("unknown key-value pair in [Interface] section: "
          ++ pair.Key ++ " = " ++ pair.Value)))) ∧
    (∀ pre post p1 p2 pair st1 ps2,
      doc = pre ++ { Name := "Peer", Pairs := p1 ++ pair :: p2 } :: post →
      pair.Key ∉ peerKeys →
      walkSections env rt pre ⟨initialConf name, true, err0⟩ = Except.ok st1 →
      peerPairs env p1 ({ ReplaceAllowedIPs := true }, st1) = Except.ok ps2 →
      extract env rt err0 name doc =
        (none, some (Error.mk ("unknown key-value pair in [Peer] section: "
          ++ pair.Key ++ " = " ++ pair.Value)))) ∧
    (∀ (st : State) (pair : ini.Pair), pair.Key ∈ ignoredKeys →
      interfacePair env rt pair st = Except.ok st) ∧
    extract env rt err0 name (dropIgnored doc) = extract env rt err0 name doc := by
  refine ⟨?_, ?_, ?_, fun st pair hk => interfacePair_ignored env rt pair st hk, ?_⟩
  · intro sec pair hsec hp hcase
    apply extract_fails_of_walk
    intro stf hw
    rcases hcase with ⟨hname, hk⟩ | ⟨hname, hk⟩
    · obtain ⟨s, s2, hs⟩ :=
        walkSections_ok_interfacePair env rt doc _ stf sec pair hw hsec hname hp
      exact hk (interfacePair_ok_key env rt pair s s2 hs)
    · obtain ⟨ps, ps2, hs⟩ := walkSections_ok_peerPair env rt doc _ stf sec pair hw hsec hname hp
      exact hk (peerPair_ok_key env pair ps ps2 hs)
  · intro pre post p1 p2 pair st1 st2 hdoc hk w1 w2
    subst hdoc
    unfold extract
    rw [walkSections_at_interfacePair env rt pre post p1 p2 pair _ st1 st2 w1 w2,
      interfacePair_unknown env rt pair st2 hk]
  · intro pre post p1 p2 pair st1 ps2 hdoc hk w1 w2
    subst hdoc
    unfold extract
    rw [walkSections_at_peerPair env rt pre post p1 p2 pair _ st1 ps2 _ w1 w2
      (peerPair_unknown env pair ps2 hk)]
  · unfold extract
    rw [walkSections_dropIgnored]

/-- Witness of C15 as amended: the key `Bogus` after an accepted pair gives no configuration
and the error that names it and its section, in an `Interface` and in a `Peer` section. -/
theorem extract_unknown_key_witness :
    extract Example.env [] none "wg0"
        [Example.sec "Interface" [("ListenPort", "51820"), ("Bogus", "1")]] =
      (none, some (Error.mk "unknown key-value pair in [Interface] section: Bogus = 1")) ∧
    extract Example.env [] none "wg0"
        [Example.sec "Peer" [("PublicKey", "k1"), ("Bogus", "1")]] =
      (none, some (Error.mk "unknown key-value pair in [Peer] section: Bogus = 1")) :=
  ⟨(extract_unknown_key Example.env [] none "wg0"
      [Example.sec "Interface" [("ListenPort", "51820"), ("Bogus", "1")]]).2.1
      [] [] [{ Key := "ListenPort", Value := "51820" }] [] { Key := "Bogus", Value := "1" }
      _ _ rfl (by decide) rfl rfl,
    (extract_unknown_key Example.env [] none "wg0"
      [Example.sec "Peer" [("PublicKey", "k1"), ("Bogus", "1")]]).2.2.1
      [] [] [{ Key := "PublicKey", Value := "k1" }] [] { Key := "Bogus", Value := "1" }
      _ _ rfl (by decide) rfl rfl⟩

end wgquick

/-! ## The extractor: the peers of an accepted document -/

namespace wgquick

/-- The peers of an accepted document: one per `Peer` section, in order, each with the flag
`ReplaceAllowedIPs` set and the flag `Remove` clear, and with the key of its section. -/
theorem extract_peers (env : Env) (rt : List (String × Nat)) (err0 : Option Error)
    (name : String) (doc : List ini.Section) (conf : wgconf.Config)
    (h : extract env rt err0 name doc = (some conf, none)) :
    (∀ p ∈ conf.WireGuard.Peers, p.ReplaceAllowedIPs = true ∧ p.Remove = false) ∧
    conf.WireGuard.Peers.map (fun p => p.PublicKey) =
      (peerSections doc).map (sectionKey env) := by
  obtain ⟨st, hw, _, hfin⟩ := extract_accepted env rt err0 name doc conf h
  obtain ⟨_, _, _, _, added, b5, b6, b7⟩ := walkSections_frame env rt doc _ st hw
  simp only [finish, Option.some.injEq] at hfin
  have hc : conf.WireGuard.Peers = added := by
    rw [← hfin]
    simpa [initialConf] using b5
  rw [hc]
  exact ⟨b6, b7⟩

theorem peerPair_publicKey (env : Env) (v : String) (ps ps2 : PeerConfig × State)
    (h : peerPair env { Key := "PublicKey", Value := v } ps = Except.ok ps2) :
    ∃ k, env.ParseKey v = Except.ok k := by
  delta peerPair at h
  simp only [if_true] at h
  cases hk : env.ParseKey v with
  | error e =>
    rw [hk] at h
    cases h
  | ok k => exact ⟨k, rfl⟩

theorem sectionKey_fold_cases (env : Env) (pairs : List ini.Pair) (k0 : Key) :
    pairs.foldl
        (fun k p =>
          if p.Key = "PublicKey" then
            match env.ParseKey p.Value with
            | Except.ok pubkey => pubkey
            | Except.error _ => k
          else k) k0 = k0 ∨
    ∃ pair ∈ pairs, pair.Key = "PublicKey" ∧
      env.ParseKey pair.Value = Except.ok (pairs.foldl
        (fun k p =>
          if p.Key = "PublicKey" then
            match env.ParseKey p.Value with
            | Except.ok pubkey => pubkey
            | Except.error _ => k
          else k) k0) := by
  induction pairs generalizing k0 with
  | nil => exact Or.inl rfl
  | cons p rest ih =>
    rw [List.foldl_cons]
    rcases ih (if p.Key = "PublicKey" then
        match env.ParseKey p.Value with
        | Except.ok pubkey => pubkey
        | Except.error _ => k0
      else k0) with h | ⟨q, hq, h1, h2⟩
    · rw [h]
      by_cases hp : p.Key = "PublicKey"
      · simp only [hp, if_true]
        cases hk : env.ParseKey p.Value with
        | error e => exact Or.inl rfl
        | ok k => exact Or.inr ⟨p, List.mem_cons_self _ _, hp, hk⟩
      · simp only [hp, if_false]
        exact Or.inl trivial
    · exact Or.inr ⟨q, List.mem_cons_of_mem _ hq, h1, h2⟩

theorem sectionKey_fold_of_parsed (env : Env) (pairs : List ini.Pair) (k0 : Key)
    (h : ∃ pair ∈ pairs, pair.Key = "PublicKey" ∧ ∃ k, env.ParseKey pair.Value = Except.ok k) :
    ∃ pair ∈ pairs, pair.Key = "PublicKey" ∧
      env.ParseKey pair.Value = Except.ok (pairs.foldl
        (fun k p =>
          if p.Key = "PublicKey" then
            match env.ParseKey p.Value with
            | Except.ok pubkey => pubkey
            | Except.error _ => k
          else k) k0) := by
  induction pairs generalizing k0 with
  | nil =>
    obtain ⟨q, hq, _⟩ := h
    cases hq
  | cons p rest ih =>
    rw [List.foldl_cons]
    rcases sectionKey_fold_cases env rest (if p.Key = "PublicKey" then
        match env.ParseKey p.Value with
        | Except.ok pubkey => pubkey
        | Except.error _ => k0
      else k0) with h1 | ⟨q, hq, h1, h2⟩
    · obtain ⟨q, hq, hq1, k, hq2⟩ := h
      rcases List.mem_cons.1 hq with hq3 | hq3
      · subst hq3
        rw [h1]
        simp only [hq1, if_true, hq2]
        exact ⟨q, List.mem_cons_self _ _, hq1, hq2⟩
      · obtain ⟨q2, hq4, hq5, hq6⟩ := ih _ ⟨q, hq3, hq1, k, hq2⟩
        exact ⟨q2, List.mem_cons_of_mem _ hq4, hq5, hq6⟩
    · exact ⟨q, List.mem_cons_of_mem _ hq, h1, h2⟩

theorem sectionKey_of_no_pair (env : Env) (sec : ini.Section)
    (h : ∀ pair ∈ sec.Pairs, pair.Key ≠ "PublicKey") : sectionKey env sec = Key.zero := by
  have hfold : ∀ (pairs : List ini.Pair) (k0 : Key),
      (∀ pair ∈ pairs, pair.Key ≠ "PublicKey") →
      pairs.foldl
        (fun k p =>
          if p.Key = "PublicKey" then
            match env.ParseKey p.Value with
            | Except.ok pubkey => pubkey
            | Except.error _ => k
          else k) k0 = k0 := by
    intro pairs
    induction pairs with
    | nil => intro k0 _; rfl
    | cons p rest ih =>
      intro k0 hno
      rw [List.foldl_cons]
      have hp : ¬ (p.Key = "PublicKey") := hno p (List.mem_cons_self _ _)
      simp only [hp, if_false]
      exact ih k0 (fun q hq => hno q (List.mem_cons_of_mem _ hq))
  exact hfold sec.Pairs Key.zero h

theorem forall₂_of_map_eq {α β γ : Type} (f : α → γ) (g : β → γ) (P : β → Prop)
    (l1 : List α) (l2 : List β) (h : l1.map f = l2.map g) (hP : ∀ b ∈ l2, P b) :
    List.Forall₂ (fun a b => f a = g b ∧ P b) l1 l2 := by
  induction l1 generalizing l2 with
  | nil =>
    cases l2 with
    | nil => exact List.Forall₂.nil
    | cons b t => cases h
  | cons a t ih =>
    cases l2 with
    | nil => cases h
    | cons b t2 =>
      simp only [List.map_cons, List.cons.injEq] at h
      exact List.Forall₂.cons ⟨h.1, hP b (List.mem_cons_self _ _)⟩
        (ih t2 h.2 (fun c hc => hP c (List.mem_cons_of_mem _ hc)))

/-- Counterexample to C16: two `Peer` sections carry the same `PublicKey`, and extraction
returns a configuration without error whose two peers have the same public key. -/
theorem extract_accepts_duplicate_keys :
    extract Example.env [] none "wg0" Example.docDup = (some Example.confDup, none) ∧
    ¬ (Example.confDup.WireGuard.Peers.map (fun p => p.PublicKey)).Nodup := by
  refine ⟨by decide, by decide⟩

/-- C16 as amended: the public keys of the peers of an accepted document are, in order, the
keys of its `Peer` sections, one peer per section and repeated keys kept; so the peers have
pairwise distinct public keys exactly when the `Peer` sections have pairwise distinct
keys. -/
theorem extract_peer_keys (env : Env) (rt : List (String × Nat)) (err0 : Option Error)
    (name : String) (doc : List ini.Section) (conf : wgconf.Config)
    (h : extract env rt err0 name doc = (some conf, none)) :
    conf.WireGuard.Peers.map (fun p => p.PublicKey) =
      (peerSections doc).map (sectionKey env) ∧
    ((conf.WireGuard.Peers.map (fun p => p.PublicKey)).Nodup ↔
      ((peerSections doc).map (sectionKey env)).Nodup) := by
  have h1 := (extract_peers env rt err0 name doc conf h).2
  exact ⟨h1, by rw [h1]⟩

/-- Witness of C16 as amended: the keys of the peers of `confDup` are those of the two
`Peer` sections of `docDup`. -/
theorem extract_peer_keys_witness :
    Example.confDup.WireGuard.Peers.map (fun p => p.PublicKey) =
      (peerSections Example.docDup).map (sectionKey Example.env) ∧
    ((Example.confDup.WireGuard.Peers.map (fun p => p.PublicKey)).Nodup ↔
      ((peerSections Example.docDup).map (sectionKey Example.env)).Nodup) :=
  extract_peer_keys Example.env [] none "wg0" Example.docDup Example.confDup (by decide)

/-- Counterexample to C17: the `Peer` section has no `PublicKey` pair, and extraction
returns a configuration without error whose peer has the zero key. -/
theorem extract_accepts_missing_key :
    (∀ s ∈ Example.docNoKey, ∀ pair ∈ s.Pairs, pair.Key ≠ "PublicKey") ∧
    extract Example.env [] none "wg0" Example.docNoKey = (some Example.confNoKey, none) ∧
    Example.confNoKey.WireGuard.Peers.map (fun p => p.PublicKey) = [Key.zero] := by
  refine ⟨by decide, by decide, by decide⟩

/-- C17 as amended: the peers of an accepted document correspond one to one, in order, to
its `Peer` sections; the peer of a section without a `PublicKey` pair has the zero key, and
the peer of a section with such a pair has a key parsed from a `PublicKey` value of that
section. -/
theorem extract_peer_key_origin (env : Env) (rt : List (String × Nat)) (err0 : Option Error)
    (name : String) (doc : List ini.Section) (conf : wgconf.Config)
    (h : extract env rt err0 name doc = (some conf, none)) :
    List.Forall₂
      (fun (p : PeerConfig) (sec : ini.Section) =>
        sec ∈ doc ∧ sec.Name = "Peer" ∧
        ((∀ pair ∈ sec.Pairs, pair.Key ≠ "PublicKey") → p.PublicKey = Key.zero) ∧
        ((∃ pair ∈ sec.Pairs, pair.Key = "PublicKey") →
          ∃ pair ∈ sec.Pairs, pair.Key = "PublicKey" ∧
            env.ParseKey pair.Value = Except.ok p.PublicKey))
      conf.WireGuard.Peers (peerSections doc) := by
  obtain ⟨st, hw, _, _⟩ := extract_accepted env rt err0 name doc conf h
  have h1 := (extract_peers env rt err0 name doc conf h).2
  have h2 := forall₂_of_map_eq (fun p : PeerConfig => p.PublicKey) (sectionKey env)
    (fun sec => sec ∈ doc ∧ sec.Name = "Peer") conf.WireGuard.Peers (peerSections doc) h1
    (by
      intro sec hsec
      simpa [peerSections] using hsec)
  refine List.Forall₂.imp ?_ h2
  rintro p sec ⟨hk0, hsec, hname⟩
  have hk : p.PublicKey = sectionKey env sec := hk0
  refine ⟨hsec, hname, ?_, ?_⟩
  · intro hno
    rw [hk]
    exact sectionKey_of_no_pair env sec hno
  · rintro ⟨pair, hp, hkey⟩
    obtain ⟨ps, ps2, hs⟩ := walkSections_ok_peerPair env rt doc _ st sec pair hw hsec hname hp
    have hpair : pair = { Key := "PublicKey", Value := pair.Value } := by
      cases pair
      simp only at hkey
      rw [hkey]
    rw [hpair] at hs
    obtain ⟨k, hk2⟩ := peerPair_publicKey env pair.Value ps ps2 hs
    rw [hk]
    exact sectionKey_fold_of_parsed env sec.Pairs Key.zero ⟨pair, hp, hkey, k, hk2⟩

/-- Witness of C17 as amended: the peer of `confNoKey` and the `Peer` section of
`docNoKey`. -/
theorem extract_peer_key_origin_witness :
    List.Forall₂
      (fun (p : PeerConfig) (sec : ini.Section) =>
        sec ∈ Example.docNoKey ∧ sec.Name = "Peer" ∧
        ((∀ pair ∈ sec.Pairs, pair.Key ≠ "PublicKey") → p.PublicKey = Key.zero) ∧
        ((∃ pair ∈ sec.Pairs, pair.Key = "PublicKey") →
          ∃ pair ∈ sec.Pairs, pair.Key = "PublicKey" ∧
            Example.env.ParseKey pair.Value = Except.ok p.PublicKey))
      Example.confNoKey.WireGuard.Peers (peerSections Example.docNoKey) :=
  extract_peer_key_origin Example.env [] none "wg0" Example.docNoKey Example.confNoKey
    (by decide)

/-- C18: every peer of the configuration extracted from an accepted document has the flag
`ReplaceAllowedIPs` set and the flag `Remove` clear; hence, for every current device,
present or absent, and every visiting order, every entry of the delta of `CalcDiff` for the
extracted model that is not a removal has the flag `ReplaceAllowedIPs` set. -/
theorem extract_peers_replace_allowed_ips (env : Env) (rt : List (String × Nat))
    (err0 : Option Error) (name : String) (doc : List ini.Section) (conf : wgconf.Config)
    (h : extract env rt err0 name doc = (some conf, none)) :
    (∀ p ∈ conf.WireGuard.Peers, p.ReplaceAllowedIPs = true ∧ p.Remove = false) ∧
    ∀ (ρ : RangeOrder) (current : Option Device),
      ∀ q ∈ (wgdiff.CalcDiff ρ current conf.WireGuard).1.Peers,
        q.Remove = false → q.ReplaceAllowedIPs = true := by
  have h1 := (extract_peers env rt err0 name doc conf h).1
  refine ⟨h1, ?_⟩
  intro ρ current q hq hrem
  cases current with
  | none => exact (h1 q hq).1
  | some cur =>
    simp only [wgdiff.CalcDiff, List.mem_append, List.mem_map] at hq
    rcases hq with hq | ⟨e, _, he⟩
    · exact (h1 q hq).1
    · rw [← he] at hrem
      cases hrem

/-- Witness of C18: the peers of `confOff`, extracted from `docOff`. -/
theorem extract_peers_replace_allowed_ips_witness :
    (∀ p ∈ Example.confOff.WireGuard.Peers, p.ReplaceAllowedIPs = true ∧ p.Remove = false) ∧
    ∀ (ρ : RangeOrder) (current : Option Device),
      ∀ q ∈ (wgdiff.CalcDiff ρ current Example.confOff.WireGuard).1.Peers,
        q.Remove = false → q.ReplaceAllowedIPs = true :=
  extract_peers_replace_allowed_ips Example.env2 [] none "wg0" Example.docOff Example.confOff
    (by decide)

end wgquick

/-! ## The peer diff: scalar fields -/

namespace wgdiff

/-- C19: the private key, the listen port and the firewall mark of the delta are those of
the desired model, whatever the current device is or holds, present or absent; and with no
current device the delta is the desired model itself. -/
theorem CalcDiff_scalars_copied (ρ : RangeOrder) (current : Option Device)
    (desired : WgConfig) :
    (CalcDiff ρ current desired).1.PrivateKey = desired.PrivateKey ∧
    (CalcDiff ρ current desired).1.ListenPort = desired.ListenPort ∧
    (CalcDiff ρ current desired).1.FirewallMark = desired.FirewallMark ∧
    (CalcDiff ρ none desired).1 = desired := by
  cases current with
  | none => exact ⟨rfl, rfl, rfl, rfl⟩
  | some cur => exact ⟨rfl, rfl, rfl, rfl⟩

end wgdiff

/-! ## The table mapping file -/

namespace GoMap

variable {κ α : Type} [DecidableEq κ]

theorem get?_set (m : List (κ × α)) (k : κ) (v : α) (x : κ) :
    get? (set m k v) x = if k = x then some v else get? m x := by
  induction m with
  | nil => simp [set, get?]
  | cons hd t ih =>
    obtain ⟨k0, v0⟩ := hd
    simp only [set]
    by_cases h0 : k0 = k
    · subst h0
      by_cases h1 : k0 = x
      · simp only [if_true, get?, h1]
      · simp only [if_true, get?, h1, if_false]
    · simp only [h0, if_false, get?, ih]
      by_cases h1 : k0 = x
      · subst h1
        have h2 : ¬ (k = k0) := fun h => h0 h.symm
        simp only [if_true, h2, if_false]
      · simp only [h1, if_false]

theorem get?_foldl_set (es : List (κ × α)) (m : List (κ × α)) (x : κ) :
    get? (es.foldl (fun t e => set t e.1 e.2) m) x =
      match es.reverse.find? (fun e => decide (e.1 = x)) with
      | some e => some e.2
      | none => get? m x := by
  induction es generalizing m with
  | nil => rfl
  | cons e rest ih =>
    rw [List.foldl_cons, ih, List.reverse_cons, List.find?_append]
    cases h : rest.reverse.find? (fun e => decide (e.1 = x)) with
    | some e2 => rfl
    | none =>
      simp only [Option.none_or, List.find?_cons, List.find?_nil, get?_set]
      by_cases h1 : e.1 = x
      · simp only [h1, decide_True, if_true]
      · simp only [h1, decide_False, if_false]

end GoMap

namespace wgquick

theorem rtTablesLine_eq (env : Env) (table : List (String × Nat)) (line : String) :
    rtTablesLine env table line =
      match rtEntry env line with
      | some e => GoMap.set table e.1 e.2
      | none => table := by
  unfold rtTablesLine rtEntry
  by_cases h0 : strings.startsWith '#' line.data = true
  · simp only [h0, if_true]
  · simp only [h0, if_false]
    cases hf : strings.Fields line.data with
    | nil => simp
    | cons f0 t =>
      cases t with
      | nil => simp
      | cons f1 more =>
        cases more with
        | nil =>
          simp only [ne_eq, not_true_eq_false, false_and, if_false, List.length_cons,
            List.length_nil, Nat.lt_irrefl, List.getD_cons_zero, List.getD_cons_succ]
          cases env.ParseUint32 (String.mk f0) <;> simp
        | cons f2 rest =>
          simp only [ne_eq, List.cons_ne_nil, not_false_eq_true, true_and, List.headD_cons,
            List.length_cons, List.getD_cons_zero, List.getD_cons_succ]
          have h2 : ¬ (rest.length + 1 + 1 + 1 < 2) := by omega
          have h3 : 2 < rest.length + 1 + 1 + 1 := by omega
          simp only [h2, if_false, h3, true_and]
          by_cases h4 : (!strings.startsWith '#' f2) = true
          · simp only [h4, if_true]
            simp
          · simp only [h4, if_false]
            cases env.ParseUint32 (String.mk f0) <;> simp

theorem rtTables_foldl (env : Env) (lines : List String) (table : List (String × Nat)) :
    lines.foldl (rtTablesLine env) table =
      (lines.filterMap (rtEntry env)).foldl (fun t e => GoMap.set t e.1 e.2) table := by
  induction lines generalizing table with
  | nil => rfl
  | cons line rest ih =>
    rw [List.foldl_cons, ih, rtTablesLine_eq, List.filterMap_cons]
    cases rtEntry env line with
    | none => rfl
    | some e => rfl

/-- C20: the table mapping is built line by line.  A line contributes the entry (second
field, first field as an unsigned 32-bit integer) exactly when it does not start with `#`,
has at least two fields, has no third field or a third field that starts with `#`, and its
first field parses; a contributing line assigns its entry, every other line leaves the
mapping unchanged; a lookup in the finished mapping gives the number of the last
contributing line that carries the name; and this mapping is what the function returns
when the file can be opened. -/
theorem rtTables_line_by_line (env : Env) :
    (∀ (line : String) (e : String × Nat), rtEntry env line = some e ↔
      (strings.startsWith '#' line.data = false ∧
        2 ≤ (strings.Fields line.data).length ∧
        ((strings.Fields line.data).length = 2 ∨
          strings.startsWith '#' ((strings.Fields line.data).getD 2 []) = true) ∧
        ∃ id, env.ParseUint32 (String.mk ((strings.Fields line.data).getD 0 [])) =
            Except.ok id ∧
          e = (String.mk ((strings.Fields line.data).getD 1 []), id % 2 ^ 32))) ∧
    (∀ (table : List (String × Nat)) (line : String) (e : String × Nat),
      rtEntry env line = some e → rtTablesLine env table line = GoMap.set table e.1 e.2) ∧
    (∀ (table : List (String × Nat)) (line : String),
      rtEntry env line = none → rtTablesLine env table line = table) ∧
    (∀ (lines : List String) (name : String),
      GoMap.get? (lines.foldl (rtTablesLine env) []) name = rtLookup env lines name) ∧
    (∀ lines : List String, env.Open "/etc/iproute2/rt_tables" = Except.ok lines →
      parseIproute2RtTables env = (some (lines.foldl (rtTablesLine env) []), none)) := by
  refine ⟨?_, ?_, ?_, ?_, ?_⟩
  · intro line e
    unfold rtEntry
    by_cases h0 : strings.startsWith '#' line.data = true
    · simp [h0]
    · have h0f : strings.startsWith '#' line.data = false := by
        cases h : strings.startsWith '#' line.data with
        | true => exact absurd h h0
        | false => rfl
      simp only [h0f, Bool.false_eq_true, if_false, true_and]
      by_cases h1 : (strings.Fields line.data).length < 2
      · simp only [h1, if_true]
        constructor
        · intro h
          cases h
        · rintro ⟨h, _⟩
          omega
      · simp only [h1, if_false]
        by_cases h2 : 2 < (strings.Fields line.data).length ∧
            (!strings.startsWith '#' ((strings.Fields line.data).getD 2 [])) = true
        · simp only [h2, and_self, if_true]
          constructor
          · intro h
            cases h
          · rintro ⟨_, h3, _⟩
            obtain ⟨h4, h5⟩ := h2
            rcases h3 with h3 | h3
            · omega
            · rw [h3] at h5
              cases h5
        · rw [if_neg h2]
          have h3 : (strings.Fields line.data).length = 2 ∨
              strings.startsWith '#' ((strings.Fields line.data).getD 2 []) = true := by
            by_cases h4 : (strings.Fields line.data).length = 2
            · exact Or.inl h4
            · right
              cases h5 : strings.startsWith '#' ((strings.Fields line.data).getD 2 []) with
              | true => rfl
              | false =>
                exfalso
                apply h2
                refine ⟨by omega, ?_⟩
                rw [h5]
                rfl
          cases hp : env.ParseUint32 (String.mk ((strings.Fields line.data).getD 0 [])) with
          | error err =>
            constructor
            · intro h
              cases h
            · rintro ⟨_, _, id, h6, _⟩
              cases h6
          | ok id =>
            constructor
            · intro h
              cases h
              exact ⟨by omega, h3, id, rfl, rfl⟩
            · rintro ⟨_, _, id2, h6, h7⟩
              cases h6
              rw [h7]
  · intro table line e h
    rw [rtTablesLine_eq, h]
  · intro table line h
    rw [rtTablesLine_eq, h]
  · intro lines name
    rw [rtTables_foldl, GoMap.get?_foldl_set]
    unfold rtLookup
    cases (lines.filterMap (rtEntry env)).reverse.find? (fun e => decide (e.1 = name)) with
    | some e => rfl
    | none => rfl
  · intro lines h
    unfold parseIproute2RtTables
    rw [h]

/-- Witness of C20: the mapping of the file `254 main`, and a lookup of `main` after eight
lines of which `255 local`, `254 main # the default` and `7 main` contribute. -/
theorem rtTables_line_by_line_witness :
    parseIproute2RtTables Example.env = (some [("main", 254)], none) ∧
    GoMap.get?
        (["# reserved values", "255 local", "254 main # the default", "253 default extra",
          "x y", "1", "7 main", "  #8 z"].foldl (rtTablesLine Example.env) []) "main" =
      some 7 :=
  ⟨(rtTables_line_by_line Example.env).2.2.2.2 ["254 main"] rfl,
    ((rtTables_line_by_line Example.env).2.2.2.1 _ "main").trans (by decide)⟩

end wgquick

/-! ## The tokenizer -/

namespace strings

theorem drop_of_Index (c : Char) (l : List Char) (i : Nat) (h : Index c l = some i) :
    ∃ tail, l.drop i = c :: tail := by
  induction l generalizing i with
  | nil => cases h
  | cons d rest ih =>
    simp only [Index] at h
    by_cases hd : d = c
    · simp only [hd, if_true, Option.some.injEq] at h
      subst h
      exact ⟨rest, by rw [hd]; rfl⟩
    · simp only [hd, if_false] at h
      cases hr : Index c rest with
      | none =>
        rw [hr] at h
        cases h
      | some j =>
        rw [hr] at h
        simp only [Option.map_some', Option.some.injEq] at h
        subst h
        exact ih j hr

theorem dropWhile_concat_of_neg (p : Char → Bool) (c : Char) (hc : p c = false)
    (r : List Char) : (r ++ [c]).dropWhile p = r.dropWhile p ++ [c] := by
  induction r with
  | nil => simp [List.dropWhile, hc]
  | cons a r ih =>
    by_cases ha : p a = true
    · simp only [List.cons_append, List.dropWhile_cons, ha, if_true]
      exact ih
    · simp only [List.cons_append, List.dropWhile_cons, ha, if_false, Bool.false_eq_true]

theorem TrimSpace_cons_of_not_space (c : Char) (tail : List Char) (hc : isSpace c = false) :
    ∃ t, TrimSpace (c :: tail) = c :: t := by
  unfold TrimSpace
  have h1 : (c :: tail).dropWhile isSpace = c :: tail := by
    simp [List.dropWhile, hc]
  rw [h1, List.reverse_cons, dropWhile_concat_of_neg isSpace c hc, List.reverse_append]
  exact ⟨_, rfl⟩

end strings

namespace ini

/-- The closure `tryUnquote` never succeeds: the text it inspects after the quoted part
starts at the closing quote itself. -/
theorem tryUnquote_none (unquote : String → Except Error String) (value : List Char) :
    tryUnquote unquote value = none := by
  unfold tryUnquote
  by_cases h0 : (!strings.startsWith '"' value) = true
  · simp only [h0, if_true]
  · simp only [h0, if_false, Bool.false_eq_true]
    cases value with
    | nil => simp [strings.startsWith] at h0
    | cons q rest =>
      cases hi : strings.Index '"' ((q :: rest).drop 1) with
      | none => rfl
      | some right =>
        obtain ⟨tail, ht⟩ := strings.drop_of_Index '"' rest right hi
        have hd : (q :: rest).drop (right + 1) = '"' :: tail := ht
        obtain ⟨t, htrim⟩ := strings.TrimSpace_cons_of_not_space '"' tail (by decide)
        have hs : (!strings.startsWith '#' ('"' :: t)) = true := by
          simp only [strings.startsWith]
          decide
        have hne : '"' :: t ≠ [] ∧ (!strings.startsWith '#' ('"' :: t)) = true :=
          ⟨List.cons_ne_nil _ _, hs⟩
        simp only [hd, htrim]
        rw [if_pos hne]

theorem scanLine_unquote (u1 u2 : String → Except Error String) (file : List Section)
    (text : String) : scanLine u1 file text = scanLine u2 file text := by
  unfold scanLine
  simp only [tryUnquote_none]

theorem scanLines_unquote (u1 u2 : String → Except Error String) (lines : List String)
    (file : List Section) : scanLines u1 file lines = scanLines u2 file lines := by
  induction lines generalizing file with
  | nil => rfl
  | cons text rest ih =>
    simp only [scanLines, scanLine_unquote u1 u2 file text]
    cases scanLine u2 file text with
    | error e => rfl
    | ok f2 => exact ih f2

/-- C21 at the failing input: whatever `strconv.Unquote` does, `tryUnquote` rejects every
value, so the line `key = "a # b"` yields the value `"a`, cut at the comment marker inside
the quotes, and the line `key = "abc"` keeps its quotes. -/
theorem ParseINI_quoted_value_not_unquoted (unquote : String → Except Error String) :
    (∀ value, tryUnquote unquote value = none) ∧
    ParseINI unquote ["[Interface]", "key = \"a # b\""] =
      ([{ Name := "Interface", Pairs := [{ Key := "key", Value := "\"a" }] }], none) ∧
    ParseINI unquote ["[Interface]", "key = \"abc\""] =
      ([{ Name := "Interface", Pairs := [{ Key := "key", Value := "\"abc\"" }] }], none) := by
  refine ⟨tryUnquote_none unquote, ?_, ?_⟩
  · unfold ParseINI
    rw [scanLines_unquote unquote (fun _ => Except.error (Error.mk "invalid syntax"))]
    decide
  · unfold ParseINI
    rw [scanLines_unquote unquote (fun _ => Except.error (Error.mk "invalid syntax"))]
    decide

end ini

namespace ini

theorem appendPair_ne_nil (file : List Section) (p : Pair) (h : file ≠ []) :
    appendPair file p ≠ [] := by
  cases file with
  | nil => exact absurd rfl h
  | cons s t =>
    cases t with
    | nil => simp [appendPair]
    | cons s2 t2 => simp [appendPair]

/-- One turn of the scanning loop returns with an error exactly on a format error, the
file so far telling whether a header precedes the line. -/
theorem scanLine_error_iff (unquote : String → Except Error String) (file : List Section)
    (text : String) :
    (∃ e, scanLine unquote file text = Except.error e) ↔
      formatError (decide (file = [])) text = true := by
  unfold scanLine formatError
  dsimp only
  by_cases h0 : strings.TrimSpace text.data = [] ∨
      strings.startsWith '#' (strings.TrimSpace text.data) = true
  · rw [if_pos h0]
    rcases h0 with h0 | h0 <;> simp [h0]
  · rw [if_neg h0]
    have h1 : ¬ (strings.TrimSpace text.data = []) := fun h => h0 (Or.inl h)
    have h2 : strings.startsWith '#' (strings.TrimSpace text.data) = false := by
      cases h : strings.startsWith '#' (strings.TrimSpace text.data) with
      | false => rfl
      | true => exact absurd (Or.inr h) h0
    by_cases h3 : strings.startsWith '[' (strings.TrimSpace text.data) = true
    · rw [if_pos h3]
      cases hi : strings.Index ']' (strings.TrimSpace text.data) with
      | none => simp [h1, h2, h3]
      | some close =>
        by_cases h4 : strings.TrimSpace ((strings.TrimSpace text.data).drop (close + 1)) ≠ [] ∧
            (!strings.startsWith '#'
              (strings.TrimSpace ((strings.TrimSpace text.data).drop (close + 1)))) = true
        · simp only [h4, and_self, if_true]
          obtain ⟨h5, h6⟩ := h4
          simp [h1, h2, h3, h5, h6]
        · simp only [h4, if_false]
          simp only [h1, h2, h3, decide_False, Bool.or_false, Bool.not_false, Bool.true_and,
            Option.isNone_some, Option.isSome_some, Bool.not_true, Bool.false_and,
            Bool.or_false, Bool.false_or]
          constructor
          · rintro ⟨e, he⟩
            cases he
          · intro h7
            exfalso
            apply h4
            simpa using h7
    · rw [if_neg h3]
      have h3f : strings.startsWith '[' (strings.TrimSpace text.data) = false := by
        cases h : strings.startsWith '[' (strings.TrimSpace text.data) with
        | false => rfl
        | true => exact absurd h h3
      by_cases h5 : file = []
      · simp [h5, h1, h2, h3f]
      · rw [if_neg h5]
        cases hi : strings.Index '=' (strings.TrimSpace text.data) with
        | none => simp [h5, h1, h2, h3f]
        | some eq => simp [h5, h1, h2, h3f]

/-- After a turn of the scanning loop that goes on, the file is empty exactly when it was
empty before and the line is not a header. -/
theorem scanLine_ok_empty (unquote : String → Except Error String) (file file2 : List Section)
    (text : String) (h : scanLine unquote file text = Except.ok file2) :
    decide (file2 = []) = (decide (file = []) && noHeader text) := by
  unfold scanLine at h
  unfold noHeader
  dsimp only at h
  by_cases h0 : strings.TrimSpace text.data = [] ∨
      strings.startsWith '#' (strings.TrimSpace text.data) = true
  · rw [if_pos h0] at h
    cases h
    have h3 : strings.startsWith '[' (strings.TrimSpace text.data) = false := by
      rcases h0 with h0 | h0
      · rw [h0]
        rfl
      · cases hl : strings.TrimSpace text.data with
        | nil => rfl
        | cons d t =>
          rw [hl] at h0
          simp only [strings.startsWith, decide_eq_true_eq] at h0
          simp only [strings.startsWith, h0]
          decide
    simp [h3]
  · rw [if_neg h0] at h
    by_cases h3 : strings.startsWith '[' (strings.TrimSpace text.data) = true
    · rw [if_pos h3] at h
      cases hi : strings.Index ']' (strings.TrimSpace text.data) with
      | none =>
        rw [hi] at h
        cases h
      | some close =>
        rw [hi] at h
        simp only at h
        split at h
        · cases h
        · cases h
          simp [emplaceSection, h3]
    · rw [if_neg h3] at h
      by_cases h5 : file = []
      · rw [if_pos h5] at h
        cases h
      · rw [if_neg h5] at h
        cases hi : strings.Index '=' (strings.TrimSpace text.data) with
        | none =>
          rw [hi] at h
          cases h
        | some eq =>
          rw [hi] at h
          simp only at h
          cases h
          simp [h5, appendPair_ne_nil file _ h5]

theorem scanLines_error_iff (unquote : String → Except Error String) (lines : List String)
    (file : List Section) :
    (scanLines unquote file lines).2.isSome = true ↔
      ∃ pre text post, lines = pre ++ text :: post ∧
        formatError (decide (file = []) && pre.all noHeader) text = true := by
  induction lines generalizing file with
  | nil =>
    constructor
    · intro h
      cases h
    · rintro ⟨pre, text, post, h, _⟩
      cases pre <;> cases h
  | cons t rest ih =>
    simp only [scanLines]
    cases hs : scanLine unquote file t with
    | error e =>
      simp only [Option.isSome_some, true_iff]
      exact ⟨[], t, rest, rfl, by
        simpa using (scanLine_error_iff unquote file t).1 ⟨e, hs⟩⟩
    | ok file2 =>
      simp only
      rw [ih file2]
      have hB := scanLine_ok_empty unquote file file2 t hs
      constructor
      · rintro ⟨pre, text, post, h1, h2⟩
        refine ⟨t :: pre, text, post, by rw [h1]; rfl, ?_⟩
        rw [hB] at h2
        simpa [List.all_cons, Bool.and_assoc] using h2
      · rintro ⟨pre, text, post, h1, h2⟩
        cases pre with
        | nil =>
          simp only [List.nil_append, List.cons.injEq] at h1
          obtain ⟨h3, _⟩ := h1
          subst h3
          simp only [List.all_nil, Bool.and_true] at h2
          obtain ⟨e, he⟩ := (scanLine_error_iff unquote file t).2 h2
          rw [hs] at he
          cases he
        | cons t2 pre2 =>
          simp only [List.cons_append, List.cons.injEq] at h1
          obtain ⟨h3, h4⟩ := h1
          subst h3
          refine ⟨pre2, text, post, h4, ?_⟩
          rw [hB]
          simpa [List.all_cons, Bool.and_assoc] using h2

/-- C22: the tokenizer returns an error if and only if some line is a format error: after
trimming it is neither blank nor a comment, and it is a header without `]`, a header whose
text after the first `]` is neither blank nor a comment, a key-value line with no line
starting with `[` before it, or a key-value line without `=`.  On every other input it
returns the sections without error. -/
theorem ParseINI_error_iff (unquote : String → Except Error String) (lines : List String) :
    ((ParseINI unquote lines).2.isSome = true ↔
      ∃ pre text post, lines = pre ++ text :: post ∧
        formatError (pre.all noHeader) text = true) ∧
    ((ParseINI unquote lines).2 = none ↔
      ∀ pre text post, lines = pre ++ text :: post →
        formatError (pre.all noHeader) text = false) := by
  have h := scanLines_error_iff unquote lines []
  simp only [decide_True, Bool.true_and] at h
  unfold ParseINI
  refine ⟨h, ?_⟩
  constructor
  · intro hn pre text post hl
    cases hf : formatError (pre.all noHeader) text with
    | false => rfl
    | true =>
      have := h.2 ⟨pre, text, post, hl, hf⟩
      rw [hn] at this
      cases this
  · intro hall
    cases hr : (scanLines unquote [] lines).2 with
    | none => rfl
    | some e =>
      have hsome : (scanLines unquote [] lines).2.isSome = true := by
        rw [hr]
        rfl
      obtain ⟨pre, text, post, hl, hf⟩ := h.1 hsome
      rw [hall pre text post hl] at hf
      cases hf

/-- The four format errors and an accepted text, at concrete inputs. -/
theorem ParseINI_example :
    ParseINI (fun _ => Except.error (Error.mk "invalid syntax")) ["# c", "[Peer"] =
      ([], some (Error.mk "invalid section line: [Peer")) ∧
    ParseINI (fun _ => Except.error (Error.mk "invalid syntax")) ["[Peer] x"] =
      ([], some (Error.mk "invalid section line: [Peer] x")) ∧
    ParseINI (fun _ => Except.error (Error.mk "invalid syntax")) ["", "k = v", "[Peer]"] =
      ([], some (Error.mk "out of section key-value: k = v")) ∧
    ParseINI (fun _ => Except.error (Error.mk "invalid syntax")) ["[Peer]", "  k v  "] =
      ([{ Name := "Peer" }], some (Error.mk "invalid key-value line: k v")) ∧
    ParseINI (fun _ => Except.error (Error.mk "invalid syntax"))
        ["[Interface] # local", " ListenPort = 51820 # port", "", "[Peer]", "A=b=c"] =
      ([{ Name := "Interface", Pairs := [{ Key := "ListenPort", Value := "51820" }] },
        { Name := "Peer", Pairs := [{ Key := "A", Value := "b=c" }] }], none) := by
  refine ⟨by decide, by decide, by decide, by decide, by decide⟩

end ini

/-! ## The peer diff: convergence -/

namespace wgdiff

theorem filter_keep_of_not_remove (l : List PeerConfig) (h : ∀ p ∈ l, p.Remove = false) :
    l.filter (fun p => !p.Remove) = l ∧ l.filter (fun p => p.Remove) = [] := by
  constructor
  · rw [List.filter_eq_self]
    intro p hp
    rw [h p hp]
    rfl
  · rw [List.filter_eq_nil_iff]
    intro p hp
    rw [h p hp]
    decide

theorem filter_markers (m : List (Key × Peer)) :
    (m.map (fun e => ({ PublicKey := e.2.PublicKey, Remove := true } : PeerConfig))).filter
        (fun p => !p.Remove) = [] ∧
    ((m.map (fun e => ({ PublicKey := e.2.PublicKey, Remove := true } : PeerConfig))).filter
        (fun p => p.Remove)).map (fun p => p.PublicKey) = m.map (fun e => e.2.PublicKey) := by
  induction m with
  | nil => exact ⟨rfl, rfl⟩
  | cons e rest ih =>
    obtain ⟨h1, h2⟩ := ih
    constructor
    · simp only [List.map_cons, List.filter_cons, Bool.not_true, Bool.false_eq_true, if_false]
      exact h1
    · simp only [List.map_cons, List.filter_cons, if_true, List.cons.injEq, true_and]
      exact h2

/-- The keys of the entries of the delta of a present device, when no desired peer is a
removal: the entries that are not removals carry the desired keys, in order, and the
removal markers carry the current keys that are not desired. -/
theorem CalcDiff_keys (ρ : RangeOrder) (cur : Device) (desired : WgConfig)
    (h : ∀ p ∈ desired.Peers, p.Remove = false) :
    upsertKeys (CalcDiff ρ (some cur) desired).1 = desired.Peers.map (fun p => p.PublicKey) ∧
    ∀ k, k ∈ removalKeys (CalcDiff ρ (some cur) desired).1 ↔
      (k ∈ cur.Peers.map (fun p => p.PublicKey) ∧
        k ∉ desired.Peers.map (fun p => p.PublicKey)) := by
  obtain ⟨a1, a2, a3⟩ := indexPeers_inv cur.Peers [] (by simp [GoMap.keys]) (by simp)
  obtain ⟨b1, b2, b3⟩ := dropDesired_inv desired.Peers (indexPeers cur.Peers []) a1 a2
  obtain ⟨f1, f2⟩ := filter_keep_of_not_remove desired.Peers h
  obtain ⟨g1, g2⟩ := filter_markers (ρ.order 0 (dropDesired desired.Peers
    (indexPeers cur.Peers [])))
  constructor
  · simp only [upsertKeys, CalcDiff, List.filter_append, f1, g1, List.append_nil]
  · intro k
    simp only [removalKeys, CalcDiff, List.filter_append, f2, List.nil_append, g2]
    have hk : (ρ.order 0 (dropDesired desired.Peers (indexPeers cur.Peers []))).map
        (fun e => e.2.PublicKey) =
        GoMap.keys (ρ.order 0 (dropDesired desired.Peers (indexPeers cur.Peers []))) := by
      apply List.map_congr_left
      intro e he
      exact b2 e ((RangeOrder.mem_order ρ 0 _ e).1 he)
    rw [hk, GoMap.mem_keys_order, b3, a3]
    simp [GoMap.keys]

/-- C23: for every current device, present or absent, and every desired model none of whose
peers is a removal, the delta converges the peer set: no public key is carried both by a
removal marker and by an entry that is not a removal; every current public key is carried
by an entry of the delta; the delta applied to the current keys gives exactly the desired
keys; and when the current and the desired keys are the same, the delta has no removal
marker. -/
theorem CalcDiff_converges (ρ : RangeOrder) (current : Option Device) (desired : WgConfig)
    (h : ∀ p ∈ desired.Peers, p.Remove = false) :
    (∀ k, ¬ (k ∈ removalKeys (CalcDiff ρ current desired).1 ∧
      k ∈ upsertKeys (CalcDiff ρ current desired).1)) ∧
    (∀ k ∈ currentKeys current,
      k ∈ upsertKeys (CalcDiff ρ current desired).1 ∨
        k ∈ removalKeys (CalcDiff ρ current desired).1) ∧
    (∀ k, k ∈ applyDelta (currentKeys current) (CalcDiff ρ current desired).1 ↔
      k ∈ desired.Peers.map (fun p => p.PublicKey)) ∧
    ((∀ k, k ∈ currentKeys current ↔ k ∈ desired.Peers.map (fun p => p.PublicKey)) →
      removalKeys (CalcDiff ρ current desired).1 = [] ∧
      ∀ q ∈ (CalcDiff ρ current desired).1.Peers, q.Remove = false) := by
  obtain ⟨f1, f2⟩ := filter_keep_of_not_remove desired.Peers h
  cases current with
  | none =>
    have hu : upsertKeys (CalcDiff ρ none desired).1 =
        desired.Peers.map (fun p => p.PublicKey) := by
      simp only [upsertKeys, CalcDiff, f1]
    have hr : removalKeys (CalcDiff ρ none desired).1 = [] := by
      simp only [removalKeys, CalcDiff, f2, List.map_nil]
    refine ⟨?_, ?_, ?_, ?_⟩
    · intro k hk
      rw [hr] at hk
      cases hk.1
    · intro k hk
      cases hk
    · intro k
      simp only [applyDelta, hr, hu, currentKeys, List.nil_append, List.mem_filter,
        List.not_mem_nil, not_false_eq_true, decide_True, and_true]
    · intro _
      exact ⟨hr, h⟩
  | some cur =>
    obtain ⟨hu, hr⟩ := CalcDiff_keys ρ cur desired h
    refine ⟨?_, ?_, ?_, ?_⟩
    · intro k hk
      rw [hu] at hk
      exact ((hr k).1 hk.1).2 hk.2
    · intro k hk
      rw [hu]
      by_cases hd : k ∈ desired.Peers.map (fun p => p.PublicKey)
      · exact Or.inl hd
      · exact Or.inr ((hr k).2 ⟨hk, hd⟩)
    · intro k
      simp only [applyDelta, hu, currentKeys, List.mem_filter, List.mem_append,
        decide_eq_true_eq, hr k]
      tauto
    · intro hsame
      have hnil : removalKeys (CalcDiff ρ (some cur) desired).1 = [] := by
        apply List.eq_nil_iff_forall_not_mem.2
        intro k hk
        obtain ⟨h1, h2⟩ := (hr k).1 hk
        exact h2 ((hsame k).1 h1)
      refine ⟨hnil, ?_⟩
      intro q hq
      cases hrem : q.Remove with
      | false => rfl
      | true =>
        exfalso
        have hmem : q.PublicKey ∈ removalKeys (CalcDiff ρ (some cur) desired).1 := by
          unfold removalKeys
          exact List.mem_map.2 ⟨q, List.mem_filter.2 ⟨hq, hrem⟩, rfl⟩
        rw [hnil] at hmem
        cases hmem

/-- Witness of C23: current peers 1, 2, 3 and desired peers 2, 3, 4. -/
theorem CalcDiff_converges_witness :
    (∀ k, ¬ (k ∈ removalKeys (CalcDiff RangeOrder.reversed
        (some (Example.device [Example.peer 1, Example.peer 2, Example.peer 3]))
        { Peers := [Example.wanted 2, Example.wanted 3, Example.wanted 4] }).1 ∧
      k ∈ upsertKeys (CalcDiff RangeOrder.reversed
        (some (Example.device [Example.peer 1, Example.peer 2, Example.peer 3]))
        { Peers := [Example.wanted 2, Example.wanted 3, Example.wanted 4] }).1)) ∧
    applyDelta [Example.key 1, Example.key 2, Example.key 3]
        (CalcDiff RangeOrder.reversed
          (some (Example.device [Example.peer 1, Example.peer 2, Example.peer 3]))
          { Peers := [Example.wanted 2, Example.wanted 3, Example.wanted 4] }).1 =
      [Example.key 2, Example.key 3, Example.key 2, Example.key 3, Example.key 4] :=
  ⟨(CalcDiff_converges RangeOrder.reversed
      (some (Example.device [Example.peer 1, Example.peer 2, Example.peer 3]))
      { Peers := [Example.wanted 2, Example.wanted 3, Example.wanted 4] } (by decide)).1,
    by decide⟩

end wgdiff

/-! ## The route reconciler against the routes the kernel lists -/

namespace GoMap

variable {κ α : Type} [DecidableEq κ]

theorem mem_iff_get? (m : List (κ × α)) (hn : (keys m).Nodup) (k : κ) (v : α) :
    (k, v) ∈ m ↔ get? m k = some v := by
  induction m with
  | nil => simp [get?]
  | cons hd t ih =>
    obtain ⟨k0, v0⟩ := hd
    simp only [keys, List.map_cons, List.nodup_cons] at hn
    obtain ⟨hk0, hn2⟩ := hn
    simp only [List.mem_cons, Prod.mk.injEq, get?]
    by_cases h : k0 = k
    · subst h
      simp only [true_and, if_true, Option.some.injEq]
      constructor
      · rintro (h1 | h1)
        · exact h1.symm
        · exact absurd (List.mem_map.2 ⟨(k0, v), h1, rfl⟩) hk0
      · intro h1
        exact Or.inl h1.symm
    · have h2 : ¬ (k = k0) := fun e => h e.symm
      simp only [h, h2, false_and, false_or, if_false]
      exact ih hn2

end GoMap

namespace netconf

theorem collect_eq_foldl {α : Type} (key : α → String) (l : List α) (m : List (String × α)) :
    collect key l m =
      (l.map (fun a => (key a, a))).foldl (fun t e => GoMap.set t e.1 e.2) m := by
  induction l generalizing m with
  | nil => rfl
  | cons a rest ih => simp only [collect, List.map_cons, List.foldl_cons, ih]

/-- A map filled from a list holds, under a key, the last element of the list with that
key. -/
theorem get?_collect {α : Type} (key : α → String) (l : List α) (s : String) :
    GoMap.get? (collect key l []) s = lastWithKey key l s := by
  rw [collect_eq_foldl, GoMap.get?_foldl_set, ← List.map_reverse, List.find?_map]
  unfold lastWithKey
  cases h : l.reverse.find? (fun a => decide (key a = s)) with
  | none =>
    have h2 : List.find? ((fun e : String × α => decide (e.1 = s)) ∘ fun a => (key a, a))
        l.reverse = none := h
    rw [h2]
    rfl
  | some a =>
    have h2 : List.find? ((fun e : String × α => decide (e.1 = s)) ∘ fun a => (key a, a))
        l.reverse = some a := h
    rw [h2]
    rfl

theorem mem_collect_iff {α : Type} (key : α → String) (l : List α) (s : String) (a : α) :
    (s, a) ∈ collect key l [] ↔ lastWithKey key l s = some a := by
  obtain ⟨n1, _, _, _⟩ := collect_inv key l [] (by simp [GoMap.keys]) (by simp)
  rw [GoMap.mem_iff_get? _ n1, get?_collect]

theorem lastWithKey_some {α : Type} (key : α → String) (l : List α) (s : String) (a : α)
    (h : lastWithKey key l s = some a) : key a = s ∧ a ∈ l := by
  unfold lastWithKey at h
  have h1 := List.find?_some h
  have h2 := List.mem_of_find?_eq_some h
  exact ⟨by simpa using h1, List.mem_reverse.1 h2⟩

/-- The map `oldRoutes` is the map filled, under the prefix strings, from the listed routes
that pass the filter. -/
theorem managedRoutes_eq_collect (lib : NetLib) (c : NetworkConfig) (ifce : Interface)
    (oas : List RouteMessage) (m : List (String × RouteMessage)) :
    managedRoutes lib (targetTable c) ifce oas m =
      collect (prefixString lib) (oas.filter (passesFilter c ifce)) m := by
  induction oas generalizing m with
  | nil => rfl
  | cons oa rest ih =>
    have hkey : routeKey lib oa = prefixString lib oa := rfl
    by_cases h1 : oa.Protocol = RTPROT_BOOT ∨ oa.Protocol = RTPROT_STATIC
    · have h1n : ¬ (oa.Protocol ≠ RTPROT_BOOT ∧ oa.Protocol ≠ RTPROT_STATIC) := by tauto
      have h1b : (decide (oa.Protocol = RTPROT_BOOT) || decide (oa.Protocol = RTPROT_STATIC))
          = true := by
        rcases h1 with h | h <;> simp [h]
      by_cases h2 : tableOfRoute oa = targetTable c ∧
          oa.Attributes.OutIface = uint32 ifce.Index
      · have h3 : passesFilter c ifce oa = true := by
          simp only [passesFilter, h1b, h2.1, h2.2, decide_True, Bool.and_self]
        simp only [managedRoutes, List.filter_cons, h3, if_true, collect]
        rw [if_neg h1n, if_pos h2, ih, hkey]
      · have h3 : passesFilter c ifce oa = false := by
          simp only [passesFilter, h1b, Bool.true_and, Bool.and_eq_false_iff,
            decide_eq_false_iff_not]
          by_cases ht : tableOfRoute oa = targetTable c
          · exact Or.inr (fun hi => h2 ⟨ht, hi⟩)
          · exact Or.inl ht
        simp only [managedRoutes, List.filter_cons, h3, Bool.false_eq_true, if_false]
        rw [if_neg h1n, if_neg h2, ih]
    · have h1p : oa.Protocol ≠ RTPROT_BOOT ∧ oa.Protocol ≠ RTPROT_STATIC :=
        ⟨fun h => h1 (Or.inl h), fun h => h1 (Or.inr h)⟩
      have h3 : passesFilter c ifce oa = false := by
        have hb : decide (oa.Protocol = RTPROT_BOOT) = false := decide_eq_false h1p.1
        have hs : decide (oa.Protocol = RTPROT_STATIC) = false := decide_eq_false h1p.2
        simp only [passesFilter, hb, hs, Bool.or_self, Bool.false_and]
      simp only [managedRoutes, List.filter_cons, h3, Bool.false_eq_true, if_false]
      rw [if_pos h1p, ih]

end netconf

namespace netconf

theorem updateRoutes_added_iff (lib : NetLib) (ρ : RangeOrder) (k : Kernel)
    (c : NetworkConfig) (ifce : Interface) (oas : List RouteMessage)
    (hread : k.RouteList = Except.ok oas) (hok : ∀ h call, k.respond h call = none)
    (d : IPNet) :
    d ∈ addedRoutes (updateRoutes lib ρ k c ifce).1 ↔
      ∃ s, (s, d) ∈ collect lib.ipNetString c.Routes [] ∧
        s ∉ GoMap.keys (managedRoutes lib (targetTable c) ifce oas []) := by
  rw [updateRoutes_obliging lib ρ k c ifce oas hread hok, reconcile_eq]
  simp only [addedRoutes_append, addedRoutes_adds, addedRoutes_dels, List.nil_append]
  constructor
  · intro hd
    obtain ⟨e, he, rfl⟩ := List.mem_map.1 hd
    have he2 := List.mem_filter.1 ((RangeOrder.mem_order ρ 2 _ e).1 he)
    exact ⟨e.1, he2.1, by simpa using he2.2⟩
  · rintro ⟨s, hs, hns⟩
    refine List.mem_map.2 ⟨(s, d), (RangeOrder.mem_order ρ 2 _ _).2 ?_, rfl⟩
    exact List.mem_filter.2 ⟨hs, by simpa using hns⟩

/-- Counterexample to C5: the kernel lists two boot routes to `10.1.0.0/16` in the main table
through link 7, which differ in priority; both belong to the current managed route set and
their key is not a desired key, yet only the second is deleted, for both visiting orders. -/
theorem updateRoutes_keeps_route_of_shared_key :
    passesFilter { } Example.wg0 (Example.routeWithPriority 1 RTPROT_BOOT 254 7 1) = true ∧
    passesFilter { } Example.wg0 (Example.routeWithPriority 1 RTPROT_BOOT 254 7 2) = true ∧
    prefixString Example.lib (Example.routeWithPriority 1 RTPROT_BOOT 254 7 1) ∉
      ({ } : NetworkConfig).Routes.map Example.lib.ipNetString ∧
    updateRoutes Example.lib RangeOrder.insertion
        (Kernel.obliging [] [Example.routeWithPriority 1 RTPROT_BOOT 254 7 1,
          Example.routeWithPriority 1 RTPROT_BOOT 254 7 2]) { } Example.wg0 =
      ([Call.RouteDelete (Example.routeWithPriority 1 RTPROT_BOOT 254 7 2)], none) ∧
    updateRoutes Example.lib RangeOrder.reversed
        (Kernel.obliging [] [Example.routeWithPriority 1 RTPROT_BOOT 254 7 1,
          Example.routeWithPriority 1 RTPROT_BOOT 254 7 2]) { } Example.wg0 =
      ([Call.RouteDelete (Example.routeWithPriority 1 RTPROT_BOOT 254 7 2)], none) := by
  refine ⟨by decide, by decide, by decide, by decide, by decide⟩

/-- C5 as amended: when the kernel lists the routes `oas` and no call fails, the current
managed routes are the listed routes of boot or static origin, in the target table and
through the target link, keyed by prefix string, a later route replacing an earlier one with
the same key.  `updateRoutes` deletes exactly, for every managed key that is not a desired
key, the last listed managed route with that key; it adds exactly, for every desired key
that is not a managed key, the last desired route with that key; it touches no key present
in both; and every add call carries the target table and, as output interface, the target
link index. -/
theorem updateRoutes_against_kernel_routes (lib : NetLib) (ρ : RangeOrder) (k : Kernel)
    (c : NetworkConfig) (ifce : Interface) (oas : List RouteMessage)
    (hread : k.RouteList = Except.ok oas) (hok : ∀ h call, k.respond h call = none) :
    (updateRoutes lib ρ k c ifce).2 = none ∧
    (∀ call ∈ (updateRoutes lib ρ k c ifce).1,
      (∃ r, call = Call.RouteDelete r) ∨
      (∃ d, call = Call.RouteAdd ifce d (targetTable c) (uint32 ifce.Index))) ∧
    (∀ r, r ∈ deletedRoutes (updateRoutes lib ρ k c ifce).1 ↔
      (lastWithKey (prefixString lib) (oas.filter (passesFilter c ifce)) (prefixString lib r) =
          some r ∧
        prefixString lib r ∉ c.Routes.map lib.ipNetString)) ∧
    (∀ r ∈ deletedRoutes (updateRoutes lib ρ k c ifce).1,
      r ∈ oas ∧ passesFilter c ifce r = true) ∧
    (∀ s, s ∈ (deletedRoutes (updateRoutes lib ρ k c ifce).1).map (prefixString lib) ↔
      (s ∈ (oas.filter (passesFilter c ifce)).map (prefixString lib) ∧
        s ∉ c.Routes.map lib.ipNetString)) ∧
    (∀ d, d ∈ addedRoutes (updateRoutes lib ρ k c ifce).1 ↔
      (lastWithKey lib.ipNetString c.Routes (lib.ipNetString d) = some d ∧
        lib.ipNetString d ∉ (oas.filter (passesFilter c ifce)).map (prefixString lib))) ∧
    (∀ s, s ∈ (addedRoutes (updateRoutes lib ρ k c ifce).1).map lib.ipNetString ↔
      (s ∈ c.Routes.map lib.ipNetString ∧
        s ∉ (oas.filter (passesFilter c ifce)).map (prefixString lib))) ∧
    (∀ s, s ∈ (oas.filter (passesFilter c ifce)).map (prefixString lib) →
      s ∈ c.Routes.map lib.ipNetString →
      s ∉ (deletedRoutes (updateRoutes lib ρ k c ifce).1).map (prefixString lib) ∧
      s ∉ (addedRoutes (updateRoutes lib ρ k c ifce).1).map lib.ipNetString) ∧
    ((deletedRoutes (updateRoutes lib ρ k c ifce).1).map (prefixString lib)).Nodup ∧
    ((addedRoutes (updateRoutes lib ρ k c ifce).1).map lib.ipNetString).Nodup := by
  obtain ⟨a1, a2, _, a4, a5, a6, a7, a8, a9, _⟩ :=
    updateRoutes_symmetric_difference lib ρ k c ifce oas hread hok
  have hadd := updateRoutes_added_iff lib ρ k c ifce oas hread hok
  have hMR := managedRoutes_eq_collect lib c ifce oas []
  obtain ⟨_, _, _, hkeys⟩ := collect_inv (prefixString lib) (oas.filter (passesFilter c ifce))
    [] (by simp [GoMap.keys]) (by simp)
  have hk : ∀ x, x ∈ GoMap.keys (managedRoutes lib (targetTable c) ifce oas []) ↔
      x ∈ (oas.filter (passesFilter c ifce)).map (prefixString lib) := by
    intro x
    rw [hMR, hkeys]
    simp [GoMap.keys]
  have hrk : routeKey lib = prefixString lib := rfl
  rw [hrk] at a5 a7 a8
  have hdel : ∀ r, r ∈ deletedRoutes (updateRoutes lib ρ k c ifce).1 ↔
      (lastWithKey (prefixString lib) (oas.filter (passesFilter c ifce)) (prefixString lib r) =
          some r ∧
        prefixString lib r ∉ c.Routes.map lib.ipNetString) := by
    intro r
    rw [a4, hMR]
    constructor
    · rintro ⟨s, hs, hns⟩
      have h1 := (mem_collect_iff _ _ s r).1 hs
      obtain ⟨h2, _⟩ := lastWithKey_some _ _ s r h1
      rw [h2]
      exact ⟨h1, hns⟩
    · rintro ⟨h1, h2⟩
      exact ⟨prefixString lib r, (mem_collect_iff _ _ _ r).2 h1, h2⟩
  refine ⟨a1, a2, hdel, ?_, ?_, ?_, ?_, ?_, a8, a9⟩
  · intro r hr
    obtain ⟨h1, _⟩ := (hdel r).1 hr
    obtain ⟨_, h3⟩ := lastWithKey_some _ _ _ r h1
    have h4 := List.mem_filter.1 h3
    exact ⟨h4.1, h4.2⟩
  · intro s
    rw [a5, hk]
  · intro d
    rw [hadd]
    constructor
    · rintro ⟨s, hs, hns⟩
      have h1 := (mem_collect_iff _ _ s d).1 hs
      obtain ⟨h2, _⟩ := lastWithKey_some _ _ s d h1
      rw [h2]
      exact ⟨h1, fun h => hns ((hk s).2 h)⟩
    · rintro ⟨h1, h2⟩
      exact ⟨lib.ipNetString d, (mem_collect_iff _ _ _ d).2 h1, fun h => h2 ((hk _).1 h)⟩
  · intro s
    rw [a6, hk]
  · intro s hs1 hs2
    exact a7 s ((hk s).2 hs1) hs2

/-- Witness of C5 as amended: the kernel lists the two routes of the counterexample and a
route to `10.5.0.0/16`, and the desired routes are `10.5.0.0/16` and `10.6.0.0/16`. -/
theorem updateRoutes_against_kernel_routes_witness :
    (∀ r, r ∈ deletedRoutes (updateRoutes Example.lib RangeOrder.reversed
        (Kernel.obliging [] [Example.routeWithPriority 1 RTPROT_BOOT 254 7 1,
          Example.routeWithPriority 1 RTPROT_BOOT 254 7 2,
          Example.route 5 RTPROT_STATIC 254 7])
        { Routes := [Example.net16 5, Example.net16 6] } Example.wg0).1 ↔
      (lastWithKey (prefixString Example.lib)
          ([Example.routeWithPriority 1 RTPROT_BOOT 254 7 1,
            Example.routeWithPriority 1 RTPROT_BOOT 254 7 2,
            Example.route 5 RTPROT_STATIC 254 7].filter
              (passesFilter { Routes := [Example.net16 5, Example.net16 6] } Example.wg0))
          (prefixString Example.lib r) = some r ∧
        prefixString Example.lib r ∉
          ({ Routes := [Example.net16 5, Example.net16 6] } : NetworkConfig).Routes.map
            Example.lib.ipNetString)) ∧
    updateRoutes Example.lib RangeOrder.reversed
        (Kernel.obliging [] [Example.routeWithPriority 1 RTPROT_BOOT 254 7 1,
          Example.routeWithPriority 1 RTPROT_BOOT 254 7 2,
          Example.route 5 RTPROT_STATIC 254 7])
        { Routes := [Example.net16 5, Example.net16 6] } Example.wg0 =
      ([Call.RouteDelete (Example.routeWithPriority 1 RTPROT_BOOT 254 7 2),
        Call.RouteAdd Example.wg0 (Example.net16 6) 254 7], none) :=
  ⟨(updateRoutes_against_kernel_routes Example.lib RangeOrder.reversed
      (Kernel.obliging [] [Example.routeWithPriority 1 RTPROT_BOOT 254 7 1,
        Example.routeWithPriority 1 RTPROT_BOOT 254 7 2,
        Example.route 5 RTPROT_STATIC 254 7])
      { Routes := [Example.net16 5, Example.net16 6] } Example.wg0
      [Example.routeWithPriority 1 RTPROT_BOOT 254 7 1,
        Example.routeWithPriority 1 RTPROT_BOOT 254 7 2,
        Example.route 5 RTPROT_STATIC 254 7] rfl (fun _ _ => rfl)).2.2.1,
    by decide⟩

end netconf

/-! ## The second run on the default route -/

namespace netconf

/-- C6 at the failing input: the desired route is `0.0.0.0/0` and the library gives the
string `<nil>` for a network without IP bytes.  The first run, on a kernel that lists no
route, adds the route; the kernel then lists it as a managed route without destination,
whose key is `<nil>` and not the desired key `0.0.0.0/0`; so the second run, with the same
desired model, deletes that route and adds it again, for every visiting order. -/
theorem updateRoutes_default_route_second_run (ρ : RangeOrder) :
    updateRoutes Example.goLib ρ (Kernel.obliging [] [])
        { Routes := [Example.defaultNet] } Example.wg0 =
      ([Call.RouteAdd Example.wg0 Example.defaultNet 254 7], none) ∧
    passesFilter { Routes := [Example.defaultNet] } Example.wg0 Example.defaultRoute = true ∧
    prefixString Example.goLib Example.defaultRoute = "<nil>" ∧
    Example.goLib.ipNetString Example.defaultNet = "0.0.0.0/0" ∧
    updateRoutes Example.goLib ρ (Kernel.obliging [] [Example.defaultRoute])
        { Routes := [Example.defaultNet] } Example.wg0 =
      ([Call.RouteDelete Example.defaultRoute,
        Call.RouteAdd Example.wg0 Example.defaultNet 254 7], none) := by
  refine ⟨?_, by decide, by decide, by decide, ?_⟩
  · rw [updateRoutes_obliging Example.goLib ρ _ _ _ [] rfl (fun _ _ => rfl), reconcile_eq]
    have h1 : (managedRoutes Example.goLib
        (targetTable { Routes := [Example.defaultNet] }) Example.wg0 [] []).filter
        (fun e => !(decide (e.1 ∈ ({ Routes := [Example.defaultNet] } :
          NetworkConfig).Routes.map Example.goLib.ipNetString))) = [] := by decide
    have h2 : (collect Example.goLib.ipNetString
        ({ Routes := [Example.defaultNet] } : NetworkConfig).Routes []).filter
        (fun e => !(decide (e.1 ∈ GoMap.keys (managedRoutes Example.goLib
          (targetTable { Routes := [Example.defaultNet] }) Example.wg0 [] [])))) =
        [("0.0.0.0/0", Example.defaultNet)] := by decide
    simp only [h1, h2, order_nil, wgquick.order_singleton]
    rfl
  · rw [updateRoutes_obliging Example.goLib ρ _ _ _ [Example.defaultRoute] rfl
      (fun _ _ => rfl), reconcile_eq]
    have h1 : (managedRoutes Example.goLib
        (targetTable { Routes := [Example.defaultNet] }) Example.wg0
        [Example.defaultRoute] []).filter
        (fun e => !(decide (e.1 ∈ ({ Routes := [Example.defaultNet] } :
          NetworkConfig).Routes.map Example.goLib.ipNetString))) =
        [("<nil>", Example.defaultRoute)] := by decide
    have h2 : (collect Example.goLib.ipNetString
        ({ Routes := [Example.defaultNet] } : NetworkConfig).Routes []).filter
        (fun e => !(decide (e.1 ∈ GoMap.keys (managedRoutes Example.goLib
          (targetTable { Routes := [Example.defaultNet] }) Example.wg0
          [Example.defaultRoute] [])))) =
        [("0.0.0.0/0", Example.defaultNet)] := by decide
    simp only [h1, h2, wgquick.order_singleton]
    rfl

end netconf

/-! ## The extractor: two hints -/

namespace wgquick

/-- C10 as amended: with a non-empty path hint the extractor never compares the two hints,
and hints that disagree are not an error by themselves: the document is the one the path
hint names, and whether a configuration is returned, the error, the WireGuard model and the
MTU, addresses, routes and table of the network model are the same for every non-empty
interface hint, one that disagrees with the path included.  The interface name and the
device name of the configuration are not part of the statement. -/
theorem parse_never_compares_hints (env : Env) (probing : Bool)
    (path i1 i2 : String) (hp : path ≠ "") (h1 : i1 ≠ "") (h2 : i2 ≠ "") :
    (parse env (some { Interface := i1, Path := path, ProbeParser := probing })).2 =
      (parse env (some { Interface := i2, Path := path, ProbeParser := probing })).2 ∧
    (parse env (some { Interface := i1, Path := path, ProbeParser := probing })).1.isSome =
      (parse env (some { Interface := i2, Path := path, ProbeParser := probing })).1.isSome ∧
    (parse env (some { Interface := i1, Path := path, ProbeParser := probing })).1.map
        (fun conf => conf.WireGuard) =
      (parse env (some { Interface := i2, Path := path, ProbeParser := probing })).1.map
        (fun conf => conf.WireGuard) ∧
    (parse env (some { Interface := i1, Path := path, ProbeParser := probing })).1.map
        (fun conf => (conf.Network.MTU, conf.Network.Addresses, conf.Network.Routes,
          conf.Network.Table)) =
      (parse env (some { Interface := i2, Path := path, ProbeParser := probing })).1.map
        (fun conf => (conf.Network.MTU, conf.Network.Addresses, conf.Network.Routes,
          conf.Network.Table)) := by
  have h : parse env (some { Interface := i1, Path := path, ProbeParser := probing }) =
      parse env (some { Interface := i2, Path := path, ProbeParser := probing }) := by
    simp [parse, wgconf.ExtractParserOptions, locate, hp, h1, h2]
  rw [h]
  exact ⟨rfl, rfl, rfl, rfl⟩

/-- Witness of C10 as amended: for the path `/etc/wireguard/wg1.conf`, the hints `wg0` and
`wg1` give the same error, none, and the same WireGuard model. -/
theorem parse_never_compares_hints_witness :
    ("/etc/wireguard/wg1.conf" ≠ "" ∧ "wg0" ≠ "" ∧ "wg1" ≠ "") ∧
    (parse Example.env
        (some { Interface := "wg0", Path := "/etc/wireguard/wg1.conf",
                ProbeParser := false })).2 =
      (parse Example.env
        (some { Interface := "wg1", Path := "/etc/wireguard/wg1.conf",
                ProbeParser := false })).2 ∧
    (parse Example.env
        (some { Interface := "wg0", Path := "/etc/wireguard/wg1.conf",
                ProbeParser := false })).1.map (fun conf => conf.WireGuard) =
      some { ListenPort := some 51820 } :=
  ⟨⟨by decide, by decide, by decide⟩,
    (parse_never_compares_hints Example.env false "/etc/wireguard/wg1.conf"
      "wg0" "wg1" (by decide) (by decide) (by decide)).1,
    by decide⟩

end wgquick
